import Mathlib

/-!
ForwardTracking: a shallow embedding of the criteria, the track functors, the FTD hit
connector, the endcap sector system, the FTD hit, the cut-off ladder and the tracking feedback
processor.

Numbers that the C++ code keeps in `float`/`double` live in an arbitrary linearly
ordered field `α` (exact arithmetic); the library functions `sqrt`, `TVector3::Phi`
and the constant `M_PI` are parameters of the definitions that use them, and so is the
conversion of a `double` to `float` where the code stores a `double` result in a `float`
before it compares it with its cut-offs (`toFloat32` is that conversion as IEEE 754 defines it).
`unsigned` quantities are natural numbers, `int` quantities are integers, pointers are
addresses (natural numbers). A method that can throw returns `Except`, or, where an assignment
precedes the call that throws, the state afterwards together with the exception; a method that
changes its object returns the state of the object afterwards.
-/

namespace ForwardTracking

/-! ## Values, hits and segments -/

/-- A floating point value as far as the criteria can tell values apart: an exact
number, or one of the three special values: the infinities (a division of a non-zero number by
zero, or a conversion to `float` that overflows) and `NaN` (the division `0/0`). -/
inductive FloatVal (α : Type) where
  | finite (v : α)
  | posInf
  | negInf
  | nan
  deriving DecidableEq, Repr

/-- The division `a / b` of two floating point numbers: exact for a non-zero divisor,
and for a zero divisor `NaN` (zero dividend) or the infinity with the sign of the dividend. -/
def FloatVal.div {α : Type} [LinearOrderedField α] (a b : α) : FloatVal α :=
  if b = 0 then
    if a = 0 then FloatVal.nan
    else if a > 0 then FloatVal.posInf
    else FloatVal.negInf
  else FloatVal.finite (a / b)

/-- The comparison `q > c` against a finite cut-off; every comparison with `NaN` is false. -/
def FloatVal.gt {α : Type} [LinearOrderedField α] (q : FloatVal α) (c : α) : Bool :=
  match q with
  | FloatVal.finite v => decide (v > c)
  | FloatVal.posInf => true
  | FloatVal.negInf => false
  | FloatVal.nan => false

/-- The comparison `q < c` against a finite cut-off; every comparison with `NaN` is false. -/
def FloatVal.lt {α : Type} [LinearOrderedField α] (q : FloatVal α) (c : α) : Bool :=
  match q with
  | FloatVal.finite v => decide (v < c)
  | FloatVal.posInf => false
  | FloatVal.negInf => true
  | FloatVal.nan => false

/-- The conversion of a `double` to `float` on all values, given the conversion `toFloat` of the
finite ones: the infinities and `NaN` are converted to themselves. -/
def FloatVal.narrow {α : Type} (toFloat : α → FloatVal α) (q : FloatVal α) : FloatVal α :=
  match q with
  | FloatVal.finite v => toFloat v
  | FloatVal.posInf => FloatVal.posInf
  | FloatVal.negInf => FloatVal.negInf
  | FloatVal.nan => FloatVal.nan

/-- The integer nearest to `x`, the even one of the two when `x` lies half-way between two
integers. -/
def roundNearestEven {α : Type} [LinearOrderedField α] [FloorRing α] (x : α) : Int :=
  let n := Int.floor x
  if x - (n : α) < 1 / 2 then n
  else if x - (n : α) > 1 / 2 then n + 1
  else if n % 2 = 0 then n
  else n + 1

/-- The conversion of a finite `double` to `float` (IEEE 754 binary32, round to nearest, ties
to even): the magnitude is rounded to a multiple of `2^(e-23)`, where `2^e` is the power of two
at or below it and `e` is at least `-126` (below `2^-126` the spacing is that of the
subnormal numbers); a result of `2^128` or more is the infinity of the sign of `x`. -/
def toFloat32 {α : Type} [LinearOrderedField α] [FloorRing α] (x : α) : FloatVal α :=
  let e := max (Int.log 2 |x|) (-126)
  let ulp := (2 : α) ^ (e - 23)
  let y := (roundNearestEven (|x| / ulp) : α) * ulp
  if y ≥ 2 ^ 128 then
    if x > 0 then FloatVal.posInf else FloatVal.negInf
  else FloatVal.finite (if x < 0 then -y else y)

/-- The member `_map_name_value` of a criterion: a `std::map< std::string , float >`. -/
abbrev ValueMap (α : Type) := String → Option (FloatVal α)

/-- The map of a newly constructed criterion. -/
def ValueMap.empty {α : Type} : ValueMap α := fun _ => none

/-- The assignment `map[key] = v`. -/
def ValueMap.set {α : Type} (m : ValueMap α) (key : String) (v : FloatVal α) : ValueMap α :=
  fun k => if k = key then some v else m k

/-- An `AutHit` as far as the criteria read it: its three coordinates. -/
structure AutHit (α : Type) where
  x : α
  y : α
  z : α
  deriving DecidableEq, Repr

/-- A `Segment` as far as the criteria read it: the vector returned by `getAutHits()`. -/
structure Segment (α : Type) where
  autHits : List (AutHit α)
  deriving DecidableEq, Repr

/-- The exception `BadSegmentLength`, carrying its message. -/
structure BadSegmentLength where
  what : String
  deriving DecidableEq, Repr

/-- The helper `intToString`. -/
def intToString (n : Nat) : String := toString n

/-- A `TVector3`: three components. -/
structure TVector3 (α : Type) where
  x : α
  y : α
  z : α
  deriving DecidableEq, Repr

/-! ## Crit2_DeltaRho -/

/-- The state of a `Crit2_DeltaRho` object. -/
structure Crit2_DeltaRho (α : Type) where
  deltaRhoMax : α
  deltaRhoMin : α
  name : String
  type : String
  saveValues : Bool
  map_name_value : ValueMap α

/-- The constructor `Crit2_DeltaRho( deltaRhoMin , deltaRhoMax )`. -/
def Crit2_DeltaRho.new {α : Type} (deltaRhoMin deltaRhoMax : α) : Crit2_DeltaRho α :=
  { deltaRhoMax := deltaRhoMax
    deltaRhoMin := deltaRhoMin
    name := "Crit2_DeltaRho"
    type := "2Hit"
    saveValues := false
    map_name_value := ValueMap.empty }

/-- The method `Crit2_DeltaRho::areCompatible( parent , child )`: the verdict together with the
state of the criterion afterwards, or the exception thrown (the criterion is then as it was:
nothing is assigned before the `throw`). `sqrt` is the square root of the maths library. -/
def Crit2_DeltaRho.areCompatible {α : Type} [LinearOrderedField α] (sqrt : α → α)
    (self : Crit2_DeltaRho α) (parent child : Segment α) :
    Except BadSegmentLength (Bool × Crit2_DeltaRho α) :=
  if h : parent.autHits.length = 1 ∧ child.autHits.length = 1 then
    let a := parent.autHits.get ⟨0, by omega⟩
    let b := child.autHits.get ⟨0, by omega⟩
    let ax := a.x
    let ay := a.y
    let bx := b.x
    let by_ := b.y
    let rhoA := sqrt (ax * ax + ay * ay)
    let rhoB := sqrt (bx * bx + by_ * by_)
    let deltaRho := rhoA - rhoB
    let self1 : Crit2_DeltaRho α :=
      if self.saveValues then
        { self with
          map_name_value :=
            ((self.map_name_value.set "Crit2_DeltaRho_rhoParent" (FloatVal.finite rhoA)).set
              "Crit2_DeltaRho_rhoChild" (FloatVal.finite rhoB)).set
              "Crit2_DeltaRho" (FloatVal.finite deltaRho) }
      else self
    if deltaRho > self.deltaRhoMax then Except.ok (false, self1)
    else if deltaRho < self.deltaRhoMin then Except.ok (false, self1)
    else Except.ok (true, self1)
  else
    Except.error
      ⟨"Crit2_DeltaRho::This criterion needs 2 segments with 1 hit each, passed was a "
        ++ intToString parent.autHits.length ++ " hit segment (parent) and a "
        ++ intToString child.autHits.length ++ " hit segment (child)."⟩

/-! ## Crit4_2DAngleChange -/

/-- The state of a `Crit4_2DAngleChange` object. -/
structure Crit4_2DAngleChange (α : Type) where
  changeMax : α
  changeMin : α
  name : String
  type : String
  saveValues : Bool
  map_name_value : ValueMap α

/-- The constructor `Crit4_2DAngleChange( changeMin , changeMax )`. -/
def Crit4_2DAngleChange.new {α : Type} (changeMin changeMax : α) : Crit4_2DAngleChange α :=
  { changeMax := changeMax
    changeMin := changeMin
    name := "Crit4_2DAngleChange"
    type := "4Hit"
    saveValues := false
    map_name_value := ValueMap.empty }

/-- The two statements that `Crit4_2DAngleChange::areCompatible` applies to each of its
angles: `angle -= 2*M_PI*floor( angle /2. /M_PI )` and then
`if (angle > M_PI) angle -= 2*M_PI`. `pi` is the constant `M_PI`. -/
def Crit4_2DAngleChange.normalise {α : Type} [LinearOrderedField α] [FloorRing α]
    (pi : α) (angle : α) : α :=
  let angle1 := angle - 2 * pi * ((Int.floor (angle / 2 / pi) : Int) : α)
  if angle1 > pi then angle1 - 2 * pi else angle1

/-- The method `Crit4_2DAngleChange::areCompatible( parent , child )`: the verdict together
with the state of the criterion afterwards, or the exception thrown (the criterion is then as
it was: nothing is assigned before the `throw`). `Phi` is `TVector3::Phi()`, `pi` the
constant `M_PI`, and `toFloat` the conversion of the `double` quotient of the two angles to the
`float` variable `ratioOf2DAngles`, which is what the map stores and the cut-offs are compared
with. -/
def Crit4_2DAngleChange.areCompatible {α : Type} [LinearOrderedField α] [FloorRing α]
    (Phi : TVector3 α → α) (pi : α) (toFloat : α → FloatVal α)
    (self : Crit4_2DAngleChange α) (parent child : Segment α) :
    Except BadSegmentLength (Bool × Crit4_2DAngleChange α) :=
  if h : parent.autHits.length = 3 ∧ child.autHits.length = 3 then
    let a := parent.autHits.get ⟨0, by omega⟩
    let b := parent.autHits.get ⟨1, by omega⟩
    let c := parent.autHits.get ⟨2, by omega⟩
    let d := child.autHits.get ⟨2, by omega⟩
    let outerVec : TVector3 α := ⟨b.x - a.x, b.y - a.y, b.z - a.z⟩
    let middleVec : TVector3 α := ⟨c.x - b.x, c.y - b.y, c.z - b.z⟩
    let innerVec : TVector3 α := ⟨d.x - c.x, d.y - c.y, d.z - c.z⟩
    let angleXY1 := Crit4_2DAngleChange.normalise pi (Phi outerVec - Phi middleVec)
    let angleXY2 := Crit4_2DAngleChange.normalise pi (Phi middleVec - Phi innerVec)
    let ratioOf2DAngles := (FloatVal.div angleXY1 angleXY2).narrow toFloat
    let self1 : Crit4_2DAngleChange α :=
      if self.saveValues then
        { self with
          map_name_value := self.map_name_value.set "Crit4_2DAngleChange" ratioOf2DAngles }
      else self
    if ratioOf2DAngles.gt self.changeMax then Except.ok (false, self1)
    else if ratioOf2DAngles.lt self.changeMin then Except.ok (false, self1)
    else Except.ok (true, self1)
  else
    Except.error
      ⟨"Crit4_2DAngleChange::This criterion needs 2 segments with 3 hits each, passed was a "
        ++ intToString parent.autHits.length ++ " hit segment (parent) and a "
        ++ intToString child.autHits.length ++ " hit segment (child)."⟩

/-! ## Tracks: compatibility and quality functors -/

/-- An `IHit*`: hits are compared by their address. -/
abbrev IHitPtr := Nat

/-- An `ITrack` as far as the functors read it: `getHits()` and `getChi2Prob()`. -/
structure ITrack (α : Type) where
  hits : List IHitPtr
  chi2Prob : α
  deriving DecidableEq, Repr

/-- The functor `TrackCompatibilityShare1SP`: the two nested loops return `false` at the first
pair `hitsA[i] == hitsB[j]`, and `true` is returned when they run to their end. -/
def TrackCompatibilityShare1SP {α : Type} (trackA trackB : ITrack α) : Bool :=
  let hitsA := trackA.hits
  let hitsB := trackB.hits
  !(hitsA.any fun hitA => hitsB.any fun hitB => hitA == hitB)

/-- The functor `TrackQIChi2Prob`. -/
def TrackQIChi2Prob {α : Type} (track : ITrack α) : α := track.chi2Prob

/-- The functor `TrackQIChi2ProbSpecial`. -/
def TrackQIChi2ProbSpecial {α : Type} [LinearOrderedField α] (track : ITrack α) : α :=
  if track.hits.length > 3 then track.chi2Prob / 2 + 0.5
  else track.chi2Prob / 2

/-! ## FTDHitCon01 -/

/-- The exception `OutOfRange`, carrying its message. -/
structure OutOfRange where
  what : String
  deriving DecidableEq, Repr

/-- The class `SectorSystemFTD` is declared outside the sources at hand: the methods that
`FTDHitCon01` calls are taken as they are given, each of them free to throw `OutOfRange`. -/
structure SectorSystemFTD where
  getSide : Int → Except OutOfRange Int
  getLayer : Int → Except OutOfRange Nat
  getSector : Int → Nat → Nat → Nat → Except OutOfRange Int
  getNumberOfModules : Nat
  getNumberOfSensors : Nat

/-- The state of an `FTDHitCon01` object. -/
structure FTDHitCon01 where
  sectorSystemFTD : SectorSystemFTD
  layerStepMax : Nat
  lastLayerToIP : Nat

/-- The pair of loops "over all modules", "over all sensors" of `getTargetSectors`, which
inserts `getSector( side , layerTarget , iModule , iSensor )` into the set. -/
def FTDHitCon01.insertLayer (ss : SectorSystemFTD) (nModules nSensors : Nat)
    (side : Int) (layerTarget : Nat) (targetSectors : Finset Int) :
    Except OutOfRange (Finset Int) :=
  (List.range nModules).foldlM
    (fun acc iModule =>
      (List.range nSensors).foldlM
        (fun acc2 iSensor => do
          let s ← ss.getSector side layerTarget iModule iSensor
          pure (insert s acc2))
        acc)
    targetSectors

/-- The method `FTDHitCon01::getTargetSectors( sector )`. The loop counter `layerStep` runs over
`1, ..., layerStepMax` as a natural number (the counter of the code is an `unsigned` that would
wrap only for `layerStepMax = 2^32 - 1`), and the one subtraction, `layer - layerStep`, is
evaluated under the guard `layer >= layerStep` as in the code. -/
def FTDHitCon01.getTargetSectors (self : FTDHitCon01) (sector : Int) :
    Except OutOfRange (Finset Int) := do
  let side ← self.sectorSystemFTD.getSide sector
  let layer ← self.sectorSystemFTD.getLayer sector
  let nModules := self.sectorSystemFTD.getNumberOfModules
  let nSensors := self.sectorSystemFTD.getNumberOfSensors
  let targetSectors ← (List.range' 1 self.layerStepMax).foldlM
    (fun acc layerStep =>
      if layer ≥ layerStep then
        let layerTarget := layer - layerStep
        FTDHitCon01.insertLayer self.sectorSystemFTD nModules nSensors side layerTarget acc
      else pure acc)
    (∅ : Finset Int)
  if layer > 1 ∧ layer ≤ self.lastLayerToIP then
    let layerTarget := 0
    FTDHitCon01.insertLayer self.sectorSystemFTD nModules nSensors side layerTarget targetSectors
  else pure targetSectors

/-- Modelled from the spec: an instance of `SectorSystemFTD`, whose source is missing, with the
fixed-radix positional encoding `sector = side-offset + layer + nLayers * (module + nModules *
sensor)`, the side offset being `nLayers * nModules * nSensors` for the side `+1` and `0` for the
side `-1`; sectors and indices outside their ranges are reported as `OutOfRange`. -/
def radixSectorSystemFTD (nLayers nModules nSensors : Nat) : SectorSystemFTD :=
  { getSide := fun sector =>
      if sector < 0 ∨ sector ≥ 2 * (nLayers * nModules * nSensors : Nat) then
        Except.error ⟨"sector out of range"⟩
      else if sector ≥ (nLayers * nModules * nSensors : Nat) then Except.ok 1
      else Except.ok (-1)
    getLayer := fun sector =>
      if sector < 0 ∨ sector ≥ 2 * (nLayers * nModules * nSensors : Nat) then
        Except.error ⟨"sector out of range"⟩
      else Except.ok (sector.toNat % nLayers)
    getSector := fun side layer module sensor =>
      if (side ≠ 1 ∧ side ≠ -1) ∨ layer ≥ nLayers ∨ module ≥ nModules ∨ sensor ≥ nSensors then
        Except.error ⟨"index out of range"⟩
      else
        Except.ok ((((side + 1) / 2).toNat * (nLayers * nModules * nSensors)
          + layer + nLayers * (module + nModules * sensor) : Nat) : Int)
    getNumberOfModules := nModules
    getNumberOfSensors := nSensors }

/-- The layer of a sector, 0 when the sector system reports none. -/
def FTDHitCon01.layerOf (self : FTDHitCon01) (sector : Int) : Nat :=
  match self.sectorSystemFTD.getLayer sector with
  | Except.ok layer => layer
  | Except.error _ => 0

/-- The hit-connection relation on sectors: hits of the sector `source` are connected to hits of
the sector `target` when `getTargetSectors( source )` returns a set that contains `target`. -/
def FTDHitCon01.connects (self : FTDHitCon01) (source target : Int) : Prop :=
  ∃ targets, self.getTargetSectors source = Except.ok targets ∧ target ∈ targets

/-! ## SectorSystemEndcap -/

/-- The state of a `SectorSystemEndcap` object. -/
structure SectorSystemEndcap where
  sectorMax : Int
  nLayers : Nat
  nDivisionsInPhi : Nat
  nDivisionsInTheta : Nat
  deriving DecidableEq, Repr

/-- Modelled from the spec: the constructor of `SectorSystemEndcap`, whose body is missing from
the sources; `sectorMax` is computed from `(nLayers, nDivisionsInPhi, nDivisionsInTheta)` as the
largest value of the positional encoding. -/
def SectorSystemEndcap.new (nLayers nDivisionsInPhi nDivisionsInTheta : Nat) :
    SectorSystemEndcap :=
  { sectorMax := (nLayers : Int) * nDivisionsInPhi * nDivisionsInTheta - 1
    nLayers := nLayers
    nDivisionsInPhi := nDivisionsInPhi
    nDivisionsInTheta := nDivisionsInTheta }

/-- Modelled from the spec: `checkSectorIsInRange`, whose body is missing from the sources; it
fails with `OutOfRange` if the sector falls outside `[0, sectorMax]`. -/
def SectorSystemEndcap.checkSectorIsInRange (self : SectorSystemEndcap) (sector : Int) :
    Except OutOfRange Unit :=
  if sector < 0 ∨ sector > self.sectorMax then
    Except.error ⟨"SectorSystemEndcap: sector outside of [0, sectorMax]"⟩
  else Except.ok ()

/-- Modelled from the spec: `getSector( layer , phi , theta )`, whose body is missing from the
sources; out-of-range is reported for an invalid layer or division index, and the encoding is
the fixed-radix positional mapping `layer + nLayers * (phi + nDivisionsInPhi * theta)`. -/
def SectorSystemEndcap.getSector (self : SectorSystemEndcap) (layer phi theta : Int) :
    Except OutOfRange Int :=
  if layer < 0 ∨ layer ≥ self.nLayers then
    Except.error ⟨"SectorSystemEndcap: layer out of range"⟩
  else if phi < 0 ∨ phi ≥ self.nDivisionsInPhi then
    Except.error ⟨"SectorSystemEndcap: phi out of range"⟩
  else if theta < 0 ∨ theta ≥ self.nDivisionsInTheta then
    Except.error ⟨"SectorSystemEndcap: theta out of range"⟩
  else do
    let sector := layer + self.nLayers * (phi + self.nDivisionsInPhi * theta)
    self.checkSectorIsInRange sector
    pure sector

/-- Modelled from the spec: `getLayer( sector )`, whose body is missing from the sources; the
lowest digit of the positional encoding. -/
def SectorSystemEndcap.getLayer (self : SectorSystemEndcap) (sector : Int) :
    Except OutOfRange Nat := do
  self.checkSectorIsInRange sector
  pure (sector % self.nLayers).toNat

/-- Modelled from the spec: `getPhi( sector )`, whose body is missing from the sources; the
middle digit of the positional encoding. -/
def SectorSystemEndcap.getPhi (self : SectorSystemEndcap) (sector : Int) :
    Except OutOfRange Nat := do
  self.checkSectorIsInRange sector
  pure ((sector / self.nLayers) % self.nDivisionsInPhi).toNat

/-- Modelled from the spec: `getTheta( sector )`, whose body is missing from the sources; the
highest digit of the positional encoding. -/
def SectorSystemEndcap.getTheta (self : SectorSystemEndcap) (sector : Int) :
    Except OutOfRange Nat := do
  self.checkSectorIsInRange sector
  pure ((sector / (self.nLayers * self.nDivisionsInPhi)) % self.nDivisionsInTheta).toNat

/-! ## IFTDHit -/

/-- The state of an `IFTDHit` as far as its setters touch it: the four location fields, the
sector system, and the member `_sector` inherited from `IHit`. -/
structure IFTDHit where
  side : Int
  layer : Nat
  module : Nat
  sensor : Nat
  sectorSystemFTD : SectorSystemFTD
  sector : Int

/-- The method `IFTDHit::calculateSector()`: the state of the hit afterwards, and the exception
if `getSector` threw one (the member `_sector` is then not assigned). -/
def IFTDHit.calculateSector (self : IFTDHit) : IFTDHit × Option OutOfRange :=
  match self.sectorSystemFTD.getSector self.side self.layer self.module self.sensor with
  | Except.ok s => ({ self with sector := s }, none)
  | Except.error e => (self, some e)

/-- The method `IFTDHit::getSide()`. -/
def IFTDHit.getSide (self : IFTDHit) : Int := self.side

/-- The method `IFTDHit::getModule()`. -/
def IFTDHit.getModule (self : IFTDHit) : Nat := self.module

/-- The method `IFTDHit::getSensor()`. -/
def IFTDHit.getSensor (self : IFTDHit) : Nat := self.sensor

/-- The method `IFTDHit::setSide( side )`: `_side = side; calculateSector();`. -/
def IFTDHit.setSide (self : IFTDHit) (side : Int) : IFTDHit × Option OutOfRange :=
  IFTDHit.calculateSector { self with side := side }

/-- The method `IFTDHit::setLayer( layer )`: `_layer = layer; calculateSector();`. -/
def IFTDHit.setLayer (self : IFTDHit) (layer : Nat) : IFTDHit × Option OutOfRange :=
  IFTDHit.calculateSector { self with layer := layer }

/-- The method `IFTDHit::setModule( module )`: `_module = module; calculateSector();`. -/
def IFTDHit.setModule (self : IFTDHit) (module : Nat) : IFTDHit × Option OutOfRange :=
  IFTDHit.calculateSector { self with module := module }

/-- The method `IFTDHit::setSensor( sensor )`: `_layer = sensor; calculateSector();`, as the
source has it. -/
def IFTDHit.setSensor (self : IFTDHit) (sensor : Nat) : IFTDHit × Option OutOfRange :=
  IFTDHit.calculateSector { self with layer := sensor }

/-! ## DDForwardTracking::setCriteria -/

/-- The members of `DDForwardTracking` that `setCriteria` reads: the names of the criteria and
the configured lists of minima and maxima of each name. -/
structure DDForwardTracking (α : Type) where
  criteriaNames : List String
  critMinima : String → List α
  critMaxima : String → List α

/-- Modelled from the spec: the cut-off value that a round takes from a configured list; the
body of `setCriteria` is missing from the sources. Round N uses index N if present, else holds
the last configured value. -/
def DDForwardTracking.cutoffOfRound {α : Type} (values : List α) (round : Nat) : Option α :=
  if round < values.length then values.get? round else values.getLast?

/-- Modelled from the spec: `DDForwardTracking::setCriteria( round )`, whose body is missing
from the sources. For every criterion name the minimum and the maximum of the round are taken
from the two lists; the result says whether any new cut-off value was set, and lists the
criteria of the round with their cut-offs. -/
def DDForwardTracking.setCriteria {α : Type} (self : DDForwardTracking α) (round : Nat) :
    Bool × List (String × Option α × Option α) :=
  let newValuesGotUsed :=
    self.criteriaNames.any fun critName =>
      decide (round < (self.critMinima critName).length) ||
        decide (round < (self.critMaxima critName).length)
  let criteria :=
    self.criteriaNames.map fun critName =>
      (critName, DDForwardTracking.cutoffOfRound (self.critMinima critName) round,
        DDForwardTracking.cutoffOfRound (self.critMaxima critName) round)
  (newValuesGotUsed, criteria)

/-! ## TrackingFeedbackProcessor -/

/-- A `TrackerHit*`: hits are compared by their address. -/
abbrev TrackerHitPtr := Nat

/-- A `Track*`, used as key of `map_track_type`. -/
abbrev TrackPtr := Nat

/-- A `TrueTrack*`: true tracks are compared and sorted by their address; 0 is `NULL`. -/
abbrev TrueTrackPtr := Nat

/-- The null pointer. -/
def NULL : TrueTrackPtr := 0

/-- The values of the enumeration `TrackType` that `checkTheTrack` assigns. -/
inductive TrackType where
  | COMPLETE
  | COMPLETE_PLUS
  | INCOMPLETE
  | INCOMPLETE_PLUS
  deriving DecidableEq, Repr

/-- An lcio `Track` as far as the processor reads it: its address and `getTrackerHits()`. -/
structure Track where
  ptr : TrackPtr
  trackerHits : List TrackerHitPtr
  deriving DecidableEq, Repr

/-- The member `map_track_type` of a true track: a `std::map< Track* , TrackType >`. -/
abbrev TrackTypeMap := TrackPtr → Option TrackType

/-- The call `map.insert( std::pair( key , v ) )`: a key that is already in the map keeps its
value. -/
def TrackTypeMap.insert (m : TrackTypeMap) (key : TrackPtr) (v : TrackType) : TrackTypeMap :=
  fun k => if k = key then (match m key with
    | some old => some old
    | none => some v) else m k

/-- A `TrueTrack` as far as the processor touches it: the track returned by `getTrueTrack()`,
the three flags and `map_track_type`. -/
structure TrueTrack where
  trueTrack : Track
  isLost : Bool
  isFoundCompletely : Bool
  completeVersionExists : Bool
  map_track_type : TrackTypeMap

/-- The state of a `TrackingFeedbackProcessor` as far as `processEvent` and `checkTheTrack`
touch it: the counters of the event, the vector `_trueTracks` of pointers, and the true tracks
that the pointers point to. -/
structure TrackingFeedbackProcessor where
  nComplete : Nat
  nCompletePlus : Nat
  nLost : Nat
  nIncomplete : Nat
  nIncompletePlus : Nat
  nGhost : Nat
  nFoundCompletely : Nat
  nTrueTracks : Nat
  nRecoTracks : Nat
  nDismissedTrueTracks : Nat
  trueTracks : List TrueTrackPtr
  heap : TrueTrackPtr → TrueTrack

/-- An assignment through a `TrueTrack*`: the true track at the address `p` is replaced. -/
def TrackingFeedbackProcessor.store (self : TrackingFeedbackProcessor) (p : TrueTrackPtr)
    (tt : TrueTrack) : TrackingFeedbackProcessor :=
  { self with heap := fun q => if q = p then tt else self.heap q }

/-- The local variables of the counting loop of `getAssignedTrueTrack`. -/
structure CountState where
  previousTT : TrueTrackPtr
  n : Nat
  nMax : Nat
  assignedTrueTrack : TrueTrackPtr
  deriving DecidableEq, Repr

/-- One pass of the counting loop of `getAssignedTrueTrack`, on the element
`relatedTrueTracks[j]`. -/
def CountState.step (s : CountState) (tt : TrueTrackPtr) : CountState :=
  let n := if tt = s.previousTT then s.n + 1 else 1
  let previousTT := tt
  if n > s.nMax then
    { previousTT := previousTT, n := n, nMax := n, assignedTrueTrack := tt }
  else
    { previousTT := previousTT, n := n, nMax := s.nMax,
      assignedTrueTrack := s.assignedTrueTrack }

/-- The first part of `getAssignedTrueTrack`: `sort` (by address), then the counting loop,
started with `previousTT = NULL`, `n = 0`, `nMax = 0` and `assignedTrueTrack = NULL`. -/
def TrackingFeedbackProcessor.countLoop (relatedTrueTracks : List TrueTrackPtr) : CountState :=
  let sorted := relatedTrueTracks.insertionSort (· ≤ ·)
  sorted.foldl CountState.step
    { previousTT := NULL, n := 0, nMax := 0, assignedTrueTrack := NULL }

/-- The method `TrackingFeedbackProcessor::getAssignedTrueTrack( relatedTrueTracks ,
nHitsFromAssignedTrueTrack )`: the returned pointer and the value of the reference parameter
afterwards. The two rates are computed in exact arithmetic. -/
def TrackingFeedbackProcessor.getAssignedTrueTrack (self : TrackingFeedbackProcessor)
    (relatedTrueTracks : List TrueTrackPtr) (nHitsFromAssignedTrueTrack : Nat) :
    TrueTrackPtr × Nat :=
  let s := TrackingFeedbackProcessor.countLoop relatedTrueTracks
  let nMax := s.nMax
  let assignedTrueTrack := s.assignedTrueTrack
  if assignedTrueTrack = NULL then (NULL, nHitsFromAssignedTrueTrack)
  else if relatedTrueTracks.isEmpty then (NULL, nHitsFromAssignedTrueTrack)
  else
    let nHitsAssignedTT := (self.heap assignedTrueTrack).trueTrack.trackerHits.length
    if nHitsAssignedTT = 0 then (NULL, nHitsFromAssignedTrueTrack)
    else
      let assign := true
      let rateOfAssignedHitsMin : ℚ := 0.5
      let assign :=
        if (nMax : ℚ) / (relatedTrueTracks.length : ℚ) < rateOfAssignedHitsMin then false
        else assign
      let rateOfFoundHitsMin : ℚ := 0.5
      let assign :=
        if (nMax : ℚ) / (nHitsAssignedTT : ℚ) < rateOfFoundHitsMin then false else assign
      if assign then (assignedTrueTrack, nMax)
      else (NULL, nHitsFromAssignedTrueTrack)

/-- The two loops at the start of `checkTheTrack`: for every hit of the track, in order, every
true track of `_trueTracks`, in order, that contains the hit is pushed back. -/
def TrackingFeedbackProcessor.relatedTrueTracks (self : TrackingFeedbackProcessor)
    (hitVec : List TrackerHitPtr) : List TrueTrackPtr :=
  hitVec.flatMap fun hit =>
    self.trueTracks.filter fun tt => decide (hit ∈ (self.heap tt).trueTrack.trackerHits)

/-- The method `TrackingFeedbackProcessor::checkTheTrack( track )`. -/
def TrackingFeedbackProcessor.checkTheTrack (self : TrackingFeedbackProcessor)
    (track : Track) : TrackingFeedbackProcessor :=
  let hitVec := track.trackerHits
  let nHitsTrack := hitVec.length
  let relatedTrueTracks := self.relatedTrueTracks hitVec
  let nHitsFromAssignedTrueTrack := 0
  let result := self.getAssignedTrueTrack relatedTrueTracks nHitsFromAssignedTrueTrack
  let assigendTrueTrack := result.1
  let nHitsFromAssignedTrueTrack := result.2
  if assigendTrueTrack = NULL then
    { self with nGhost := self.nGhost + 1 }
  else
    let nHitsTrueTrack := (self.heap assigendTrueTrack).trueTrack.trackerHits.length
    let tt : TrueTrack := { self.heap assigendTrueTrack with isLost := false }
    if nHitsFromAssignedTrueTrack < nHitsTrueTrack then
      if nHitsFromAssignedTrueTrack < nHitsTrack then
        let trackType := TrackType.INCOMPLETE_PLUS
        { self with nIncompletePlus := self.nIncompletePlus + 1 }.store assigendTrueTrack
          { tt with map_track_type := tt.map_track_type.insert track.ptr trackType }
      else
        let trackType := TrackType.INCOMPLETE
        { self with nIncomplete := self.nIncomplete + 1 }.store assigendTrueTrack
          { tt with map_track_type := tt.map_track_type.insert track.ptr trackType }
    else
      let tt : TrueTrack := { tt with isFoundCompletely := true }
      if nHitsFromAssignedTrueTrack < nHitsTrack then
        let trackType := TrackType.COMPLETE_PLUS
        { self with nCompletePlus := self.nCompletePlus + 1 }.store assigendTrueTrack
          { tt with map_track_type := tt.map_track_type.insert track.ptr trackType }
      else
        let trackType := TrackType.COMPLETE
        let tt : TrueTrack := { tt with completeVersionExists := true }
        { self with nComplete := self.nComplete + 1 }.store assigendTrueTrack
          { tt with map_track_type := tt.map_track_type.insert track.ptr trackType }

/-- An element of the collection of MC true track relations as far as `processEvent` reads it:
the track `rel->getFrom()`, the three numbers that the cuts are applied to (`getDistToIP( mcp )`,
the transversal momentum `pt` and `fitter.getChi2Prob()`), and the address that
`new TrueTrack( track , mcp )` returns when the true track is stored. -/
structure MCTrackRelation where
  track : Track
  distToIP : ℚ
  pt : ℚ
  chi2Prob : ℚ
  address : TrueTrackPtr

/-- The steering parameters of the cuts that `processEvent` applies to the true tracks. -/
structure TrackingFeedbackCuts where
  distToIPMax : ℚ
  ptMin : ℚ
  nHitsMin : Int
  chi2ProbCut : ℚ

/-- One pass of the first loop of `processEvent`, "only store the good tracks": a true track
that passes the four cuts is constructed and pushed back, any other is counted as dismissed.
`newTrueTrack` is the constructor of `TrueTrack`, which is declared outside the sources at
hand. -/
def TrackingFeedbackProcessor.storeTrueTrack (cuts : TrackingFeedbackCuts)
    (newTrueTrack : Track → TrueTrack) (self : TrackingFeedbackProcessor)
    (rel : MCTrackRelation) : TrackingFeedbackProcessor :=
  if rel.distToIP < cuts.distToIPMax ∧ rel.pt > cuts.ptMin ∧
      (rel.track.trackerHits.length : Int) ≥ cuts.nHitsMin ∧
      rel.chi2Prob > cuts.chi2ProbCut then
    { self with trueTracks := self.trueTracks ++ [rel.address] }.store rel.address
      (newTrueTrack rel.track)
  else
    { self with nDismissedTrueTracks := self.nDismissedTrueTracks + 1 }

/-- One pass of the loop of `processEvent` that checks "the relations for lost ones and
completes", on the true track `_trueTracks[i]`. -/
def TrackingFeedbackProcessor.countLostAndFound (self : TrackingFeedbackProcessor)
    (p : TrueTrackPtr) : TrackingFeedbackProcessor :=
  let s1 := if (self.heap p).isLost = true then { self with nLost := self.nLost + 1 } else self
  if (s1.heap p).isFoundCompletely = true then
    { s1 with nFoundCompletely := s1.nFoundCompletely + 1 }
  else s1

/-- The five rates that `processEvent` computes for an event. -/
structure FeedbackStatistics where
  pLost : ℚ
  ghostrate : ℚ
  efficiency : ℚ
  pComplete : ℚ
  pFoundCompletely : ℚ
  deriving DecidableEq, Repr

/-- The part "The statistics" of `processEvent`, in exact arithmetic: every rate starts as
`-1.` and is assigned under the guard of its `if`. -/
def TrackingFeedbackProcessor.statistics (self : TrackingFeedbackProcessor) :
    FeedbackStatistics :=
  let pLost : ℚ := -1
  let ghostrate : ℚ := -1
  let efficiency : ℚ := -1
  let pComplete : ℚ := -1
  let pFoundCompletely : ℚ := -1
  let pLost := if self.nTrueTracks > 0 then (self.nLost : ℚ) / (self.nTrueTracks : ℚ) else pLost
  let efficiency := if self.nTrueTracks > 0 then 1 - pLost else efficiency
  let ghostrate :=
    if self.nRecoTracks > 0 then (self.nGhost : ℚ) / (self.nRecoTracks : ℚ) else ghostrate
  let pComplete :=
    if self.nTrueTracks > 0 then (self.nComplete : ℚ) / (self.nTrueTracks : ℚ) else pComplete
  let pFoundCompletely :=
    if self.nTrueTracks > 0 then (self.nFoundCompletely : ℚ) / (self.nTrueTracks : ℚ)
    else pFoundCompletely
  { pLost := pLost
    ghostrate := ghostrate
    efficiency := efficiency
    pComplete := pComplete
    pFoundCompletely := pFoundCompletely }

/-- The vector `data` of `processEvent`, "the data that will get stored". -/
def TrackingFeedbackProcessor.data (self : TrackingFeedbackProcessor) : List (String × ℚ) :=
  let s := self.statistics
  [("efficiency", s.efficiency), ("ghostrate", s.ghostrate), ("pLost", s.pLost),
    ("pComplete", s.pComplete), ("pFoundCompletely", s.pFoundCompletely),
    ("nComplete", (self.nComplete : ℚ)), ("nCompletePlus", (self.nCompletePlus : ℚ)),
    ("nLost", (self.nLost : ℚ)), ("nIncomplete", (self.nIncomplete : ℚ)),
    ("nIncompletePlus", (self.nIncompletePlus : ℚ)), ("nGhost", (self.nGhost : ℚ)),
    ("nFoundCompletely", (self.nFoundCompletely : ℚ)), ("nTrueTracks", (self.nTrueTracks : ℚ)),
    ("nRecoTracks", (self.nRecoTracks : ℚ)),
    ("nDismissedTrueTracks", (self.nDismissedTrueTracks : ℚ))]

/-- The first part of `processEvent`: the counters of the event are reset, `_trueTracks` is
cleared, the true tracks that pass the cuts are stored, and `_nTrueTracks` is set to their
number. -/
def TrackingFeedbackProcessor.storeTrueTracks (self : TrackingFeedbackProcessor)
    (cuts : TrackingFeedbackCuts) (newTrueTrack : Track → TrueTrack)
    (mcTracks : List MCTrackRelation) : TrackingFeedbackProcessor :=
  let st : TrackingFeedbackProcessor :=
    { self with
      nComplete := 0
      nCompletePlus := 0
      nLost := 0
      nIncomplete := 0
      nIncompletePlus := 0
      nGhost := 0
      nFoundCompletely := 0
      nTrueTracks := 0
      nRecoTracks := 0
      nDismissedTrueTracks := 0 }
  let st := { st with trueTracks := [] }
  let st := mcTracks.foldl (TrackingFeedbackProcessor.storeTrueTrack cuts newTrueTrack) st
  { st with nTrueTracks := st.trueTracks.length }

/-- The part of `processEvent` under `if( col != NULL )`, up to the statistics: `_nRecoTracks`
is set, every reconstructed track of the collection is checked, and the lost and the completely
found true tracks are counted. -/
def TrackingFeedbackProcessor.checkRecoTracks (self : TrackingFeedbackProcessor)
    (col : List Track) : TrackingFeedbackProcessor :=
  let st := { self with nRecoTracks := col.length }
  let st := col.foldl TrackingFeedbackProcessor.checkTheTrack st
  st.trueTracks.foldl TrackingFeedbackProcessor.countLostAndFound st

/-- The method `TrackingFeedbackProcessor::processEvent( evt )`: the state of the processor
afterwards and the vector `data` that is printed and written to the table file, if there is
one. The event gives the MC true track relations and the collection of the reconstructed
tracks, `none` for a null pointer. At the end the true tracks are deleted and `_trueTracks` is
cleared. The drawing, the sums over all events and the event number are left out. -/
def TrackingFeedbackProcessor.processEvent (self : TrackingFeedbackProcessor)
    (cuts : TrackingFeedbackCuts) (newTrueTrack : Track → TrueTrack)
    (mcTracks : List MCTrackRelation) (col : Option (List Track)) :
    TrackingFeedbackProcessor × Option (List (String × ℚ)) :=
  let st := self.storeTrueTracks cuts newTrueTrack mcTracks
  match col with
  | some tracks =>
    let st := st.checkRecoTracks tracks
    ({ st with trueTracks := [] }, some st.data)
  | none => ({ st with trueTracks := [] }, none)

/-- An event with one true track, stored at the address 1, whose hits are 10, 11, 12 and 13
and which no reconstructed track has been compared with yet; all counters are 0 except
`nTrueTracks`. -/
def oneTrueTrackEvent : TrackingFeedbackProcessor :=
  { nComplete := 0
    nCompletePlus := 0
    nLost := 0
    nIncomplete := 0
    nIncompletePlus := 0
    nGhost := 0
    nFoundCompletely := 0
    nTrueTracks := 1
    nRecoTracks := 0
    nDismissedTrueTracks := 0
    trueTracks := [1]
    heap := fun p =>
      if p = 1 then
        { trueTrack := { ptr := 100, trackerHits := [10, 11, 12, 13] }
          isLost := true
          isFoundCompletely := false
          completeVersionExists := false
          map_track_type := fun _ => none }
      else
        { trueTrack := { ptr := 0, trackerHits := [] }
          isLost := true
          isFoundCompletely := false
          completeVersionExists := false
          map_track_type := fun _ => none } }

/-- Cuts for the examples: distance to the IP below 100, transversal momentum above 0.1, at
least 4 hits, chi2 probability above 0.005. -/
def exampleCuts : TrackingFeedbackCuts :=
  { distToIPMax := 100
    ptMin := 1 / 10
    nHitsMin := 4
    chi2ProbCut := 5 / 1000 }

/-- A constructor of `TrueTrack` for the examples: the track is kept, and the true track starts
as lost, not found completely, without a complete version and with an empty map. -/
def exampleNewTrueTrack : Track → TrueTrack := fun track =>
  { trueTrack := track
    isLost := true
    isFoundCompletely := false
    completeVersionExists := false
    map_track_type := fun _ => none }

/-- MC true track relations for the examples: two tracks that pass the cuts, with the hits
10 to 13 and 20 to 24, stored at the addresses 1 and 2, and a track of two hits, which is
dismissed. -/
def exampleMCTracks : List MCTrackRelation :=
  [{ track := { ptr := 100, trackerHits := [10, 11, 12, 13] }
     distToIP := 1, pt := 1, chi2Prob := 1 / 2, address := 1 },
   { track := { ptr := 101, trackerHits := [20, 21, 22, 23, 24] }
     distToIP := 1, pt := 1, chi2Prob := 1 / 2, address := 2 },
   { track := { ptr := 102, trackerHits := [30, 31] }
     distToIP := 1, pt := 1, chi2Prob := 1 / 2, address := 3 }]

/-- Reconstructed tracks for the examples: the first true track in full, three hits of the
second true track with one other hit, and a track of three hits of no true track. -/
def exampleRecoTracks : List Track :=
  [{ ptr := 200, trackerHits := [10, 11, 12, 13] },
   { ptr := 201, trackerHits := [20, 21, 22, 40] },
   { ptr := 202, trackerHits := [50, 51, 52] }]

/-! ## Theorems: the criteria -/

/-- The verdict of `Crit2_DeltaRho::areCompatible` on two one-hit segments, in closed form. -/
theorem Crit2_DeltaRho.areCompatible_singletons {α : Type} [LinearOrderedField α]
    (sqrt : α → α) (self : Crit2_DeltaRho α) (a b : AutHit α) :
    ∃ st, Crit2_DeltaRho.areCompatible sqrt self ⟨[a]⟩ ⟨[b]⟩ =
      Except.ok (decide (self.deltaRhoMin ≤ sqrt (a.x ^ 2 + a.y ^ 2) - sqrt (b.x ^ 2 + b.y ^ 2) ∧
        sqrt (a.x ^ 2 + a.y ^ 2) - sqrt (b.x ^ 2 + b.y ^ 2) ≤ self.deltaRhoMax), st) := by
  simp only [Crit2_DeltaRho.areCompatible, pow_two]
  simp only [List.length_singleton, and_self, dite_true, List.get_eq_getElem,
    List.getElem_cons_zero]
  generalize sqrt (a.x * a.x + a.y * a.y) - sqrt (b.x * b.x + b.y * b.y) = d
  generalize (if self.saveValues = true then _ else self) = st
  by_cases h1 : d > self.deltaRhoMax
  · refine ⟨st, ?_⟩
    rw [if_pos h1]
    have : ¬ (self.deltaRhoMin ≤ d ∧ d ≤ self.deltaRhoMax) := fun h => absurd h1 (not_lt.mpr h.2)
    rw [decide_eq_false this]
  · rw [if_neg h1]
    by_cases h2 : d < self.deltaRhoMin
    · refine ⟨st, ?_⟩
      rw [if_pos h2]
      have : ¬ (self.deltaRhoMin ≤ d ∧ d ≤ self.deltaRhoMax) := fun h => absurd h2 (not_lt.mpr h.1)
      rw [decide_eq_false this]
    · refine ⟨st, ?_⟩
      rw [if_neg h2]
      have : self.deltaRhoMin ≤ d ∧ d ≤ self.deltaRhoMax := ⟨not_lt.mp h2, not_lt.mp h1⟩
      rw [decide_eq_true this]

/-- C1: for a parent and a child segment of one hit each, `Crit2_DeltaRho::areCompatible`
returns `true` exactly when `deltaRhoMin <= rho(parent) - rho(child) <= deltaRhoMax`, with
`rho(h) = sqrt(x_h^2 + y_h^2)`, and `false` exactly when the difference is above the maximum
or below the minimum. -/
theorem Crit2_DeltaRho_verdict_iff_in_range {α : Type} [LinearOrderedField α]
    (sqrt : α → α) (self : Crit2_DeltaRho α) (a b : AutHit α) :
    ((∃ st, Crit2_DeltaRho.areCompatible sqrt self ⟨[a]⟩ ⟨[b]⟩ = Except.ok (true, st)) ↔
      (self.deltaRhoMin ≤ sqrt (a.x ^ 2 + a.y ^ 2) - sqrt (b.x ^ 2 + b.y ^ 2) ∧
        sqrt (a.x ^ 2 + a.y ^ 2) - sqrt (b.x ^ 2 + b.y ^ 2) ≤ self.deltaRhoMax)) ∧
    ((∃ st, Crit2_DeltaRho.areCompatible sqrt self ⟨[a]⟩ ⟨[b]⟩ = Except.ok (false, st)) ↔
      (sqrt (a.x ^ 2 + a.y ^ 2) - sqrt (b.x ^ 2 + b.y ^ 2) > self.deltaRhoMax ∨
        sqrt (a.x ^ 2 + a.y ^ 2) - sqrt (b.x ^ 2 + b.y ^ 2) < self.deltaRhoMin)) := by
  obtain ⟨st, hst⟩ := Crit2_DeltaRho.areCompatible_singletons sqrt self a b
  rw [hst]
  generalize sqrt (a.x ^ 2 + a.y ^ 2) - sqrt (b.x ^ 2 + b.y ^ 2) = d
  constructor
  · constructor
    · rintro ⟨st2, h⟩
      injection h with h
      exact of_decide_eq_true (congrArg Prod.fst h)
    · intro h
      exact ⟨st, by rw [decide_eq_true h]⟩
  · constructor
    · rintro ⟨st2, h⟩
      injection h with h
      have h3 := of_decide_eq_false (congrArg Prod.fst h)
      by_cases h1 : d > self.deltaRhoMax
      · exact Or.inl h1
      · exact Or.inr (lt_of_not_le fun h2 => h3 ⟨h2, not_lt.mp h1⟩)
    · intro h
      refine ⟨st, ?_⟩
      have : ¬ (self.deltaRhoMin ≤ d ∧ d ≤ self.deltaRhoMax) := by
        rintro ⟨h1, h2⟩
        rcases h with h | h
        · exact absurd h (not_lt.mpr h2)
        · exact absurd h (not_lt.mpr h1)
      rw [decide_eq_false this]

/-- C2: a criterion applied to segments of the wrong hit count throws `BadSegmentLength`, and
only then: `Crit2_DeltaRho::areCompatible` throws exactly when the parent or the child does not
have exactly 1 hit, `Crit4_2DAngleChange::areCompatible` exactly when the parent or the child
does not have exactly 3 hits. -/
theorem areCompatible_throws_iff_wrong_hit_count {α : Type} [LinearOrderedField α] [FloorRing α]
    (sqrt : α → α) (Phi : TVector3 α → α) (pi : α) (toFloat : α → FloatVal α)
    (crit2 : Crit2_DeltaRho α) (crit4 : Crit4_2DAngleChange α) (parent child : Segment α) :
    ((∃ e, Crit2_DeltaRho.areCompatible sqrt crit2 parent child = Except.error e) ↔
      (parent.autHits.length ≠ 1 ∨ child.autHits.length ≠ 1)) ∧
    ((∃ e, Crit4_2DAngleChange.areCompatible Phi pi toFloat crit4 parent child =
        Except.error e) ↔
      (parent.autHits.length ≠ 3 ∨ child.autHits.length ≠ 3)) := by
  constructor
  · by_cases h : parent.autHits.length = 1 ∧ child.autHits.length = 1
    · have hn : ¬ (parent.autHits.length ≠ 1 ∨ child.autHits.length ≠ 1) := by
        rintro (h1 | h1)
        · exact h1 h.1
        · exact h1 h.2
      simp only [Crit2_DeltaRho.areCompatible, dif_pos h, hn, iff_false, not_exists]
      intro e
      split_ifs <;> exact id
    · have hy : parent.autHits.length ≠ 1 ∨ child.autHits.length ≠ 1 := by
        by_cases h1 : parent.autHits.length = 1
        · exact Or.inr fun h2 => h ⟨h1, h2⟩
        · exact Or.inl h1
      simp only [Crit2_DeltaRho.areCompatible, dif_neg h, hy, iff_true]
      exact ⟨_, rfl⟩
  · by_cases h : parent.autHits.length = 3 ∧ child.autHits.length = 3
    · have hn : ¬ (parent.autHits.length ≠ 3 ∨ child.autHits.length ≠ 3) := by
        rintro (h1 | h1)
        · exact h1 h.1
        · exact h1 h.2
      simp only [Crit4_2DAngleChange.areCompatible, dif_pos h, hn, iff_false, not_exists]
      intro e
      split_ifs <;> exact id
    · have hy : parent.autHits.length ≠ 3 ∨ child.autHits.length ≠ 3 := by
        by_cases h1 : parent.autHits.length = 3
        · exact Or.inr fun h2 => h ⟨h1, h2⟩
        · exact Or.inl h1
      simp only [Crit4_2DAngleChange.areCompatible, dif_neg h, hy, iff_true]
      exact ⟨_, rfl⟩

/-- The first statement of the normalisation brings the angle into `[0, 2*pi)`. -/
theorem Crit4_2DAngleChange.sub_floor_mem {α : Type} [LinearOrderedField α] [FloorRing α]
    (pi : α) (hpi : 0 < pi) (x : α) :
    0 ≤ x - 2 * pi * ((Int.floor (x / 2 / pi) : Int) : α) ∧
      x - 2 * pi * ((Int.floor (x / 2 / pi) : Int) : α) < 2 * pi := by
  have h2pi : (0 : α) < 2 * pi := by linarith
  have hx : x / 2 / pi * (2 * pi) = x := by
    field_simp
  have hlo : ((Int.floor (x / 2 / pi) : Int) : α) ≤ x / 2 / pi := Int.floor_le _
  have hhi : x / 2 / pi < ((Int.floor (x / 2 / pi) : Int) : α) + 1 := Int.lt_floor_add_one _
  have hlo2 := mul_le_mul_of_nonneg_right hlo h2pi.le
  have hhi2 := mul_lt_mul_of_pos_right hhi h2pi
  rw [hx] at hlo2 hhi2
  constructor
  · linarith
  · linarith

/-- C4: the angle normalisation of `Crit4_2DAngleChange` maps every angle difference `x` to a
value in the half-open interval `(-pi, pi]` that differs from `x` by an integer multiple of
`2*pi`, and it is the identity on `(-pi, pi]`. -/
theorem Crit4_2DAngleChange_normalise_range {α : Type} [LinearOrderedField α] [FloorRing α]
    (pi : α) (hpi : 0 < pi) (x : α) :
    (-pi < Crit4_2DAngleChange.normalise pi x ∧ Crit4_2DAngleChange.normalise pi x ≤ pi) ∧
    (∃ k : Int, Crit4_2DAngleChange.normalise pi x = x + 2 * pi * (k : α)) ∧
    (-pi < x → x ≤ pi → Crit4_2DAngleChange.normalise pi x = x) := by
  obtain ⟨h0, h1⟩ := Crit4_2DAngleChange.sub_floor_mem pi hpi x
  have hrange : -pi < Crit4_2DAngleChange.normalise pi x ∧
      Crit4_2DAngleChange.normalise pi x ≤ pi := by
    simp only [Crit4_2DAngleChange.normalise]
    split_ifs with h
    · constructor <;> linarith
    · constructor
      · linarith
      · exact not_lt.mp h
  have hmult : ∃ k : Int, Crit4_2DAngleChange.normalise pi x = x + 2 * pi * (k : α) := by
    simp only [Crit4_2DAngleChange.normalise]
    split_ifs with h
    · refine ⟨-Int.floor (x / 2 / pi) - 1, ?_⟩
      push_cast
      ring
    · refine ⟨-Int.floor (x / 2 / pi), ?_⟩
      push_cast
      ring
  refine ⟨hrange, hmult, ?_⟩
  intro hlo hhi
  obtain ⟨k, hk⟩ := hmult
  rw [hk] at hrange ⊢
  have hk0 : k = 0 := by
    rcases lt_trichotomy k 0 with hneg | hzero | hpos
    · exfalso
      have : (k : α) ≤ -1 := by exact_mod_cast (Int.le_sub_one_of_lt hneg)
      have : 2 * pi * (k : α) ≤ 2 * pi * (-1) :=
        mul_le_mul_of_nonneg_left this (by linarith)
      linarith [hrange.1]
    · exact hzero
    · exfalso
      have : (1 : α) ≤ (k : α) := by exact_mod_cast (Int.add_one_le_of_lt hpos)
      have : 2 * pi * 1 ≤ 2 * pi * (k : α) :=
        mul_le_mul_of_nonneg_left this (by linarith)
      linarith [hrange.2]
  rw [hk0]
  simp

/-- Witness of C4 over the rationals, with `pi = 3` and the angle difference `5`. -/
theorem Crit4_2DAngleChange_normalise_range_witness :
    (0 : ℚ) < 3 ∧
    ((-3 < Crit4_2DAngleChange.normalise (3 : ℚ) 5 ∧
        Crit4_2DAngleChange.normalise (3 : ℚ) 5 ≤ 3) ∧
      (∃ k : Int, Crit4_2DAngleChange.normalise (3 : ℚ) 5 = 5 + 2 * 3 * (k : ℚ)) ∧
      (-3 < (5 : ℚ) → (5 : ℚ) ≤ 3 → Crit4_2DAngleChange.normalise (3 : ℚ) 5 = 5)) :=
  ⟨by norm_num, Crit4_2DAngleChange_normalise_range 3 (by norm_num) 5⟩

/-! ## Theorems: the ratio of the bend angles as a `float` -/

/-- The verdict of `TrackCompatibilityShare1SP` in terms of membership. -/
theorem TrackCompatibilityShare1SP_eq_true_iff {α : Type} (trackA trackB : ITrack α) :
    TrackCompatibilityShare1SP trackA trackB = true ↔
      ∀ hit, hit ∈ trackA.hits → hit ∉ trackB.hits := by
  simp only [TrackCompatibilityShare1SP, Bool.not_eq_true', List.any_eq_false, List.any_eq_true,
    beq_iff_eq, not_exists, not_and]
  constructor
  · intro h hit hA hB
    exact h hit hA hit hB rfl
  · intro h hitA hA hitB hB heq
    exact h hitA hA (heq ▸ hB)

/-- C5: `TrackCompatibilityShare1SP` returns `true` exactly when no hit of track A is also a hit
of track B, and `false` exactly when at least one hit is shared. -/
theorem TrackCompatibilityShare1SP_iff_disjoint {α : Type} (trackA trackB : ITrack α) :
    (TrackCompatibilityShare1SP trackA trackB = true ↔
      ∀ hit, hit ∈ trackA.hits → hit ∉ trackB.hits) ∧
    (TrackCompatibilityShare1SP trackA trackB = false ↔
      ∃ hit, hit ∈ trackA.hits ∧ hit ∈ trackB.hits) := by
  refine ⟨TrackCompatibilityShare1SP_eq_true_iff trackA trackB, ?_⟩
  rw [← Bool.not_eq_true, TrackCompatibilityShare1SP_eq_true_iff]
  push_neg
  rfl

/-- The value of `TrackQIChi2ProbSpecial` on a track with more than three hits. -/
theorem TrackQIChi2ProbSpecial_long {α : Type} [LinearOrderedField α] (track : ITrack α)
    (h : 4 ≤ track.hits.length) :
    TrackQIChi2ProbSpecial track = track.chi2Prob / 2 + 1 / 2 := by
  have h3 : track.hits.length > 3 := h
  simp only [TrackQIChi2ProbSpecial, if_pos h3]
  norm_num

/-- The value of `TrackQIChi2ProbSpecial` on a track with at most three hits. -/
theorem TrackQIChi2ProbSpecial_short {α : Type} [LinearOrderedField α] (track : ITrack α)
    (h : track.hits.length ≤ 3) :
    TrackQIChi2ProbSpecial track = track.chi2Prob / 2 := by
  have h3 : ¬ track.hits.length > 3 := not_lt.mpr h
  simp only [TrackQIChi2ProbSpecial, if_neg h3]

/-- C6, as stated, fails on the code: a track of four hits with chi2 probability 0 and a track
of three hits with chi2 probability 1 both get the quality 1/2, so the longer one does not
outrank the shorter one. -/
theorem TrackQIChi2ProbSpecial_tie_counterexample :
    (4 ≤ (⟨[1, 2, 3, 4], 0⟩ : ITrack ℚ).hits.length ∧
      (⟨[5, 6, 7], 1⟩ : ITrack ℚ).hits.length = 3 ∧
      (0 : ℚ) ≤ (⟨[1, 2, 3, 4], 0⟩ : ITrack ℚ).chi2Prob ∧
      (⟨[1, 2, 3, 4], 0⟩ : ITrack ℚ).chi2Prob ≤ 1 ∧
      (0 : ℚ) ≤ (⟨[5, 6, 7], 1⟩ : ITrack ℚ).chi2Prob ∧
      (⟨[5, 6, 7], 1⟩ : ITrack ℚ).chi2Prob ≤ 1) ∧
    ¬ (TrackQIChi2ProbSpecial (⟨[1, 2, 3, 4], 0⟩ : ITrack ℚ) >
        TrackQIChi2ProbSpecial (⟨[5, 6, 7], 1⟩ : ITrack ℚ)) := by
  refine ⟨⟨by decide, by decide, by norm_num, by norm_num, by norm_num, by norm_num⟩, ?_⟩
  norm_num [TrackQIChi2ProbSpecial]

/-- C6, amended: for a track L with four or more hits and a track S with three hits, with chi2
probabilities in `[0, 1]` (only `0 <= pL` and `pS <= 1` are used), the quality of L is at least
the quality of S: the longer track never ranks below the shorter one. -/
theorem TrackQIChi2ProbSpecial_long_ge_short {α : Type} [LinearOrderedField α]
    (trackL trackS : ITrack α)
    (hL : 4 ≤ trackL.hits.length) (hS : trackS.hits.length = 3)
    (hpL0 : 0 ≤ trackL.chi2Prob) (hpS1 : trackS.chi2Prob ≤ 1) :
    TrackQIChi2ProbSpecial trackL ≥ TrackQIChi2ProbSpecial trackS := by
  rw [TrackQIChi2ProbSpecial_long trackL hL, TrackQIChi2ProbSpecial_short trackS (le_of_eq hS)]
  show trackS.chi2Prob / 2 ≤ trackL.chi2Prob / 2 + 1 / 2
  linarith

/-- Witness of the amended C6: four hits with probability 1/4 against three hits with
probability 3/4. -/
theorem TrackQIChi2ProbSpecial_long_ge_short_witness :
    (4 ≤ (⟨[1, 2, 3, 4], 1 / 4⟩ : ITrack ℚ).hits.length ∧
      (⟨[5, 6, 7], 3 / 4⟩ : ITrack ℚ).hits.length = 3 ∧
      (0 : ℚ) ≤ (⟨[1, 2, 3, 4], 1 / 4⟩ : ITrack ℚ).chi2Prob ∧
      (⟨[5, 6, 7], 3 / 4⟩ : ITrack ℚ).chi2Prob ≤ 1) ∧
    TrackQIChi2ProbSpecial (⟨[1, 2, 3, 4], 1 / 4⟩ : ITrack ℚ) ≥
      TrackQIChi2ProbSpecial (⟨[5, 6, 7], 3 / 4⟩ : ITrack ℚ) :=
  ⟨⟨by decide, by decide, by norm_num, by norm_num⟩,
    TrackQIChi2ProbSpecial_long_ge_short ⟨[1, 2, 3, 4], 1 / 4⟩ ⟨[5, 6, 7], 3 / 4⟩
      (by decide) (by decide) (by norm_num) (by norm_num)⟩

/-- C7: `TrackQIChi2ProbSpecial` maps a track with chi2 probability `p` in `[0, 1]` to
`p/2 + 0.5`, a value in `[0.5, 1]`, when the track has four or more hits, and to `p/2`, a value
in `[0, 0.5]`, when it has three hits or fewer; the result is always in `[0, 1]`. -/
theorem TrackQIChi2ProbSpecial_value_and_range {α : Type} [LinearOrderedField α]
    (track : ITrack α) (hp0 : 0 ≤ track.chi2Prob) (hp1 : track.chi2Prob ≤ 1) :
    (4 ≤ track.hits.length →
      TrackQIChi2ProbSpecial track = track.chi2Prob / 2 + 0.5 ∧
        0.5 ≤ TrackQIChi2ProbSpecial track ∧ TrackQIChi2ProbSpecial track ≤ 1) ∧
    (track.hits.length ≤ 3 →
      TrackQIChi2ProbSpecial track = track.chi2Prob / 2 ∧
        0 ≤ TrackQIChi2ProbSpecial track ∧ TrackQIChi2ProbSpecial track ≤ 0.5) ∧
    (0 ≤ TrackQIChi2ProbSpecial track ∧ TrackQIChi2ProbSpecial track ≤ 1) := by
  have hhalf : (0.5 : α) = 1 / 2 := by norm_num
  refine ⟨?_, ?_, ?_⟩
  · intro h
    rw [TrackQIChi2ProbSpecial_long track h, hhalf]
    refine ⟨rfl, ?_, ?_⟩ <;> linarith
  · intro h
    rw [TrackQIChi2ProbSpecial_short track h, hhalf]
    refine ⟨rfl, ?_, ?_⟩ <;> linarith
  · by_cases h : 4 ≤ track.hits.length
    · rw [TrackQIChi2ProbSpecial_long track h]
      constructor <;> linarith
    · rw [TrackQIChi2ProbSpecial_short track (by omega)]
      constructor <;> linarith

/-- Witness of C7: a track of four hits with chi2 probability 1/2. -/
theorem TrackQIChi2ProbSpecial_value_and_range_witness :
    ((0 : ℚ) ≤ (⟨[1, 2, 3, 4], 1 / 2⟩ : ITrack ℚ).chi2Prob ∧
      (⟨[1, 2, 3, 4], 1 / 2⟩ : ITrack ℚ).chi2Prob ≤ 1) ∧
    ((4 ≤ (⟨[1, 2, 3, 4], 1 / 2⟩ : ITrack ℚ).hits.length →
      TrackQIChi2ProbSpecial (⟨[1, 2, 3, 4], 1 / 2⟩ : ITrack ℚ) =
          (⟨[1, 2, 3, 4], 1 / 2⟩ : ITrack ℚ).chi2Prob / 2 + 0.5 ∧
        0.5 ≤ TrackQIChi2ProbSpecial (⟨[1, 2, 3, 4], 1 / 2⟩ : ITrack ℚ) ∧
        TrackQIChi2ProbSpecial (⟨[1, 2, 3, 4], 1 / 2⟩ : ITrack ℚ) ≤ 1) ∧
    ((⟨[1, 2, 3, 4], 1 / 2⟩ : ITrack ℚ).hits.length ≤ 3 →
      TrackQIChi2ProbSpecial (⟨[1, 2, 3, 4], 1 / 2⟩ : ITrack ℚ) =
          (⟨[1, 2, 3, 4], 1 / 2⟩ : ITrack ℚ).chi2Prob / 2 ∧
        0 ≤ TrackQIChi2ProbSpecial (⟨[1, 2, 3, 4], 1 / 2⟩ : ITrack ℚ) ∧
        TrackQIChi2ProbSpecial (⟨[1, 2, 3, 4], 1 / 2⟩ : ITrack ℚ) ≤ 0.5) ∧
    (0 ≤ TrackQIChi2ProbSpecial (⟨[1, 2, 3, 4], 1 / 2⟩ : ITrack ℚ) ∧
      TrackQIChi2ProbSpecial (⟨[1, 2, 3, 4], 1 / 2⟩ : ITrack ℚ) ≤ 1)) :=
  ⟨⟨by norm_num, by norm_num⟩,
    TrackQIChi2ProbSpecial_value_and_range (⟨[1, 2, 3, 4], 1 / 2⟩ : ITrack ℚ)
      (by norm_num) (by norm_num)⟩

/-! ## Theorems: FTDHitCon01 -/

/-- A loop that runs a body over a list and in which every pass succeeds and adds to the set
the sectors described by `P` succeeds and adds the sectors described by `P` for some element
of the list. -/
theorem foldlM_adds {ι : Type} (f : Finset Int → ι → Except OutOfRange (Finset Int))
    (P : ι → Int → Prop) (l : List ι)
    (hf : ∀ x ∈ l, ∀ acc, ∃ acc2, f acc x = Except.ok acc2 ∧
      ∀ t, t ∈ acc2 ↔ (t ∈ acc ∨ P x t)) :
    ∀ acc, ∃ acc2, l.foldlM f acc = Except.ok acc2 ∧
      ∀ t, t ∈ acc2 ↔ (t ∈ acc ∨ ∃ x ∈ l, P x t) := by
  induction l with
  | nil =>
    intro acc
    exact ⟨acc, rfl, fun t => by simp⟩
  | cons a l ih =>
    intro acc
    obtain ⟨acc1, h1, hm1⟩ := hf a (List.mem_cons_self a l) acc
    obtain ⟨acc2, h2, hm2⟩ := ih (fun x hx => hf x (List.mem_cons_of_mem a hx)) acc1
    refine ⟨acc2, ?_, ?_⟩
    · rw [List.foldlM_cons, h1]
      exact h2
    · intro t
      rw [hm2 t, hm1 t]
      constructor
      · rintro ((h | h) | ⟨x, hx, h⟩)
        · exact Or.inl h
        · exact Or.inr ⟨a, List.mem_cons_self a l, h⟩
        · exact Or.inr ⟨x, List.mem_cons_of_mem a hx, h⟩
      · rintro (h | ⟨x, hx, h⟩)
        · exact Or.inl (Or.inl h)
        · rcases List.mem_cons.mp hx with rfl | hx2
          · exact Or.inl (Or.inr h)
          · exact Or.inr ⟨x, hx2, h⟩

/-- The loops over all modules and all sensors succeed when `getSector` succeeds on every pair
of them, and add exactly the sectors of the target layer. -/
theorem FTDHitCon01.insertLayer_adds (ss : SectorSystemFTD) (nModules nSensors : Nat)
    (side : Int) (layerTarget : Nat)
    (hdef : ∀ m, m < nModules → ∀ n, n < nSensors →
      ∃ t, ss.getSector side layerTarget m n = Except.ok t)
    (acc : Finset Int) :
    ∃ acc2, FTDHitCon01.insertLayer ss nModules nSensors side layerTarget acc = Except.ok acc2 ∧
      ∀ t, t ∈ acc2 ↔ (t ∈ acc ∨ ∃ m, m < nModules ∧ ∃ n, n < nSensors ∧
        ss.getSector side layerTarget m n = Except.ok t) := by
  have houter := foldlM_adds
    (fun acc iModule =>
      (List.range nSensors).foldlM
        (fun acc2 iSensor => do
          let s ← ss.getSector side layerTarget iModule iSensor
          pure (insert s acc2))
        acc)
    (fun m t => ∃ n, n < nSensors ∧ ss.getSector side layerTarget m n = Except.ok t)
    (List.range nModules) ?_ acc
  · obtain ⟨acc2, h, hm⟩ := houter
    refine ⟨acc2, h, fun t => ?_⟩
    rw [hm t]
    simp only [List.mem_range]
  · intro m hm acc1
    have hinner := foldlM_adds
      (fun acc2 iSensor => do
        let s ← ss.getSector side layerTarget m iSensor
        pure (insert s acc2))
      (fun n t => ss.getSector side layerTarget m n = Except.ok t)
      (List.range nSensors) ?_ acc1
    · obtain ⟨acc2, h, hm2⟩ := hinner
      refine ⟨acc2, h, fun t => ?_⟩
      rw [hm2 t]
      simp only [List.mem_range]
    · intro n hn acc3
      obtain ⟨t0, ht0⟩ := hdef m (List.mem_range.mp hm) n (List.mem_range.mp hn)
      refine ⟨insert t0 acc3, ?_, fun t => ?_⟩
      · simp only [ht0]
        rfl
      · rw [Finset.mem_insert]
        show t = t0 ∨ t ∈ acc3 ↔ t ∈ acc3 ∨ ss.getSector side layerTarget m n = Except.ok t
        rw [ht0]
        constructor
        · rintro (h | h)
          · exact Or.inr (by rw [h])
          · exact Or.inl h
        · rintro (h | h)
          · exact Or.inr h
          · injection h with h
            exact Or.inl h.symm

/-- The result of `getTargetSectors` on a sector of side `side` and layer `layer`, provided
`getSector` succeeds on every sector of that side on the layers below: the call returns, and a
sector is in the returned set exactly when it is `getSector( side , layerTarget , m , n )` for a
module `m`, a sensor `n` and a target layer that is `layer - k` for a step `k` of the first loop
or `0` under the guard of the jump to the IP. -/
theorem FTDHitCon01.getTargetSectors_spec (self : FTDHitCon01) (sector side : Int)
    (layer : Nat)
    (hside : self.sectorSystemFTD.getSide sector = Except.ok side)
    (hlayer : self.sectorSystemFTD.getLayer sector = Except.ok layer)
    (hdef : ∀ layerTarget, layerTarget < layer →
      ∀ m, m < self.sectorSystemFTD.getNumberOfModules →
      ∀ n, n < self.sectorSystemFTD.getNumberOfSensors →
      ∃ t, self.sectorSystemFTD.getSector side layerTarget m n = Except.ok t) :
    ∃ targets, self.getTargetSectors sector = Except.ok targets ∧
      ∀ t, t ∈ targets ↔
        ∃ layerTarget m n,
          m < self.sectorSystemFTD.getNumberOfModules ∧
          n < self.sectorSystemFTD.getNumberOfSensors ∧
          ((∃ k, 1 ≤ k ∧ k ≤ self.layerStepMax ∧ k ≤ layer ∧ layerTarget = layer - k) ∨
            (layerTarget = 0 ∧ 1 < layer ∧ layer ≤ self.lastLayerToIP)) ∧
          self.sectorSystemFTD.getSector side layerTarget m n = Except.ok t := by
  -- the first loop, over the layer steps
  have hloop := foldlM_adds
    (fun acc layerStep =>
      if layer ≥ layerStep then
        FTDHitCon01.insertLayer self.sectorSystemFTD self.sectorSystemFTD.getNumberOfModules
          self.sectorSystemFTD.getNumberOfSensors side (layer - layerStep) acc
      else pure acc)
    (fun k t => k ≤ layer ∧ ∃ m, m < self.sectorSystemFTD.getNumberOfModules ∧
      ∃ n, n < self.sectorSystemFTD.getNumberOfSensors ∧
        self.sectorSystemFTD.getSector side (layer - k) m n = Except.ok t)
    (List.range' 1 self.layerStepMax) ?_ (∅ : Finset Int)
  · obtain ⟨targets1, h1, hm1⟩ := hloop
    have hunfold : self.getTargetSectors sector =
        (if layer > 1 ∧ layer ≤ self.lastLayerToIP then
          FTDHitCon01.insertLayer self.sectorSystemFTD self.sectorSystemFTD.getNumberOfModules
            self.sectorSystemFTD.getNumberOfSensors side 0 targets1
        else pure targets1) := by
      unfold FTDHitCon01.getTargetSectors
      rw [hside, hlayer]
      simp only [bind, Except.bind]
      rw [h1]
    have hsteps : ∀ t, t ∈ targets1 ↔ ∃ k, 1 ≤ k ∧ k ≤ self.layerStepMax ∧ k ≤ layer ∧
        ∃ m, m < self.sectorSystemFTD.getNumberOfModules ∧
        ∃ n, n < self.sectorSystemFTD.getNumberOfSensors ∧
          self.sectorSystemFTD.getSector side (layer - k) m n = Except.ok t := by
      intro t
      rw [hm1 t]
      simp only [Finset.not_mem_empty, false_or, List.mem_range'_1]
      constructor
      · rintro ⟨k, ⟨hk1, hk2⟩, hk3, h⟩
        exact ⟨k, hk1, by omega, hk3, h⟩
      · rintro ⟨k, hk1, hk2, hk3, h⟩
        exact ⟨k, ⟨hk1, by omega⟩, hk3, h⟩
    rw [hunfold]
    by_cases hjump : layer > 1 ∧ layer ≤ self.lastLayerToIP
    · rw [if_pos hjump]
      obtain ⟨targets2, h2, hm2⟩ := FTDHitCon01.insertLayer_adds self.sectorSystemFTD
        self.sectorSystemFTD.getNumberOfModules self.sectorSystemFTD.getNumberOfSensors side 0
        (hdef 0 (by omega)) targets1
      refine ⟨targets2, h2, fun t => ?_⟩
      rw [hm2 t, hsteps t]
      constructor
      · rintro (⟨k, hk1, hk2, hk3, m, hm, n, hn, h⟩ | ⟨m, hm, n, hn, h⟩)
        · exact ⟨layer - k, m, n, hm, hn, Or.inl ⟨k, hk1, hk2, hk3, rfl⟩, h⟩
        · exact ⟨0, m, n, hm, hn, Or.inr ⟨rfl, hjump.1, hjump.2⟩, h⟩
      · rintro ⟨layerTarget, m, n, hm, hn, (⟨k, hk1, hk2, hk3, rfl⟩ | ⟨rfl, _, _⟩), h⟩
        · exact Or.inl ⟨k, hk1, hk2, hk3, m, hm, n, hn, h⟩
        · exact Or.inr ⟨m, hm, n, hn, h⟩
    · rw [if_neg hjump]
      refine ⟨targets1, rfl, fun t => ?_⟩
      rw [hsteps t]
      constructor
      · rintro ⟨k, hk1, hk2, hk3, m, hm, n, hn, h⟩
        exact ⟨layer - k, m, n, hm, hn, Or.inl ⟨k, hk1, hk2, hk3, rfl⟩, h⟩
      · rintro ⟨layerTarget, m, n, hm, hn, (⟨k, hk1, hk2, hk3, rfl⟩ | ⟨rfl, h1L, hL⟩), h⟩
        · exact ⟨k, hk1, hk2, hk3, m, hm, n, hn, h⟩
        · exact absurd ⟨h1L, hL⟩ hjump
  · intro k hk acc
    have hk1 : 1 ≤ k := (List.mem_range'_1.mp hk).1
    by_cases hge : layer ≥ k
    · obtain ⟨acc2, h2, hm2⟩ := FTDHitCon01.insertLayer_adds self.sectorSystemFTD
        self.sectorSystemFTD.getNumberOfModules self.sectorSystemFTD.getNumberOfSensors side
        (layer - k) (hdef (layer - k) (by omega)) acc
      refine ⟨acc2, ?_, fun t => ?_⟩
      · simp only [if_pos hge]
        exact h2
      · rw [hm2 t]
        constructor
        · rintro (h | h)
          · exact Or.inl h
          · exact Or.inr ⟨hge, h⟩
        · rintro (h | ⟨_, h⟩)
          · exact Or.inl h
          · exact Or.inr h
    · refine ⟨acc, ?_, fun t => ?_⟩
      · simp only [if_neg hge]
        rfl
      · constructor
        · exact fun h => Or.inl h
        · rintro (h | ⟨hle, _⟩)
          · exact h
          · exact absurd hle hge

/-- C8: `FTDHitCon01::getTargetSectors( sector )`, for a sector on side `side` and layer `layer`
(with `getSector` succeeding on the sectors of that side below that layer), returns exactly the
set of sectors `getSector( side , layerTarget , m , n )` for all modules `m < nModules`, all
sensors `n < nSensors` and all target layers `layer - k` with `1 <= k <= layerStepMax` and
`k <= layer`, together with the target layer `0` when `1 < layer <= lastLayerToIP`; no other
sector is returned. -/
theorem FTDHitCon01_getTargetSectors_exact (self : FTDHitCon01) (sector side : Int)
    (layer : Nat)
    (hside : self.sectorSystemFTD.getSide sector = Except.ok side)
    (hlayer : self.sectorSystemFTD.getLayer sector = Except.ok layer)
    (hdef : ∀ layerTarget, layerTarget < layer →
      ∀ m, m < self.sectorSystemFTD.getNumberOfModules →
      ∀ n, n < self.sectorSystemFTD.getNumberOfSensors →
      ∃ t, self.sectorSystemFTD.getSector side layerTarget m n = Except.ok t) :
    ∃ targets, self.getTargetSectors sector = Except.ok targets ∧
      ∀ t, t ∈ targets ↔
        ∃ layerTarget m n,
          m < self.sectorSystemFTD.getNumberOfModules ∧
          n < self.sectorSystemFTD.getNumberOfSensors ∧
          ((∃ k, 1 ≤ k ∧ k ≤ self.layerStepMax ∧ k ≤ layer ∧ layerTarget = layer - k) ∨
            (layerTarget = 0 ∧ 1 < layer ∧ layer ≤ self.lastLayerToIP)) ∧
          self.sectorSystemFTD.getSector side layerTarget m n = Except.ok t :=
  FTDHitCon01.getTargetSectors_spec self sector side layer hside hlayer hdef

/-- On the example sector system every index within the ranges gives a sector. -/
theorem radixSectorSystemFTD_getSector_defined (nLayers nModules nSensors : Nat) (side : Int)
    (hside : side = 1 ∨ side = -1) (layer m n : Nat)
    (hl : layer < nLayers) (hm : m < nModules) (hn : n < nSensors) :
    ∃ t, (radixSectorSystemFTD nLayers nModules nSensors).getSector side layer m n =
      Except.ok t := by
  have hcond : ¬ ((side ≠ 1 ∧ side ≠ -1) ∨ layer ≥ nLayers ∨ m ≥ nModules ∨ n ≥ nSensors) := by
    rintro (⟨h1, h2⟩ | h | h | h)
    · rcases hside with h | h
      · exact h1 h
      · exact h2 h
    · omega
    · omega
    · omega
  simp only [radixSectorSystemFTD, if_neg hcond]
  exact ⟨_, rfl⟩

/-- Witness of C8: the sector 19 (side `+1`, layer 3) of the example sector system with 4
layers, 2 modules and 2 sensors, for `layerStepMax = 2` and `lastLayerToIP = 3`. -/
theorem FTDHitCon01_getTargetSectors_exact_witness :
    ((radixSectorSystemFTD 4 2 2).getSide 19 = Except.ok 1 ∧
      (radixSectorSystemFTD 4 2 2).getLayer 19 = Except.ok 3) ∧
    ∃ targets, (⟨radixSectorSystemFTD 4 2 2, 2, 3⟩ : FTDHitCon01).getTargetSectors 19 =
        Except.ok targets ∧
      ∀ t, t ∈ targets ↔
        ∃ layerTarget m n,
          m < (radixSectorSystemFTD 4 2 2).getNumberOfModules ∧
          n < (radixSectorSystemFTD 4 2 2).getNumberOfSensors ∧
          ((∃ k, 1 ≤ k ∧ k ≤ 2 ∧ k ≤ 3 ∧ layerTarget = 3 - k) ∨
            (layerTarget = 0 ∧ 1 < 3 ∧ 3 ≤ 3)) ∧
          (radixSectorSystemFTD 4 2 2).getSector 1 layerTarget m n = Except.ok t :=
  ⟨⟨rfl, rfl⟩,
    FTDHitCon01_getTargetSectors_exact ⟨radixSectorSystemFTD 4 2 2, 2, 3⟩ 19 1 3 rfl rfl
      (fun layerTarget hl m hm n hn =>
        radixSectorSystemFTD_getSector_defined 4 2 2 1 (Or.inl rfl) layerTarget m n
          (by omega) hm hn)⟩

/-- C9, as stated, fails on the code: with `layerStepMax = 0` and `lastLayerToIP = 1`, the
sector 17 of the example sector system lies on side `+1` and layer 1, so that
`1 <= layer <= lastLayerToIP`, and 16 is a sector of layer 0 on the same side; the first loop
is not entered, the guard `layer > 1` of the jump is false, and the returned set is empty. -/
theorem FTDHitCon01_getTargetSectors_layer_one_counterexample :
    (radixSectorSystemFTD 4 2 2).getSide 17 = Except.ok 1 ∧
    (radixSectorSystemFTD 4 2 2).getLayer 17 = Except.ok 1 ∧
    (1 ≤ 1 ∧ 1 ≤ (⟨radixSectorSystemFTD 4 2 2, 0, 1⟩ : FTDHitCon01).lastLayerToIP) ∧
    (radixSectorSystemFTD 4 2 2).getSector 1 0 0 0 = Except.ok 16 ∧
    (⟨radixSectorSystemFTD 4 2 2, 0, 1⟩ : FTDHitCon01).getTargetSectors 17 = Except.ok ∅ ∧
    (16 : Int) ∉ (∅ : Finset Int) :=
  ⟨rfl, rfl, ⟨le_refl 1, le_refl 1⟩, rfl, rfl, Finset.not_mem_empty 16⟩

/-- C9, amended: for every sector on a layer `layer` with `1 <= layer <= lastLayerToIP`, in a
configuration with `layerStepMax >= 1` or on a layer above 1 (and with `getSector` succeeding on
the sectors of that side below that layer), `getTargetSectors` returns a set that contains
every layer-0 sector of the same side. -/
theorem FTDHitCon01_getTargetSectors_contains_IP (self : FTDHitCon01) (sector side : Int)
    (layer : Nat)
    (hside : self.sectorSystemFTD.getSide sector = Except.ok side)
    (hlayer : self.sectorSystemFTD.getLayer sector = Except.ok layer)
    (hdef : ∀ layerTarget, layerTarget < layer →
      ∀ m, m < self.sectorSystemFTD.getNumberOfModules →
      ∀ n, n < self.sectorSystemFTD.getNumberOfSensors →
      ∃ t, self.sectorSystemFTD.getSector side layerTarget m n = Except.ok t)
    (h1 : 1 ≤ layer) (h2 : layer ≤ self.lastLayerToIP)
    (hcfg : 1 ≤ self.layerStepMax ∨ 1 < layer) :
    ∃ targets, self.getTargetSectors sector = Except.ok targets ∧
      ∀ m, m < self.sectorSystemFTD.getNumberOfModules →
      ∀ n, n < self.sectorSystemFTD.getNumberOfSensors →
        ∃ t, self.sectorSystemFTD.getSector side 0 m n = Except.ok t ∧ t ∈ targets := by
  obtain ⟨targets, htargets, hmem⟩ :=
    FTDHitCon01.getTargetSectors_spec self sector side layer hside hlayer hdef
  refine ⟨targets, htargets, fun m hm n hn => ?_⟩
  obtain ⟨t, ht⟩ := hdef 0 (by omega) m hm n hn
  refine ⟨t, ht, (hmem t).mpr ⟨0, m, n, hm, hn, ?_, ht⟩⟩
  by_cases hL : 1 < layer
  · exact Or.inr ⟨rfl, hL, h2⟩
  · have hone : layer = 1 := by omega
    rcases hcfg with hc | hc
    · exact Or.inl ⟨1, le_refl 1, hc, h1, by omega⟩
    · exact absurd hc hL

/-- Witness of the amended C9: the sector 17 (side `+1`, layer 1) of the example sector system,
for `layerStepMax = 1` and `lastLayerToIP = 1`. -/
theorem FTDHitCon01_getTargetSectors_contains_IP_witness :
    ((radixSectorSystemFTD 4 2 2).getSide 17 = Except.ok 1 ∧
      (radixSectorSystemFTD 4 2 2).getLayer 17 = Except.ok 1 ∧
      1 ≤ 1 ∧ 1 ≤ (⟨radixSectorSystemFTD 4 2 2, 1, 1⟩ : FTDHitCon01).lastLayerToIP ∧
      (1 ≤ (⟨radixSectorSystemFTD 4 2 2, 1, 1⟩ : FTDHitCon01).layerStepMax ∨ 1 < 1)) ∧
    ∃ targets, (⟨radixSectorSystemFTD 4 2 2, 1, 1⟩ : FTDHitCon01).getTargetSectors 17 =
        Except.ok targets ∧
      ∀ m, m < (radixSectorSystemFTD 4 2 2).getNumberOfModules →
      ∀ n, n < (radixSectorSystemFTD 4 2 2).getNumberOfSensors →
        ∃ t, (radixSectorSystemFTD 4 2 2).getSector 1 0 m n = Except.ok t ∧ t ∈ targets :=
  ⟨⟨rfl, rfl, le_refl 1, le_refl 1, Or.inl (le_refl 1)⟩,
    FTDHitCon01_getTargetSectors_contains_IP ⟨radixSectorSystemFTD 4 2 2, 1, 1⟩ 17 1 1 rfl rfl
      (fun layerTarget hl m hm n hn =>
        radixSectorSystemFTD_getSector_defined 4 2 2 1 (Or.inl rfl) layerTarget m n
          (by omega) hm hn)
      (le_refl 1) (le_refl 1) (Or.inl (le_refl 1))⟩

/-! ## Theorems: SectorSystemEndcap -/

/-- The digits of the positional encoding `layer + nLayers * (phi + nPhi * theta)`. -/
theorem radix_digits (nLayers nPhi nTheta layer phi theta : Nat)
    (hl : layer < nLayers) (hp : phi < nPhi) (ht : theta < nTheta) :
    layer + nLayers * (phi + nPhi * theta) < nLayers * nPhi * nTheta ∧
    (layer + nLayers * (phi + nPhi * theta)) % nLayers = layer ∧
    ((layer + nLayers * (phi + nPhi * theta)) / nLayers) % nPhi = phi ∧
    ((layer + nLayers * (phi + nPhi * theta)) / (nLayers * nPhi)) % nTheta = theta := by
  have hL : 0 < nLayers := by omega
  have hP : 0 < nPhi := by omega
  have hdiv1 : (layer + nLayers * (phi + nPhi * theta)) / nLayers = phi + nPhi * theta := by
    rw [Nat.add_mul_div_left _ _ hL, Nat.div_eq_of_lt hl, Nat.zero_add]
  have hdiv2 : (phi + nPhi * theta) / nPhi = theta := by
    rw [Nat.add_mul_div_left _ _ hP, Nat.div_eq_of_lt hp, Nat.zero_add]
  refine ⟨?_, ?_, ?_, ?_⟩
  · have h1 : phi + nPhi * theta + 1 ≤ nPhi * nTheta := by
      have : nPhi * (theta + 1) ≤ nPhi * nTheta := Nat.mul_le_mul_left nPhi ht
      rw [Nat.mul_add, Nat.mul_one] at this
      omega
    have h2 : nLayers * (phi + nPhi * theta + 1) ≤ nLayers * (nPhi * nTheta) :=
      Nat.mul_le_mul_left nLayers h1
    rw [Nat.mul_add, Nat.mul_one] at h2
    rw [Nat.mul_assoc]
    omega
  · rw [Nat.add_mul_mod_self_left, Nat.mod_eq_of_lt hl]
  · rw [hdiv1, Nat.add_mul_mod_self_left, Nat.mod_eq_of_lt hp]
  · rw [← Nat.div_div_eq_div_mul, hdiv1, hdiv2, Nat.mod_eq_of_lt ht]

/-- The encoding followed by the three decodings, on valid indices. -/
theorem SectorSystemEndcap.decode_getSector (nLayers nPhi nTheta layer phi theta : Nat)
    (hl : layer < nLayers) (hp : phi < nPhi) (ht : theta < nTheta) :
    ∃ sector : Int,
      (SectorSystemEndcap.new nLayers nPhi nTheta).getSector layer phi theta =
        Except.ok sector ∧
      (SectorSystemEndcap.new nLayers nPhi nTheta).getLayer sector = Except.ok layer ∧
      (SectorSystemEndcap.new nLayers nPhi nTheta).getPhi sector = Except.ok phi ∧
      (SectorSystemEndcap.new nLayers nPhi nTheta).getTheta sector = Except.ok theta := by
  obtain ⟨hlt, h1, h2, h3⟩ := radix_digits nLayers nPhi nTheta layer phi theta hl hp ht
  have hcast : (layer : Int) + (nLayers : Int) * ((phi : Int) + (nPhi : Int) * (theta : Int))
      = ((layer + nLayers * (phi + nPhi * theta) : Nat) : Int) := by
    push_cast
    ring
  have hcheck : (SectorSystemEndcap.new nLayers nPhi nTheta).checkSectorIsInRange
      ((layer + nLayers * (phi + nPhi * theta) : Nat) : Int) = Except.ok () := by
    have hmax : ((layer + nLayers * (phi + nPhi * theta) : Nat) : Int) ≤
        (nLayers : Int) * nPhi * nTheta - 1 := by
      have : ((layer + nLayers * (phi + nPhi * theta) : Nat) : Int) <
          ((nLayers * nPhi * nTheta : Nat) : Int) := by exact_mod_cast hlt
      push_cast at this ⊢
      omega
    have hcond : ¬ (((layer + nLayers * (phi + nPhi * theta) : Nat) : Int) < 0 ∨
        ((layer + nLayers * (phi + nPhi * theta) : Nat) : Int) >
          (SectorSystemEndcap.new nLayers nPhi nTheta).sectorMax) := by
      rintro (h | h)
      · exact absurd h (not_lt.mpr (Int.natCast_nonneg _))
      · exact absurd hmax (not_le.mpr h)
    simp only [SectorSystemEndcap.checkSectorIsInRange, if_neg hcond]
  refine ⟨((layer + nLayers * (phi + nPhi * theta) : Nat) : Int), ?_, ?_, ?_, ?_⟩
  · have c1 : ¬ ((layer : Int) < 0 ∨ (layer : Int) ≥ (nLayers : Int)) := by omega
    have c2 : ¬ ((phi : Int) < 0 ∨ (phi : Int) ≥ (nPhi : Int)) := by omega
    have c3 : ¬ ((theta : Int) < 0 ∨ (theta : Int) ≥ (nTheta : Int)) := by omega
    simp only [SectorSystemEndcap.getSector, SectorSystemEndcap.new, if_neg c1, if_neg c2,
      if_neg c3]
    rw [hcast]
    have := hcheck
    simp only [SectorSystemEndcap.new] at this
    simp only [this, bind, Except.bind, pure, Except.pure]
  · simp only [SectorSystemEndcap.getLayer, hcheck, bind, Except.bind, pure, Except.pure]
    refine congrArg Except.ok ?_
    simp only [SectorSystemEndcap.new]
    rw [← Int.natCast_mod, Int.toNat_natCast, h1]
  · simp only [SectorSystemEndcap.getPhi, hcheck, bind, Except.bind, pure, Except.pure]
    refine congrArg Except.ok ?_
    simp only [SectorSystemEndcap.new]
    rw [← Int.natCast_div, ← Int.natCast_mod, Int.toNat_natCast, h2]
  · simp only [SectorSystemEndcap.getTheta, hcheck, bind, Except.bind, pure, Except.pure]
    refine congrArg Except.ok ?_
    simp only [SectorSystemEndcap.new]
    rw [← Int.natCast_mul, ← Int.natCast_div, ← Int.natCast_mod, Int.toNat_natCast, h3]

/-- C10: sector encode/decode round-trips for `SectorSystemEndcap`: for every `layer < nLayers`,
`phi < nDivisionsInPhi` and `theta < nDivisionsInTheta`, `getSector` returns a sector on which
`getLayer`, `getPhi` and `getTheta` return `layer`, `phi` and `theta`; so `getSector` is
injective on the valid ranges. -/
theorem SectorSystemEndcap_roundtrip (nLayers nDivisionsInPhi nDivisionsInTheta : Nat)
    (layer phi theta : Nat)
    (hl : layer < nLayers) (hp : phi < nDivisionsInPhi) (ht : theta < nDivisionsInTheta) :
    (∃ sector : Int,
      (SectorSystemEndcap.new nLayers nDivisionsInPhi nDivisionsInTheta).getSector
        layer phi theta = Except.ok sector ∧
      (SectorSystemEndcap.new nLayers nDivisionsInPhi nDivisionsInTheta).getLayer sector =
        Except.ok layer ∧
      (SectorSystemEndcap.new nLayers nDivisionsInPhi nDivisionsInTheta).getPhi sector =
        Except.ok phi ∧
      (SectorSystemEndcap.new nLayers nDivisionsInPhi nDivisionsInTheta).getTheta sector =
        Except.ok theta) ∧
    (∀ layer2 phi2 theta2 : Nat,
      layer2 < nLayers → phi2 < nDivisionsInPhi → theta2 < nDivisionsInTheta →
      (SectorSystemEndcap.new nLayers nDivisionsInPhi nDivisionsInTheta).getSector
          layer phi theta =
        (SectorSystemEndcap.new nLayers nDivisionsInPhi nDivisionsInTheta).getSector
          layer2 phi2 theta2 →
      layer = layer2 ∧ phi = phi2 ∧ theta = theta2) := by
  refine ⟨SectorSystemEndcap.decode_getSector nLayers nDivisionsInPhi nDivisionsInTheta
    layer phi theta hl hp ht, ?_⟩
  intro layer2 phi2 theta2 hl2 hp2 ht2 heq
  obtain ⟨s, hs, ha, hb, hc⟩ := SectorSystemEndcap.decode_getSector nLayers nDivisionsInPhi
    nDivisionsInTheta layer phi theta hl hp ht
  obtain ⟨s2, hs2, ha2, hb2, hc2⟩ := SectorSystemEndcap.decode_getSector nLayers
    nDivisionsInPhi nDivisionsInTheta layer2 phi2 theta2 hl2 hp2 ht2
  rw [hs, hs2] at heq
  injection heq with heq
  subst heq
  rw [ha] at ha2
  rw [hb] at hb2
  rw [hc] at hc2
  injection ha2 with ha2
  injection hb2 with hb2
  injection hc2 with hc2
  exact ⟨ha2, hb2, hc2⟩

/-- Witness of C10: 7 layers, 8 divisions in phi and 5 divisions in theta, and the sector of
layer 3, phi 6 and theta 4. -/
theorem SectorSystemEndcap_roundtrip_witness :
    (3 < 7 ∧ 6 < 8 ∧ 4 < 5) ∧
    (SectorSystemEndcap.new 7 8 5).getSector 3 6 4 = Except.ok 269 ∧
    (SectorSystemEndcap.new 7 8 5).getLayer 269 = Except.ok 3 ∧
    (SectorSystemEndcap.new 7 8 5).getPhi 269 = Except.ok 6 ∧
    (SectorSystemEndcap.new 7 8 5).getTheta 269 = Except.ok 4 := by
  have h := (SectorSystemEndcap_roundtrip 7 8 5 3 6 4 (by decide) (by decide) (by decide)).1
  obtain ⟨s, hs, ha, hb, hc⟩ := h
  have h269 : (SectorSystemEndcap.new 7 8 5).getSector 3 6 4 = Except.ok 269 := rfl
  have hs269 : s = 269 := by
    have hcast : (SectorSystemEndcap.new 7 8 5).getSector ((3 : Nat) : Int) ((6 : Nat) : Int)
        ((4 : Nat) : Int) = Except.ok 269 := h269
    rw [hcast] at hs
    injection hs with hs
    exact hs.symm
  subst hs269
  exact ⟨⟨by decide, by decide, by decide⟩, h269, ha, hb, hc⟩

/-! ## Theorems: SectorSystemEndcap, out of range -/

/-- The range check fails on every sector outside `[0, sectorMax]`. -/
theorem SectorSystemEndcap.checkSectorIsInRange_error (self : SectorSystemEndcap)
    (sector : Int) (h : sector < 0 ∨ sector > self.sectorMax) :
    ∃ e, self.checkSectorIsInRange sector = Except.error e := by
  simp only [SectorSystemEndcap.checkSectorIsInRange, if_pos h]
  exact ⟨_, rfl⟩

/-- C11: out-of-range sector access in `SectorSystemEndcap` signals `OutOfRange` and returns no
value: `getLayer`, `getPhi` and `getTheta` throw for every sector outside `[0, sectorMax]`, and
`getSector` throws for every layer `>= nLayers` and every division index outside its
configured range. -/
theorem SectorSystemEndcap_out_of_range_throws (self : SectorSystemEndcap) :
    (∀ sector : Int, (sector < 0 ∨ sector > self.sectorMax) →
      (∃ e, self.getLayer sector = Except.error e) ∧
      (∃ e, self.getPhi sector = Except.error e) ∧
      (∃ e, self.getTheta sector = Except.error e)) ∧
    (∀ layer phi theta : Int,
      (layer ≥ self.nLayers ∨ phi < 0 ∨ phi ≥ self.nDivisionsInPhi ∨
        theta < 0 ∨ theta ≥ self.nDivisionsInTheta) →
      ∃ e, self.getSector layer phi theta = Except.error e) := by
  constructor
  · intro sector h
    obtain ⟨e, he⟩ := SectorSystemEndcap.checkSectorIsInRange_error self sector h
    refine ⟨⟨e, ?_⟩, ⟨e, ?_⟩, ⟨e, ?_⟩⟩
    · simp only [SectorSystemEndcap.getLayer, he, bind, Except.bind]
    · simp only [SectorSystemEndcap.getPhi, he, bind, Except.bind]
    · simp only [SectorSystemEndcap.getTheta, he, bind, Except.bind]
  · intro layer phi theta h
    simp only [SectorSystemEndcap.getSector]
    by_cases c1 : layer < 0 ∨ layer ≥ (self.nLayers : Int)
    · rw [if_pos c1]
      exact ⟨_, rfl⟩
    · rw [if_neg c1]
      by_cases c2 : phi < 0 ∨ phi ≥ (self.nDivisionsInPhi : Int)
      · rw [if_pos c2]
        exact ⟨_, rfl⟩
      · rw [if_neg c2]
        by_cases c3 : theta < 0 ∨ theta ≥ (self.nDivisionsInTheta : Int)
        · rw [if_pos c3]
          exact ⟨_, rfl⟩
        · exfalso
          rcases h with h | h | h | h | h
          · exact c1 (Or.inr h)
          · exact c2 (Or.inl h)
          · exact c2 (Or.inr h)
          · exact c3 (Or.inl h)
          · exact c3 (Or.inr h)

/-- Witness of C11: with 7 layers, 8 divisions in phi and 5 in theta the largest sector is 279;
the sector 280 and the layer 7 are out of range. -/
theorem SectorSystemEndcap_out_of_range_throws_witness :
    ((280 : Int) < 0 ∨ (280 : Int) > (SectorSystemEndcap.new 7 8 5).sectorMax) ∧
    ((∃ e, (SectorSystemEndcap.new 7 8 5).getLayer 280 = Except.error e) ∧
      (∃ e, (SectorSystemEndcap.new 7 8 5).getPhi 280 = Except.error e) ∧
      (∃ e, (SectorSystemEndcap.new 7 8 5).getTheta 280 = Except.error e)) ∧
    (∃ e, (SectorSystemEndcap.new 7 8 5).getSector 7 0 0 = Except.error e) :=
  ⟨Or.inr (by decide),
    (SectorSystemEndcap_out_of_range_throws (SectorSystemEndcap.new 7 8 5)).1 280
      (Or.inr (by decide)),
    (SectorSystemEndcap_out_of_range_throws (SectorSystemEndcap.new 7 8 5)).2 7 0 0
      (Or.inl (by decide))⟩

/-! ## Theorems: the criteria, continued -/

/-- C14: a four-hit straight line is accepted by `Crit4_2DAngleChange`: for two three-hit
segments whose two normalised bend angles in the xy projection are both 0,
`areCompatible` does not throw and returns `true`, for every pair of cut-offs (the ratio `0/0`
is not a number, and both range tests are false on it). -/
theorem Crit4_2DAngleChange_straight_line_accepted {α : Type} [LinearOrderedField α]
    [FloorRing α] (Phi : TVector3 α → α) (pi : α) (toFloat : α → FloatVal α)
    (self : Crit4_2DAngleChange α)
    (a b c d0 d1 d : AutHit α)
    (h1 : Crit4_2DAngleChange.normalise pi
      (Phi ⟨b.x - a.x, b.y - a.y, b.z - a.z⟩ - Phi ⟨c.x - b.x, c.y - b.y, c.z - b.z⟩) = 0)
    (h2 : Crit4_2DAngleChange.normalise pi
      (Phi ⟨c.x - b.x, c.y - b.y, c.z - b.z⟩ - Phi ⟨d.x - c.x, d.y - c.y, d.z - c.z⟩) = 0) :
    ∃ st, Crit4_2DAngleChange.areCompatible Phi pi toFloat self ⟨[a, b, c]⟩ ⟨[d0, d1, d]⟩ =
      Except.ok (true, st) := by
  simp only [Crit4_2DAngleChange.areCompatible]
  have hlen : ([a, b, c].length = 3 ∧ [d0, d1, d].length = 3) := ⟨rfl, rfl⟩
  rw [dif_pos hlen]
  simp only [List.get_eq_getElem, List.getElem_cons_zero, List.getElem_cons_succ, h1, h2,
    FloatVal.div, if_true, FloatVal.narrow, FloatVal.gt, FloatVal.lt, Bool.false_eq_true,
    if_false]
  exact ⟨_, rfl⟩

/-- Witness of C14 over the rationals, with `pi = 3` and the `x` component as `Phi`: four hits
on the line `x = y = z`. -/
theorem Crit4_2DAngleChange_straight_line_accepted_witness :
    ∃ st, Crit4_2DAngleChange.areCompatible (fun v : TVector3 ℚ => v.x) 3 toFloat32
      (Crit4_2DAngleChange.new 5 7)
      ⟨[⟨0, 0, 0⟩, ⟨1, 1, 1⟩, ⟨2, 2, 2⟩]⟩ ⟨[⟨1, 1, 1⟩, ⟨2, 2, 2⟩, ⟨3, 3, 3⟩]⟩ =
        Except.ok (true, st) :=
  Crit4_2DAngleChange_straight_line_accepted (fun v : TVector3 ℚ => v.x) 3 toFloat32
    (Crit4_2DAngleChange.new 5 7) ⟨0, 0, 0⟩ ⟨1, 1, 1⟩ ⟨2, 2, 2⟩ ⟨1, 1, 1⟩ ⟨2, 2, 2⟩ ⟨3, 3, 3⟩
    (by norm_num [Crit4_2DAngleChange.normalise])
    (by norm_num [Crit4_2DAngleChange.normalise])

/-- The state in which `Crit2_DeltaRho::areCompatible` leaves the criterion when it returns. -/
theorem Crit2_DeltaRho.areCompatible_state_crit2 {α : Type} [LinearOrderedField α]
    (sqrt : α → α) (self : Crit2_DeltaRho α) (parent child : Segment α) (v : Bool)
    (st : Crit2_DeltaRho α)
    (h : Crit2_DeltaRho.areCompatible sqrt self parent child = Except.ok (v, st)) :
    ∃ a b, parent.autHits = [a] ∧ child.autHits = [b] ∧
      st = (if self.saveValues then
        { self with
          map_name_value :=
            ((self.map_name_value.set "Crit2_DeltaRho_rhoParent"
                (FloatVal.finite (sqrt (a.x * a.x + a.y * a.y)))).set
              "Crit2_DeltaRho_rhoChild" (FloatVal.finite (sqrt (b.x * b.x + b.y * b.y)))).set
              "Crit2_DeltaRho"
              (FloatVal.finite (sqrt (a.x * a.x + a.y * a.y) - sqrt (b.x * b.x + b.y * b.y))) }
        else self) := by
  by_cases hlen : parent.autHits.length = 1 ∧ child.autHits.length = 1
  · obtain ⟨a, ha⟩ := List.length_eq_one.mp hlen.1
    obtain ⟨b, hb⟩ := List.length_eq_one.mp hlen.2
    refine ⟨a, b, ha, hb, ?_⟩
    obtain ⟨pl⟩ := parent
    obtain ⟨cl⟩ := child
    simp only at ha hb
    subst ha hb
    simp only [Crit2_DeltaRho.areCompatible, List.length_singleton, and_self, dite_true,
      List.get_eq_getElem, List.getElem_cons_zero] at h
    generalize (if self.saveValues = true then _ else self) = s1 at h ⊢
    split_ifs at h <;> (injection h with h; exact (congrArg Prod.snd h).symm)
  · simp only [Crit2_DeltaRho.areCompatible, dif_neg hlen] at h
    exact absurd h (by simp)

/-- The state in which `Crit4_2DAngleChange::areCompatible` leaves the criterion when it
returns. -/
theorem Crit4_2DAngleChange.areCompatible_state_crit4 {α : Type} [LinearOrderedField α]
    [FloorRing α] (Phi : TVector3 α → α) (pi : α) (toFloat : α → FloatVal α)
    (self : Crit4_2DAngleChange α)
    (parent child : Segment α) (v : Bool) (st : Crit4_2DAngleChange α)
    (h : Crit4_2DAngleChange.areCompatible Phi pi toFloat self parent child =
      Except.ok (v, st)) :
    ∃ a b c d0 d1 d, parent.autHits = [a, b, c] ∧ child.autHits = [d0, d1, d] ∧
      st = (if self.saveValues then
        { self with
          map_name_value := self.map_name_value.set "Crit4_2DAngleChange"
            ((FloatVal.div
              (Crit4_2DAngleChange.normalise pi
                (Phi ⟨b.x - a.x, b.y - a.y, b.z - a.z⟩ - Phi ⟨c.x - b.x, c.y - b.y, c.z - b.z⟩))
              (Crit4_2DAngleChange.normalise pi
                (Phi ⟨c.x - b.x, c.y - b.y, c.z - b.z⟩ -
                  Phi ⟨d.x - c.x, d.y - c.y, d.z - c.z⟩))).narrow toFloat) }
        else self) := by
  by_cases hlen : parent.autHits.length = 3 ∧ child.autHits.length = 3
  · obtain ⟨a, b, c, ha⟩ := List.length_eq_three.mp hlen.1
    obtain ⟨d0, d1, d, hb⟩ := List.length_eq_three.mp hlen.2
    refine ⟨a, b, c, d0, d1, d, ha, hb, ?_⟩
    obtain ⟨pl⟩ := parent
    obtain ⟨cl⟩ := child
    simp only at ha hb
    subst ha hb
    simp only [Crit4_2DAngleChange.areCompatible] at h
    have hl : ([a, b, c].length = 3 ∧ [d0, d1, d].length = 3) := ⟨rfl, rfl⟩
    rw [dif_pos hl] at h
    simp only [List.get_eq_getElem, List.getElem_cons_zero, List.getElem_cons_succ] at h
    generalize (if self.saveValues = true then _ else self) = s1 at h ⊢
    split_ifs at h <;> (injection h with h; exact (congrArg Prod.snd h).symm)
  · simp only [Crit4_2DAngleChange.areCompatible, dif_neg hlen] at h
    exact absurd h (by simp)

/-- C15: criteria are stateless apart from the diagnostic value caching. A newly constructed
`Crit2_DeltaRho` or `Crit4_2DAngleChange` has value saving switched off; while it is off, a
call of `areCompatible` that returns leaves the whole state of the criterion unchanged (a call
that throws assigns nothing); when it is on, only the name-to-value map changes, and the
values are in the map whatever the verdict is, so also for rejected connections. -/
theorem criteria_state_changes_only_by_saved_values {α : Type} [LinearOrderedField α]
    [FloorRing α] (sqrt : α → α) (Phi : TVector3 α → α) (pi : α)
    (toFloat : α → FloatVal α) :
    (∀ mn mx : α, (Crit2_DeltaRho.new mn mx).saveValues = false ∧
      (Crit4_2DAngleChange.new mn mx).saveValues = false) ∧
    (∀ (self : Crit2_DeltaRho α) (parent child : Segment α) (v : Bool) (st : Crit2_DeltaRho α),
      Crit2_DeltaRho.areCompatible sqrt self parent child = Except.ok (v, st) →
      (self.saveValues = false → st = self) ∧
      (self.saveValues = true →
        st = { self with map_name_value := st.map_name_value } ∧
        ∃ a b, parent.autHits = [a] ∧ child.autHits = [b] ∧
          st.map_name_value "Crit2_DeltaRho_rhoParent" =
            some (FloatVal.finite (sqrt (a.x * a.x + a.y * a.y))) ∧
          st.map_name_value "Crit2_DeltaRho_rhoChild" =
            some (FloatVal.finite (sqrt (b.x * b.x + b.y * b.y))) ∧
          st.map_name_value "Crit2_DeltaRho" =
            some (FloatVal.finite
              (sqrt (a.x * a.x + a.y * a.y) - sqrt (b.x * b.x + b.y * b.y))))) ∧
    (∀ (self : Crit4_2DAngleChange α) (parent child : Segment α) (v : Bool)
      (st : Crit4_2DAngleChange α),
      Crit4_2DAngleChange.areCompatible Phi pi toFloat self parent child = Except.ok (v, st) →
      (self.saveValues = false → st = self) ∧
      (self.saveValues = true →
        st = { self with map_name_value := st.map_name_value } ∧
        ∃ a b c d0 d1 d, parent.autHits = [a, b, c] ∧ child.autHits = [d0, d1, d] ∧
          st.map_name_value "Crit4_2DAngleChange" =
            some ((FloatVal.div
              (Crit4_2DAngleChange.normalise pi
                (Phi ⟨b.x - a.x, b.y - a.y, b.z - a.z⟩ - Phi ⟨c.x - b.x, c.y - b.y, c.z - b.z⟩))
              (Crit4_2DAngleChange.normalise pi
                (Phi ⟨c.x - b.x, c.y - b.y, c.z - b.z⟩ -
                  Phi ⟨d.x - c.x, d.y - c.y, d.z - c.z⟩))).narrow toFloat))) := by
  refine ⟨fun mn mx => ⟨rfl, rfl⟩, ?_, ?_⟩
  · intro self parent child v st h
    obtain ⟨a, b, ha, hb, hst⟩ :=
      Crit2_DeltaRho.areCompatible_state_crit2 sqrt self parent child v st h
    constructor
    · intro hoff
      rw [hst, if_neg (by rw [hoff]; decide)]
    · intro hon
      rw [if_pos hon] at hst
      subst hst
      refine ⟨rfl, a, b, ha, hb, ?_, ?_, ?_⟩
      · simp [ValueMap.set]
      · simp [ValueMap.set]
      · simp [ValueMap.set]
  · intro self parent child v st h
    obtain ⟨a, b, c, d0, d1, d, ha, hb, hst⟩ :=
      Crit4_2DAngleChange.areCompatible_state_crit4 Phi pi toFloat self parent child v st h
    constructor
    · intro hoff
      rw [hst, if_neg (by rw [hoff]; decide)]
    · intro hon
      rw [if_pos hon] at hst
      subst hst
      refine ⟨rfl, a, b, c, d0, d1, d, ha, hb, ?_⟩
      simp [ValueMap.set]

/-- Witness of C15: a `Crit2_DeltaRho` with value saving switched on by hand rejects a
connection (the difference of the radii is `25 - 5 = 20`, above the maximum 10, the square
root being replaced by the identity) and has recorded the difference all the same. -/
theorem criteria_state_changes_only_by_saved_values_witness :
    ∃ st, Crit2_DeltaRho.areCompatible (fun x : ℚ => x)
        { (Crit2_DeltaRho.new 0 10 : Crit2_DeltaRho ℚ) with saveValues := true }
        ⟨[⟨3, 4, 0⟩]⟩ ⟨[⟨1, 2, 0⟩]⟩ = Except.ok (false, st) ∧
      st.deltaRhoMax = 10 ∧ st.deltaRhoMin = 0 ∧
      st.map_name_value "Crit2_DeltaRho" = some (FloatVal.finite 20) := by
  have hrun : Crit2_DeltaRho.areCompatible (fun x : ℚ => x)
      { (Crit2_DeltaRho.new 0 10 : Crit2_DeltaRho ℚ) with saveValues := true }
      ⟨[⟨3, 4, 0⟩]⟩ ⟨[⟨1, 2, 0⟩]⟩ = Except.ok (false,
        { (Crit2_DeltaRho.new 0 10 : Crit2_DeltaRho ℚ) with
          saveValues := true
          map_name_value :=
            (((ValueMap.empty : ValueMap ℚ).set "Crit2_DeltaRho_rhoParent"
                (FloatVal.finite (3 * 3 + 4 * 4))).set
              "Crit2_DeltaRho_rhoChild" (FloatVal.finite (1 * 1 + 2 * 2))).set
              "Crit2_DeltaRho" (FloatVal.finite (3 * 3 + 4 * 4 - (1 * 1 + 2 * 2))) }) := by
    simp only [Crit2_DeltaRho.areCompatible, Crit2_DeltaRho.new, List.length_singleton,
      and_self, dite_true, List.get_eq_getElem, List.getElem_cons_zero, if_true]
    norm_num
  refine ⟨_, hrun, ?_⟩
  obtain ⟨hst, a, b, ha, hb, _, _, hd⟩ :=
    ((criteria_state_changes_only_by_saved_values (fun x : ℚ => x)
      (fun v : TVector3 ℚ => v.x) 3 toFloat32).2.1 _ _ _ _ _ hrun).2 rfl
  simp only [List.cons.injEq, and_true] at ha hb
  subst ha hb
  refine ⟨rfl, rfl, ?_⟩
  rw [hd]
  norm_num

/-! ## Theorems: IFTDHit -/

/-- After `calculateSector()`, when `getSector` throws on the fields of the hit: the exception
leaves the method, and the hit, its stored sector included, is as it was before. -/
theorem IFTDHit.calculateSector_error (hit : IFTDHit) (e : OutOfRange)
    (h : (hit.calculateSector).2 = some e) :
    hit.calculateSector = (hit, some e) ∧
      hit.sectorSystemFTD.getSector hit.side hit.layer hit.module hit.sensor =
        Except.error e := by
  unfold IFTDHit.calculateSector at h ⊢
  cases hs : hit.sectorSystemFTD.getSector hit.side hit.layer hit.module hit.sensor with
  | error e2 =>
    rw [hs] at h
    simp only [Option.some.injEq] at h
    subst h
    exact ⟨rfl, rfl⟩
  | ok s =>
    rw [hs] at h
    exact absurd h (by simp)

/-- After `calculateSector()` without an exception, the stored sector is `getSector` of the
fields of the hit. -/
theorem IFTDHit.calculateSector_none (hit : IFTDHit) (h : (hit.calculateSector).2 = none) :
    (hit.calculateSector).1.sectorSystemFTD.getSector (hit.calculateSector).1.side
      (hit.calculateSector).1.layer (hit.calculateSector).1.module
      (hit.calculateSector).1.sensor = Except.ok (hit.calculateSector).1.sector := by
  unfold IFTDHit.calculateSector at h ⊢
  cases hs : hit.sectorSystemFTD.getSector hit.side hit.layer hit.module hit.sensor with
  | error e =>
    rw [hs] at h
    exact absurd h (by simp)
  | ok s =>
    simp only
    rw [hs]

/-- C16, as stated, fails on the code: on a hit on side `+1`, layer 2, module 0 and sensor 0 of
the example sector system with 4 layers (sector 18), `setLayer( 7 )` writes the layer 7, then
`getSector` throws `OutOfRange`, and the stored sector is still 18, which is not `getSector` of
the fields that the hit has after the call (there is no such sector). -/
theorem IFTDHit_setLayer_out_of_range_counterexample :
    ((⟨1, 2, 0, 0, radixSectorSystemFTD 4 2 2, 18⟩ : IFTDHit).setLayer 7).2 =
      some ⟨"index out of range"⟩ ∧
    ((⟨1, 2, 0, 0, radixSectorSystemFTD 4 2 2, 18⟩ : IFTDHit).setLayer 7).1.side = 1 ∧
    ((⟨1, 2, 0, 0, radixSectorSystemFTD 4 2 2, 18⟩ : IFTDHit).setLayer 7).1.layer = 7 ∧
    ((⟨1, 2, 0, 0, radixSectorSystemFTD 4 2 2, 18⟩ : IFTDHit).setLayer 7).1.module = 0 ∧
    ((⟨1, 2, 0, 0, radixSectorSystemFTD 4 2 2, 18⟩ : IFTDHit).setLayer 7).1.sensor = 0 ∧
    ((⟨1, 2, 0, 0, radixSectorSystemFTD 4 2 2, 18⟩ : IFTDHit).setLayer 7).1.sector = 18 ∧
    (radixSectorSystemFTD 4 2 2).getSector 1 7 0 0 = Except.error ⟨"index out of range"⟩ ∧
    (radixSectorSystemFTD 4 2 2).getSector 1 7 0 0 ≠ Except.ok 18 :=
  ⟨rfl, rfl, rfl, rfl, rfl, rfl, rfl, fun h => Except.noConfusion h⟩

/-- C16, amended: after a call of `setSide`, `setLayer`, `setModule` or `setSensor` that returns
without an exception, the stored sector equals `getSector( side , layer , module , sensor )`
evaluated on the field values that the hit has after the call; when the call throws (the
`OutOfRange` with which `getSector` rejects the field values that the hit then has), the stored
sector is left as it was before the call. -/
theorem IFTDHit_sector_derived_from_fields (hit : IFTDHit) :
    (∀ side : Int,
      ((hit.setSide side).2 = none →
        (hit.setSide side).1.sectorSystemFTD.getSector (hit.setSide side).1.side
          (hit.setSide side).1.layer (hit.setSide side).1.module (hit.setSide side).1.sensor =
            Except.ok (hit.setSide side).1.sector) ∧
      (∀ e, (hit.setSide side).2 = some e →
        (hit.setSide side).1.sector = hit.sector ∧
          (hit.setSide side).1.sectorSystemFTD.getSector (hit.setSide side).1.side
            (hit.setSide side).1.layer (hit.setSide side).1.module
            (hit.setSide side).1.sensor = Except.error e)) ∧
    (∀ layer : Nat,
      ((hit.setLayer layer).2 = none →
        (hit.setLayer layer).1.sectorSystemFTD.getSector (hit.setLayer layer).1.side
          (hit.setLayer layer).1.layer (hit.setLayer layer).1.module
          (hit.setLayer layer).1.sensor = Except.ok (hit.setLayer layer).1.sector) ∧
      (∀ e, (hit.setLayer layer).2 = some e →
        (hit.setLayer layer).1.sector = hit.sector ∧
          (hit.setLayer layer).1.sectorSystemFTD.getSector (hit.setLayer layer).1.side
            (hit.setLayer layer).1.layer (hit.setLayer layer).1.module
            (hit.setLayer layer).1.sensor = Except.error e)) ∧
    (∀ module : Nat,
      ((hit.setModule module).2 = none →
        (hit.setModule module).1.sectorSystemFTD.getSector (hit.setModule module).1.side
          (hit.setModule module).1.layer (hit.setModule module).1.module
          (hit.setModule module).1.sensor = Except.ok (hit.setModule module).1.sector) ∧
      (∀ e, (hit.setModule module).2 = some e →
        (hit.setModule module).1.sector = hit.sector ∧
          (hit.setModule module).1.sectorSystemFTD.getSector (hit.setModule module).1.side
            (hit.setModule module).1.layer (hit.setModule module).1.module
            (hit.setModule module).1.sensor = Except.error e)) ∧
    (∀ sensor : Nat,
      ((hit.setSensor sensor).2 = none →
        (hit.setSensor sensor).1.sectorSystemFTD.getSector (hit.setSensor sensor).1.side
          (hit.setSensor sensor).1.layer (hit.setSensor sensor).1.module
          (hit.setSensor sensor).1.sensor = Except.ok (hit.setSensor sensor).1.sector) ∧
      (∀ e, (hit.setSensor sensor).2 = some e →
        (hit.setSensor sensor).1.sector = hit.sector ∧
          (hit.setSensor sensor).1.sectorSystemFTD.getSector (hit.setSensor sensor).1.side
            (hit.setSensor sensor).1.layer (hit.setSensor sensor).1.module
            (hit.setSensor sensor).1.sensor = Except.error e)) := by
  refine ⟨fun side => ⟨fun h => ?_, fun e h => ?_⟩, fun layer => ⟨fun h => ?_, fun e h => ?_⟩,
    fun module => ⟨fun h => ?_, fun e h => ?_⟩, fun sensor => ⟨fun h => ?_, fun e h => ?_⟩⟩
  · exact IFTDHit.calculateSector_none { hit with side := side } h
  · obtain ⟨h1, h2⟩ := IFTDHit.calculateSector_error { hit with side := side } e h
    have h3 : (hit.setSide side).1 = { hit with side := side } := congrArg Prod.fst h1
    rw [h3]
    exact ⟨rfl, h2⟩
  · exact IFTDHit.calculateSector_none { hit with layer := layer } h
  · obtain ⟨h1, h2⟩ := IFTDHit.calculateSector_error { hit with layer := layer } e h
    have h3 : (hit.setLayer layer).1 = { hit with layer := layer } := congrArg Prod.fst h1
    rw [h3]
    exact ⟨rfl, h2⟩
  · exact IFTDHit.calculateSector_none { hit with module := module } h
  · obtain ⟨h1, h2⟩ := IFTDHit.calculateSector_error { hit with module := module } e h
    have h3 : (hit.setModule module).1 = { hit with module := module } := congrArg Prod.fst h1
    rw [h3]
    exact ⟨rfl, h2⟩
  · exact IFTDHit.calculateSector_none { hit with layer := sensor } h
  · obtain ⟨h1, h2⟩ := IFTDHit.calculateSector_error { hit with layer := sensor } e h
    have h3 : (hit.setSensor sensor).1 = { hit with layer := sensor } := congrArg Prod.fst h1
    rw [h3]
    exact ⟨rfl, h2⟩

/-- Witness of the amended C16: a hit on side `+1`, layer 1, module 0, sensor 0 of the example
sector system (sector 17) is moved to layer 3 without an exception and is then in sector 19,
the sector of its new fields. -/
theorem IFTDHit_sector_derived_from_fields_witness :
    ((⟨1, 1, 0, 0, radixSectorSystemFTD 4 2 2, 17⟩ : IFTDHit).setLayer 3).2 = none ∧
    ((⟨1, 1, 0, 0, radixSectorSystemFTD 4 2 2, 17⟩ : IFTDHit).setLayer 3).1.sector = 19 ∧
    (radixSectorSystemFTD 4 2 2).getSector 1 3 0 0 =
      Except.ok ((⟨1, 1, 0, 0, radixSectorSystemFTD 4 2 2, 17⟩ : IFTDHit).setLayer 3).1.sector :=
  ⟨rfl, rfl,
    ((IFTDHit_sector_derived_from_fields ⟨1, 1, 0, 0, radixSectorSystemFTD 4 2 2, 17⟩).2.1
      3).1 rfl⟩

/-! ## Theorems: setCriteria -/

/-- C12: the cut-off ladder of `setCriteria( round )`. The criteria of the round are the
configured names, each with the cut-offs of the round taken from its list of minima and its
list of maxima; round N takes the N-th configured value of a list if the list has one and
otherwise keeps the last configured value; `setCriteria` returns `true` exactly when at least
one criterion received a new cut-off value in that round, hence `false` once every list is
exhausted. -/
theorem DDForwardTracking_setCriteria_ladder {α : Type} (self : DDForwardTracking α)
    (round : Nat) :
    ((self.setCriteria round).2.map Prod.fst = self.criteriaNames ∧
      ∀ critName mn mx, (critName, mn, mx) ∈ (self.setCriteria round).2 →
        mn = DDForwardTracking.cutoffOfRound (self.critMinima critName) round ∧
        mx = DDForwardTracking.cutoffOfRound (self.critMaxima critName) round) ∧
    (∀ values : List α,
      (∀ h : round < values.length,
        DDForwardTracking.cutoffOfRound values round = some (values.get ⟨round, h⟩)) ∧
      (∀ hne : values ≠ [], values.length ≤ round →
        DDForwardTracking.cutoffOfRound values round = some (values.getLast hne))) ∧
    ((self.setCriteria round).1 = true ↔
      ∃ critName, critName ∈ self.criteriaNames ∧
        (round < (self.critMinima critName).length ∨
          round < (self.critMaxima critName).length)) ∧
    ((∀ critName, critName ∈ self.criteriaNames →
        (self.critMinima critName).length ≤ round ∧
          (self.critMaxima critName).length ≤ round) →
      (self.setCriteria round).1 = false) := by
  have hiff : (self.setCriteria round).1 = true ↔
      ∃ critName, critName ∈ self.criteriaNames ∧
        (round < (self.critMinima critName).length ∨
          round < (self.critMaxima critName).length) := by
    simp only [DDForwardTracking.setCriteria, List.any_eq_true, Bool.or_eq_true,
      decide_eq_true_eq]
  refine ⟨⟨?_, ?_⟩, ?_, hiff, ?_⟩
  · simp only [DDForwardTracking.setCriteria, List.map_map]
    exact List.map_id _
  · intro critName mn mx hmem
    simp only [DDForwardTracking.setCriteria, List.mem_map, Prod.mk.injEq] at hmem
    obtain ⟨name, _, h1, h2, h3⟩ := hmem
    subst h1
    exact ⟨h2.symm, h3.symm⟩
  · intro values
    constructor
    · intro h
      simp only [DDForwardTracking.cutoffOfRound, if_pos h]
      exact List.get?_eq_get h
    · intro hne hle
      have hnot : ¬ round < values.length := not_lt.mpr hle
      simp only [DDForwardTracking.cutoffOfRound, if_neg hnot]
      exact List.getLast?_eq_getLast values hne
  · intro hall
    rw [← Bool.not_eq_true, hiff]
    rintro ⟨critName, hmem, h | h⟩
    · exact absurd h (not_lt.mpr (hall critName hmem).1)
    · exact absurd h (not_lt.mpr (hall critName hmem).2)

/-- Witness of C12: one criterion with the minima `30, 0.8` and the single maximum `100`: round
1 takes the second minimum and keeps the maximum, round 2 keeps both and reports that no new
value was set. -/
theorem DDForwardTracking_setCriteria_ladder_witness :
    (⟨["Crit_Example"], fun _ => [30, 4 / 5], fun _ => [100]⟩ :
        DDForwardTracking ℚ).setCriteria 1 =
      (true, [("Crit_Example", some (4 / 5), some 100)]) ∧
    ((⟨["Crit_Example"], fun _ => [30, 4 / 5], fun _ => [100]⟩ :
        DDForwardTracking ℚ).setCriteria 2).1 = false :=
  ⟨rfl,
    (DDForwardTracking_setCriteria_ladder
      (⟨["Crit_Example"], fun _ => [30, 4 / 5], fun _ => [100]⟩ : DDForwardTracking ℚ) 2).2.2.2
      (fun _ _ => ⟨Nat.le_refl 2, Nat.le_succ 1⟩)⟩

/-! ## Theorems: FTDHitCon01, the layers of the targets -/

/-- A loop over a list that returns has put into the set nothing but what its passes put
there. -/
theorem foldlM_mem_of_ok {ι : Type} (f : Finset Int → ι → Except OutOfRange (Finset Int))
    (P : ι → Int → Prop) (l : List ι)
    (hf : ∀ x ∈ l, ∀ acc acc2, f acc x = Except.ok acc2 → ∀ t, t ∈ acc2 → (t ∈ acc ∨ P x t)) :
    ∀ acc acc2, l.foldlM f acc = Except.ok acc2 →
      ∀ t, t ∈ acc2 → (t ∈ acc ∨ ∃ x ∈ l, P x t) := by
  induction l with
  | nil =>
    intro acc acc2 h t ht
    have h2 : acc = acc2 := by
      have h3 : (Except.ok acc : Except OutOfRange (Finset Int)) = Except.ok acc2 := h
      injection h3
    exact Or.inl (h2 ▸ ht)
  | cons a l ih =>
    intro acc acc2 h t ht
    rw [List.foldlM_cons] at h
    cases h1 : f acc a with
    | error e =>
      rw [h1] at h
      exact absurd h (by simp [bind, Except.bind])
    | ok acc1 =>
      rw [h1] at h
      have h2 : l.foldlM f acc1 = Except.ok acc2 := h
      rcases ih (fun x hx => hf x (List.mem_cons_of_mem a hx)) acc1 acc2 h2 t ht with
        hin | ⟨x, hx, hP⟩
      · rcases hf a (List.mem_cons_self a l) acc acc1 h1 t hin with h3 | h3
        · exact Or.inl h3
        · exact Or.inr ⟨a, List.mem_cons_self a l, h3⟩
      · exact Or.inr ⟨x, List.mem_cons_of_mem a hx, hP⟩

/-- The loops over modules and sensors, when they return, have added only sectors of the
target layer. -/
theorem FTDHitCon01.insertLayer_mem_of_ok (ss : SectorSystemFTD) (nModules nSensors : Nat)
    (side : Int) (layerTarget : Nat) (acc acc2 : Finset Int)
    (h : FTDHitCon01.insertLayer ss nModules nSensors side layerTarget acc = Except.ok acc2)
    (t : Int) (ht : t ∈ acc2) :
    t ∈ acc ∨ ∃ m n, ss.getSector side layerTarget m n = Except.ok t := by
  have houter := foldlM_mem_of_ok
    (fun acc iModule =>
      (List.range nSensors).foldlM
        (fun acc2 iSensor => do
          let s ← ss.getSector side layerTarget iModule iSensor
          pure (insert s acc2))
        acc)
    (fun m t => ∃ n, ss.getSector side layerTarget m n = Except.ok t)
    (List.range nModules) ?_ acc acc2 h t ht
  · rcases houter with h1 | ⟨m, _, n, h1⟩
    · exact Or.inl h1
    · exact Or.inr ⟨m, n, h1⟩
  · intro m _ a1 a2 h1 t1 ht1
    have hinner := foldlM_mem_of_ok
      (fun acc2 iSensor => do
        let s ← ss.getSector side layerTarget m iSensor
        pure (insert s acc2))
      (fun n t => ss.getSector side layerTarget m n = Except.ok t)
      (List.range nSensors) ?_ a1 a2 h1 t1 ht1
    · rcases hinner with h2 | ⟨n, _, h2⟩
      · exact Or.inl h2
      · exact Or.inr ⟨n, h2⟩
    · intro n _ a3 a4 h3 t3 ht3
      cases hs : ss.getSector side layerTarget m n with
      | error e =>
        simp only [hs, bind, Except.bind] at h3
        exact absurd h3 (by simp)
      | ok s =>
        simp only [hs, bind, Except.bind, pure, Except.pure] at h3
        injection h3 with h3
        subst h3
        rcases Finset.mem_insert.mp ht3 with h4 | h4
        · subst h4
          exact Or.inr hs
        · exact Or.inl h4

/-- Whenever `getTargetSectors` returns, the source sector has a side and a layer, and every
returned sector is `getSector( side , layerTarget , m , n )` for a target layer strictly below
the layer of the source. -/
theorem FTDHitCon01.getTargetSectors_mem_of_ok (self : FTDHitCon01) (sector : Int)
    (targets : Finset Int) (h : self.getTargetSectors sector = Except.ok targets) :
    ∃ side layer, self.sectorSystemFTD.getSide sector = Except.ok side ∧
      self.sectorSystemFTD.getLayer sector = Except.ok layer ∧
      ∀ t, t ∈ targets → ∃ layerTarget m n, layerTarget < layer ∧
        self.sectorSystemFTD.getSector side layerTarget m n = Except.ok t := by
  unfold FTDHitCon01.getTargetSectors at h
  cases hside : self.sectorSystemFTD.getSide sector with
  | error e =>
    rw [hside] at h
    exact absurd h (by simp [bind, Except.bind])
  | ok side =>
    cases hlayer : self.sectorSystemFTD.getLayer sector with
    | error e =>
      rw [hside, hlayer] at h
      exact absurd h (by simp [bind, Except.bind])
    | ok layer =>
      rw [hside, hlayer] at h
      simp only [bind, Except.bind] at h
      refine ⟨side, layer, rfl, rfl, ?_⟩
      cases hloop : (List.foldlM
          (fun acc layerStep =>
            if layer ≥ layerStep then
              FTDHitCon01.insertLayer self.sectorSystemFTD
                self.sectorSystemFTD.getNumberOfModules
                self.sectorSystemFTD.getNumberOfSensors side (layer - layerStep) acc
            else pure acc)
          (∅ : Finset Int) (List.range' 1 self.layerStepMax)) with
      | error e =>
        rw [hloop] at h
        exact absurd h (by simp)
      | ok targets1 =>
        rw [hloop] at h
        simp only at h
        have hsteps : ∀ t, t ∈ targets1 → ∃ layerTarget m n, layerTarget < layer ∧
            self.sectorSystemFTD.getSector side layerTarget m n = Except.ok t := by
          intro t ht
          have := foldlM_mem_of_ok
            (fun acc layerStep =>
              if layer ≥ layerStep then
                FTDHitCon01.insertLayer self.sectorSystemFTD
                  self.sectorSystemFTD.getNumberOfModules
                  self.sectorSystemFTD.getNumberOfSensors side (layer - layerStep) acc
              else pure acc)
            (fun k t => ∃ layerTarget m n, layerTarget < layer ∧
              self.sectorSystemFTD.getSector side layerTarget m n = Except.ok t)
            (List.range' 1 self.layerStepMax) ?_ ∅ targets1 hloop t ht
          · rcases this with h1 | ⟨_, _, h1⟩
            · exact absurd h1 (Finset.not_mem_empty t)
            · exact h1
          · intro k hk a1 a2 h1 t1 ht1
            have hk1 : 1 ≤ k := (List.mem_range'_1.mp hk).1
            by_cases hge : layer ≥ k
            · simp only [if_pos hge] at h1
              rcases FTDHitCon01.insertLayer_mem_of_ok _ _ _ _ _ _ _ h1 t1 ht1 with
                h2 | ⟨m, n, h2⟩
              · exact Or.inl h2
              · exact Or.inr ⟨layer - k, m, n, by omega, h2⟩
            · simp only [if_neg hge] at h1
              have h3 : (Except.ok a1 : Except OutOfRange (Finset Int)) = Except.ok a2 := h1
              injection h3 with h3
              exact Or.inl (h3 ▸ ht1)
        intro t ht
        by_cases hjump : layer > 1 ∧ layer ≤ self.lastLayerToIP
        · rw [if_pos hjump] at h
          rcases FTDHitCon01.insertLayer_mem_of_ok _ _ _ _ _ _ _ h t ht with h2 | ⟨m, n, h2⟩
          · exact hsteps t h2
          · exact ⟨0, m, n, by omega, h2⟩
        · rw [if_neg hjump] at h
          have h3 : (Except.ok targets1 : Except OutOfRange (Finset Int)) = Except.ok targets := h
          injection h3 with h3
          exact hsteps t (h3 ▸ ht)

/-- The example sector system decodes the side and the layer of what it encodes. -/
theorem radixSectorSystemFTD_decode (nLayers nModules nSensors : Nat) (side : Int)
    (layer m n : Nat) (t : Int)
    (h : (radixSectorSystemFTD nLayers nModules nSensors).getSector side layer m n =
      Except.ok t) :
    (radixSectorSystemFTD nLayers nModules nSensors).getSide t = Except.ok side ∧
    (radixSectorSystemFTD nLayers nModules nSensors).getLayer t = Except.ok layer := by
  simp only [radixSectorSystemFTD] at h ⊢
  by_cases hcond : (side ≠ 1 ∧ side ≠ -1) ∨ layer ≥ nLayers ∨ m ≥ nModules ∨ n ≥ nSensors
  · rw [if_pos hcond] at h
    exact absurd h (by simp)
  · rw [if_neg hcond] at h
    injection h with h
    have hl : layer < nLayers := by
      by_contra hc
      exact hcond (Or.inr (Or.inl (not_lt.mp hc)))
    have hm : m < nModules := by
      by_contra hc
      exact hcond (Or.inr (Or.inr (Or.inl (not_lt.mp hc))))
    have hn : n < nSensors := by
      by_contra hc
      exact hcond (Or.inr (Or.inr (Or.inr (not_lt.mp hc))))
    have hside : side = 1 ∨ side = -1 := by
      by_contra hc
      push_neg at hc
      exact hcond (Or.inl hc)
    obtain ⟨hlt, hmod, _, _⟩ := radix_digits nLayers nModules nSensors layer m n hl hm hn
    rcases hside with hs | hs
    · subst hs
      have hbit : (((1 : Int) + 1) / 2).toNat = 1 := by decide
      rw [hbit, Nat.one_mul] at h
      subst h
      have c1 : ¬ (((nLayers * nModules * nSensors + layer +
          nLayers * (m + nModules * n) : Nat) : Int) < 0 ∨
          ((nLayers * nModules * nSensors + layer + nLayers * (m + nModules * n) : Nat) : Int)
            ≥ 2 * ((nLayers * nModules * nSensors : Nat) : Int)) := by
        omega
      have c2 : ((nLayers * nModules * nSensors + layer +
          nLayers * (m + nModules * n) : Nat) : Int) ≥
            ((nLayers * nModules * nSensors : Nat) : Int) := by
        omega
      rw [if_neg c1, if_pos c2, if_neg c1]
      refine ⟨rfl, congrArg Except.ok ?_⟩
      rw [Int.toNat_natCast, Nat.add_assoc, Nat.mul_assoc, Nat.mul_add_mod, hmod]
    · subst hs
      have hbit : (((-1 : Int) + 1) / 2).toNat = 0 := by decide
      rw [hbit, Nat.zero_mul, Nat.zero_add] at h
      subst h
      have c1 : ¬ (((layer + nLayers * (m + nModules * n) : Nat) : Int) < 0 ∨
          ((layer + nLayers * (m + nModules * n) : Nat) : Int)
            ≥ 2 * ((nLayers * nModules * nSensors : Nat) : Int)) := by
        omega
      have c2 : ¬ ((layer + nLayers * (m + nModules * n) : Nat) : Int) ≥
            ((nLayers * nModules * nSensors : Nat) : Int) := by
        omega
      rw [if_neg c1, if_neg c2, if_neg c1]
      refine ⟨rfl, congrArg Except.ok ?_⟩
      rw [Int.toNat_natCast, hmod]

/-- A connection goes to a strictly lower layer, on a sector system that decodes the layer of
what it encodes. -/
theorem FTDHitCon01.connects_layer_lt (self : FTDHitCon01)
    (hrt : ∀ side layer m n t, self.sectorSystemFTD.getSector side layer m n = Except.ok t →
      self.sectorSystemFTD.getSide t = Except.ok side ∧
        self.sectorSystemFTD.getLayer t = Except.ok layer)
    (source target : Int) (h : self.connects source target) :
    ∃ side layer layerTarget, self.sectorSystemFTD.getSide source = Except.ok side ∧
      self.sectorSystemFTD.getLayer source = Except.ok layer ∧
      self.sectorSystemFTD.getSide target = Except.ok side ∧
      self.sectorSystemFTD.getLayer target = Except.ok layerTarget ∧ layerTarget < layer := by
  obtain ⟨targets, hret, hmem⟩ := h
  obtain ⟨side, layer, hside, hlayer, hall⟩ :=
    FTDHitCon01.getTargetSectors_mem_of_ok self source targets hret
  obtain ⟨layerTarget, m, n, hlt, hsec⟩ := hall target hmem
  obtain ⟨h1, h2⟩ := hrt side layerTarget m n target hsec
  exact ⟨side, layer, layerTarget, hside, hlayer, h1, h2, hlt⟩

/-- Along a chain of connections the layer strictly decreases. -/
theorem FTDHitCon01.transGen_layerOf_lt (self : FTDHitCon01)
    (hrt : ∀ side layer m n t, self.sectorSystemFTD.getSector side layer m n = Except.ok t →
      self.sectorSystemFTD.getSide t = Except.ok side ∧
        self.sectorSystemFTD.getLayer t = Except.ok layer)
    (source target : Int) (h : Relation.TransGen self.connects source target) :
    self.layerOf target < self.layerOf source := by
  have hstep : ∀ a b, self.connects a b → self.layerOf b < self.layerOf a := by
    intro a b hab
    obtain ⟨side, layer, layerTarget, _, h2, _, h4, hlt⟩ :=
      FTDHitCon01.connects_layer_lt self hrt a b hab
    simp only [FTDHitCon01.layerOf, h2, h4]
    exact hlt
  induction h with
  | single hab => exact hstep _ _ hab
  | tail _ hbc ih => exact lt_trans (hstep _ _ hbc) ih

/-- C13: on a sector system that decodes the side and the layer of what it encodes, every
sector returned by `FTDHitCon01::getTargetSectors( sector )` lies on the same side as the source
sector and on a layer strictly smaller than the source layer; a layer-0 sector has an empty
target set; and the hit-connection relation is acyclic. -/
theorem FTDHitCon01_targets_on_lower_layers (self : FTDHitCon01)
    (hrt : ∀ side layer m n t, self.sectorSystemFTD.getSector side layer m n = Except.ok t →
      self.sectorSystemFTD.getSide t = Except.ok side ∧
        self.sectorSystemFTD.getLayer t = Except.ok layer) :
    (∀ sector targets, self.getTargetSectors sector = Except.ok targets →
      ∀ t, t ∈ targets →
        ∃ side layer layerTarget, self.sectorSystemFTD.getSide sector = Except.ok side ∧
          self.sectorSystemFTD.getLayer sector = Except.ok layer ∧
          self.sectorSystemFTD.getSide t = Except.ok side ∧
          self.sectorSystemFTD.getLayer t = Except.ok layerTarget ∧ layerTarget < layer) ∧
    (∀ sector side, self.sectorSystemFTD.getSide sector = Except.ok side →
      self.sectorSystemFTD.getLayer sector = Except.ok 0 →
      self.getTargetSectors sector = Except.ok ∅) ∧
    (∀ sector, ¬ Relation.TransGen self.connects sector sector) := by
  refine ⟨?_, ?_, ?_⟩
  · intro sector targets hret t ht
    exact FTDHitCon01.connects_layer_lt self hrt sector t ⟨targets, hret, ht⟩
  · intro sector side hside hlayer
    obtain ⟨targets, hret, hmem⟩ := FTDHitCon01.getTargetSectors_spec self sector side 0
      hside hlayer (fun layerTarget hlt => absurd hlt (Nat.not_lt_zero layerTarget))
    have hempty : targets = ∅ := by
      apply Finset.eq_empty_of_forall_not_mem
      intro t ht
      obtain ⟨layerTarget, m, n, _, _, hcase, _⟩ := (hmem t).mp ht
      rcases hcase with ⟨k, hk1, _, hk0, _⟩ | ⟨_, h1, _⟩
      · omega
      · omega
    rw [hret, hempty]
  · intro sector hcycle
    exact lt_irrefl _ (FTDHitCon01.transGen_layerOf_lt self hrt sector sector hcycle)

/-- Witness of C13 on the example sector system with 4 layers, 2 modules and 2 sensors, for
`layerStepMax = 2` and `lastLayerToIP = 3`: the sector 16 (side `+1`, layer 0) has no targets,
and the sector 19 is not connected to itself through any chain. -/
theorem FTDHitCon01_targets_on_lower_layers_witness :
    (⟨radixSectorSystemFTD 4 2 2, 2, 3⟩ : FTDHitCon01).getTargetSectors 16 = Except.ok ∅ ∧
    ¬ Relation.TransGen (⟨radixSectorSystemFTD 4 2 2, 2, 3⟩ : FTDHitCon01).connects 19 19 :=
  ⟨(FTDHitCon01_targets_on_lower_layers ⟨radixSectorSystemFTD 4 2 2, 2, 3⟩
      (fun side layer m n t h => radixSectorSystemFTD_decode 4 2 2 side layer m n t h)).2.1
      16 1 rfl rfl,
    (FTDHitCon01_targets_on_lower_layers ⟨radixSectorSystemFTD 4 2 2, 2, 3⟩
      (fun side layer m n t h => radixSectorSystemFTD_decode 4 2 2 side layer m n t h)).2.2 19⟩

/-! ## Theorems: TrackingFeedbackProcessor, the assigned true track -/

/-- The counting loop keeps its invariant: with `pre` the part of the sorted vector already
visited, `n` is the number of occurrences of `previousTT` in `pre`, `assignedTrueTrack` occurs
`nMax` times in `pre`, and nothing occurs more often; so the same holds for the whole vector
at the end of the loop. -/
theorem CountState.foldl_step_invariant (rest : List TrueTrackPtr) :
    ∀ (pre : List TrueTrackPtr) (s : CountState),
      List.Sorted (· ≤ ·) (pre ++ rest) →
      s.n = pre.count s.previousTT →
      (∀ x, x ∈ pre → x ≤ s.previousTT) →
      (pre ≠ [] → s.previousTT ∈ pre) →
      pre.count s.assignedTrueTrack = s.nMax →
      (∀ x, pre.count x ≤ s.nMax) →
      (pre ++ rest).count (rest.foldl CountState.step s).assignedTrueTrack =
          (rest.foldl CountState.step s).nMax ∧
        ∀ x, (pre ++ rest).count x ≤ (rest.foldl CountState.step s).nMax := by
  induction rest with
  | nil =>
    intro pre s _ _ _ _ hass hall
    simp only [List.append_nil, List.foldl_nil]
    exact ⟨hass, hall⟩
  | cons y rest ih =>
    intro pre s hsorted hn hle hmem hass hall
    have hsorted2 : List.Sorted (· ≤ ·) ((pre ++ [y]) ++ rest) := by
      rw [List.append_assoc]
      exact hsorted
    have hpre_le : ∀ x, x ∈ pre → x ≤ y := by
      intro x hx
      have hp := List.pairwise_append.mp hsorted
      exact hp.2.2 x hx y (List.mem_cons_self y rest)
    -- the number of occurrences of `y` in the visited part, after the pass
    have hcount : (if y = s.previousTT then s.n + 1 else 1) = (pre ++ [y]).count y := by
      rw [List.count_append, List.count_singleton_self]
      by_cases hy : y = s.previousTT
      · rw [if_pos hy, hn, hy]
      · rw [if_neg hy]
        have hnot : y ∉ pre := by
          intro hin
          have hne : pre ≠ [] := List.ne_nil_of_mem hin
          have h1 : s.previousTT ≤ y := hpre_le _ (hmem hne)
          have h2 : y ≤ s.previousTT := hle y hin
          exact hy (le_antisymm h2 h1)
        rw [List.count_eq_zero_of_not_mem hnot]
    have key := ih (pre ++ [y]) (s.step y) hsorted2
    have hstep_prev : (s.step y).previousTT = y := by
      simp only [CountState.step]
      split_ifs <;> rfl
    have hstep_n : (s.step y).n = (pre ++ [y]).count y := by
      rw [← hcount]
      simp only [CountState.step]
      split_ifs <;> rfl
    rw [List.foldl_cons]
    have hgoal : (pre ++ y :: rest) = (pre ++ [y]) ++ rest := by
      rw [List.append_assoc]
      rfl
    rw [hgoal]
    apply key
    · rw [hstep_prev]
      exact hstep_n
    · intro x hx
      rw [hstep_prev]
      rcases List.mem_append.mp hx with h1 | h1
      · exact hpre_le x h1
      · rw [List.mem_singleton.mp h1]
    · intro _
      rw [hstep_prev]
      exact List.mem_append_right pre (List.mem_singleton_self y)
    · by_cases hgt : (if y = s.previousTT then s.n + 1 else 1) > s.nMax
      · have h1 : (s.step y).assignedTrueTrack = y := by
          simp only [CountState.step, if_pos hgt]
        have h2 : (s.step y).nMax = (if y = s.previousTT then s.n + 1 else 1) := by
          simp only [CountState.step, if_pos hgt]
        rw [h1, h2, hcount]
      · have h1 : (s.step y).assignedTrueTrack = s.assignedTrueTrack := by
          simp only [CountState.step, if_neg hgt]
        have h2 : (s.step y).nMax = s.nMax := by
          simp only [CountState.step, if_neg hgt]
        rw [h1, h2, List.count_append]
        have hne : s.assignedTrueTrack ≠ y := by
          intro heq
          rw [hcount, List.count_append, List.count_singleton_self, ← heq, hass] at hgt
          omega
        have hzero : List.count s.assignedTrueTrack [y] = 0 :=
          List.count_eq_zero_of_not_mem (fun hin => hne (List.mem_singleton.mp hin))
        rw [hzero, hass, Nat.add_zero]
    · intro x
      by_cases hgt : (if y = s.previousTT then s.n + 1 else 1) > s.nMax
      · have h2 : (s.step y).nMax = (if y = s.previousTT then s.n + 1 else 1) := by
          simp only [CountState.step, if_pos hgt]
        rw [h2]
        by_cases hx : x = y
        · rw [hx, hcount]
        · have hzero : List.count x [y] = 0 :=
            List.count_eq_zero_of_not_mem (fun hin => hx (List.mem_singleton.mp hin))
          rw [List.count_append, hzero]
          have := hall x
          omega
      · have h2 : (s.step y).nMax = s.nMax := by
          simp only [CountState.step, if_neg hgt]
        rw [h2]
        by_cases hx : x = y
        · rw [hx, ← hcount]
          exact not_lt.mp hgt
        · have hzero : List.count x [y] = 0 :=
            List.count_eq_zero_of_not_mem (fun hin => hx (List.mem_singleton.mp hin))
          rw [List.count_append, hzero]
          exact hall x

/-- The candidate of the sort-and-count loop occurs `nMax` times in the vector, and nothing
occurs more often. -/
theorem TrackingFeedbackProcessor.countLoop_count (relatedTrueTracks : List TrueTrackPtr) :
    relatedTrueTracks.count
        (TrackingFeedbackProcessor.countLoop relatedTrueTracks).assignedTrueTrack =
      (TrackingFeedbackProcessor.countLoop relatedTrueTracks).nMax ∧
    ∀ tt, relatedTrueTracks.count tt ≤
      (TrackingFeedbackProcessor.countLoop relatedTrueTracks).nMax := by
  have hperm := List.perm_insertionSort (· ≤ ·) relatedTrueTracks
  have hsorted := List.sorted_insertionSort (· ≤ ·) relatedTrueTracks
  have key := CountState.foldl_step_invariant (relatedTrueTracks.insertionSort (· ≤ ·)) []
    { previousTT := NULL, n := 0, nMax := 0, assignedTrueTrack := NULL }
    (by rw [List.nil_append]; exact hsorted) rfl (fun x hx => absurd hx (List.not_mem_nil x))
    (fun h => absurd rfl h) rfl (fun x => Nat.le_refl 0)
  rw [List.nil_append] at key
  unfold TrackingFeedbackProcessor.countLoop
  constructor
  · rw [← hperm.count_eq]
    exact key.1
  · intro tt
    rw [← hperm.count_eq]
    exact key.2 tt

/-- The sort-and-count loop does not depend on the order of the vector. -/
theorem TrackingFeedbackProcessor.countLoop_perm (l1 l2 : List TrueTrackPtr)
    (h : l1.Perm l2) :
    TrackingFeedbackProcessor.countLoop l1 = TrackingFeedbackProcessor.countLoop l2 := by
  have hsort : l1.insertionSort (· ≤ ·) = l2.insertionSort (· ≤ ·) := by
    apply List.eq_of_perm_of_sorted (r := (· ≤ ·))
    · exact ((List.perm_insertionSort _ l1).trans h).trans (List.perm_insertionSort _ l2).symm
    · exact List.sorted_insertionSort _ l1
    · exact List.sorted_insertionSort _ l2
  unfold TrackingFeedbackProcessor.countLoop
  rw [hsort]

/-- When `getAssignedTrueTrack` returns a true track, it is the candidate of the loop, and the
reference parameter is `nMax`. -/
theorem TrackingFeedbackProcessor.getAssignedTrueTrack_of_ne_NULL
    (self : TrackingFeedbackProcessor) (relatedTrueTracks : List TrueTrackPtr) (n0 : Nat)
    (h : (self.getAssignedTrueTrack relatedTrueTracks n0).1 ≠ NULL) :
    self.getAssignedTrueTrack relatedTrueTracks n0 =
      ((TrackingFeedbackProcessor.countLoop relatedTrueTracks).assignedTrueTrack,
        (TrackingFeedbackProcessor.countLoop relatedTrueTracks).nMax) := by
  unfold TrackingFeedbackProcessor.getAssignedTrueTrack at h ⊢
  simp only at h ⊢
  split_ifs at h ⊢ <;> first | rfl | exact absurd rfl h

/-- C19: `getAssignedTrueTrack` finds the true track with the most hits in the reconstructed
one: for every non-empty vector `relatedTrueTracks`, the candidate chosen by the sort-and-count
loop is an element that occurs exactly `nMax` times in the vector, and no element occurs more
than `nMax` times; when a track is returned, it is that candidate and
`nHitsFromAssignedTrueTrack` is set to `nMax`; and the returned result does not depend on the
order of the vector. -/
theorem getAssignedTrueTrack_candidate_has_most_hits (self : TrackingFeedbackProcessor)
    (relatedTrueTracks : List TrueTrackPtr) (hne : relatedTrueTracks ≠ []) :
    (1 ≤ (TrackingFeedbackProcessor.countLoop relatedTrueTracks).nMax ∧
      (TrackingFeedbackProcessor.countLoop relatedTrueTracks).assignedTrueTrack ∈
        relatedTrueTracks ∧
      relatedTrueTracks.count
          (TrackingFeedbackProcessor.countLoop relatedTrueTracks).assignedTrueTrack =
        (TrackingFeedbackProcessor.countLoop relatedTrueTracks).nMax ∧
      ∀ tt, relatedTrueTracks.count tt ≤
        (TrackingFeedbackProcessor.countLoop relatedTrueTracks).nMax) ∧
    (∀ n0, (self.getAssignedTrueTrack relatedTrueTracks n0).1 ≠ NULL →
      self.getAssignedTrueTrack relatedTrueTracks n0 =
        ((TrackingFeedbackProcessor.countLoop relatedTrueTracks).assignedTrueTrack,
          (TrackingFeedbackProcessor.countLoop relatedTrueTracks).nMax)) ∧
    (∀ (reordered : List TrueTrackPtr) (n0 : Nat), reordered.Perm relatedTrueTracks →
      self.getAssignedTrueTrack reordered n0 =
        self.getAssignedTrueTrack relatedTrueTracks n0) := by
  obtain ⟨hcount, hall⟩ := TrackingFeedbackProcessor.countLoop_count relatedTrueTracks
  have hpos : 1 ≤ (TrackingFeedbackProcessor.countLoop relatedTrueTracks).nMax := by
    obtain ⟨x, hx⟩ := List.exists_mem_of_ne_nil relatedTrueTracks hne
    exact le_trans (List.count_pos_iff.mpr hx) (hall x)
  refine ⟨⟨hpos, ?_, hcount, hall⟩, ?_, ?_⟩
  · apply List.count_pos_iff.mp
    rw [hcount]
    exact hpos
  · intro n0 h
    exact TrackingFeedbackProcessor.getAssignedTrueTrack_of_ne_NULL self relatedTrueTracks n0 h
  · intro reordered n0 hperm
    have hE : reordered.isEmpty = relatedTrueTracks.isEmpty := by
      rcases reordered with _ | ⟨a, l⟩
      · rw [List.Perm.nil_eq hperm]
      · rcases relatedTrueTracks with _ | ⟨b, m⟩
        · exact absurd rfl hne
        · rfl
    unfold TrackingFeedbackProcessor.getAssignedTrueTrack
    rw [TrackingFeedbackProcessor.countLoop_perm reordered relatedTrueTracks hperm,
      hperm.length_eq, hE]

/-- Witness of C19: in the vector `3, 1, 3, 2, 1, 3` the candidate is 3, with `nMax = 3`. -/
theorem getAssignedTrueTrack_candidate_has_most_hits_witness :
    TrackingFeedbackProcessor.countLoop [3, 1, 3, 2, 1, 3] =
      { previousTT := 3, n := 3, nMax := 3, assignedTrueTrack := 3 } ∧
    List.count 3 [3, 1, 3, 2, 1, 3] = 3 ∧
    ∀ tt, List.count tt [3, 1, 3, 2, 1, 3] ≤ 3 := by
  have h := (getAssignedTrueTrack_candidate_has_most_hits oneTrueTrackEvent [3, 1, 3, 2, 1, 3]
    (by decide)).1
  have hloop : TrackingFeedbackProcessor.countLoop [3, 1, 3, 2, 1, 3] =
      { previousTT := 3, n := 3, nMax := 3, assignedTrueTrack := 3 } := by decide
  rw [hloop] at h
  exact ⟨hloop, h.2.2.1, h.2.2.2⟩

/-- The run of `getAssignedTrueTrack` on which C17 fails: the reconstructed track has the seven
hits 10, 11, 12, 20, 21, 22, 23, of which only three belong to the true track at the address 1
(the other four belong to no true track), and it is assigned to that true track with
`nHitsFromAssignedTrueTrack = 3`; `checkTheTrack` counts it as incomplete with extra points, not
as a ghost. -/
theorem checkTheTrack_assigns_track_with_minority_of_hits :
    oneTrueTrackEvent.relatedTrueTracks [10, 11, 12, 20, 21, 22, 23] = [1, 1, 1] ∧
    oneTrueTrackEvent.getAssignedTrueTrack [1, 1, 1] 0 = (1, 3) ∧
    (oneTrueTrackEvent.checkTheTrack ⟨200, [10, 11, 12, 20, 21, 22, 23]⟩).nGhost = 0 ∧
    (oneTrueTrackEvent.checkTheTrack ⟨200, [10, 11, 12, 20, 21, 22, 23]⟩).nIncompletePlus = 1 ∧
    ¬ (2 * 3 > [10, 11, 12, 20, 21, 22, 23].length) := by
  have hrel : oneTrueTrackEvent.relatedTrueTracks [10, 11, 12, 20, 21, 22, 23] = [1, 1, 1] := by
    decide
  have hloop : TrackingFeedbackProcessor.countLoop [1, 1, 1] =
      { previousTT := 1, n := 3, nMax := 3, assignedTrueTrack := 1 } := by decide
  have hass : oneTrueTrackEvent.getAssignedTrueTrack [1, 1, 1] 0 = (1, 3) := by
    simp only [TrackingFeedbackProcessor.getAssignedTrueTrack, hloop]
    norm_num [oneTrueTrackEvent, NULL]
  refine ⟨hrel, hass, ?_, ?_, by decide⟩
  · simp only [TrackingFeedbackProcessor.checkTheTrack, hrel, hass]
    norm_num [oneTrueTrackEvent, NULL, TrackingFeedbackProcessor.store]
  · simp only [TrackingFeedbackProcessor.checkTheTrack, hrel, hass]
    norm_num [oneTrueTrackEvent, NULL, TrackingFeedbackProcessor.store]

/-- The run of `getAssignedTrueTrack` on which C18 fails: two of the four hits of the true
track at the address 1 are in the reconstructed track, which is exactly half and not more, and
the true track is returned with `nHitsFromAssignedTrueTrack = 2`. -/
theorem getAssignedTrueTrack_returns_track_found_by_half :
    oneTrueTrackEvent.relatedTrueTracks [10, 11] = [1, 1] ∧
    (oneTrueTrackEvent.heap 1).trueTrack.trackerHits.length = 4 ∧
    oneTrueTrackEvent.getAssignedTrueTrack [1, 1] 0 = (1, 2) ∧
    ¬ ((2 : ℚ) / 4 > 0.5) := by
  have hloop : TrackingFeedbackProcessor.countLoop [1, 1] =
      { previousTT := 1, n := 2, nMax := 2, assignedTrueTrack := 1 } := by decide
  refine ⟨by decide, by decide, ?_, by norm_num⟩
  simp only [TrackingFeedbackProcessor.getAssignedTrueTrack, hloop]
  norm_num [oneTrueTrackEvent, NULL]

/-! ## Theorems: TrackingFeedbackProcessor, the classification -/

/-- A true track that is listed once in `_trueTracks` is pushed back once for every hit of the
track that it contains. -/
theorem TrackingFeedbackProcessor.count_relatedTrueTracks (self : TrackingFeedbackProcessor)
    (T : TrueTrackPtr) (honce : self.trueTracks.count T = 1) (hitVec : List TrackerHitPtr) :
    (self.relatedTrueTracks hitVec).count T =
      (hitVec.filter fun hit => decide (hit ∈ (self.heap T).trueTrack.trackerHits)).length := by
  induction hitVec with
  | nil => rfl
  | cons hit hits ih =>
    have hcons : self.relatedTrueTracks (hit :: hits) =
        (self.trueTracks.filter fun tt =>
          decide (hit ∈ (self.heap tt).trueTrack.trackerHits)) ++
        self.relatedTrueTracks hits := by
      simp only [TrackingFeedbackProcessor.relatedTrueTracks, List.flatMap_cons]
    rw [hcons, List.count_append, ih]
    by_cases hin : hit ∈ (self.heap T).trueTrack.trackerHits
    · have hp : (fun tt => decide (hit ∈ (self.heap tt).trueTrack.trackerHits)) T = true :=
        decide_eq_true hin
      have hc : List.count T (self.trueTracks.filter fun tt =>
          decide (hit ∈ (self.heap tt).trueTrack.trackerHits)) = List.count T self.trueTracks :=
        List.count_filter hp
      rw [hc, honce]
      simp only [List.filter_cons, decide_eq_true hin, if_true, List.length_cons]
      omega
    · have hnot : T ∉ self.trueTracks.filter fun tt =>
          decide (hit ∈ (self.heap tt).trueTrack.trackerHits) := by
        intro hmem
        have := (List.mem_filter.mp hmem).2
        exact hin (of_decide_eq_true this)
      rw [List.count_eq_zero_of_not_mem hnot, Nat.zero_add]
      simp only [List.filter_cons, decide_eq_false hin, Bool.false_eq_true, if_false]

/-- The hits of a list that are in another list are fewer than the list exactly when the list
is not contained in the other one. -/
theorem length_filter_mem_lt_iff (R TH : List TrackerHitPtr) :
    (R.filter fun hit => decide (hit ∈ TH)).length < R.length ↔ ¬ R ⊆ TH := by
  have hle : (R.filter fun hit => decide (hit ∈ TH)).length ≤ R.length :=
    List.length_filter_le _ R
  have heq : (R.filter fun hit => decide (hit ∈ TH)).length = R.length ↔ R ⊆ TH := by
    rw [List.filter_length_eq_length]
    constructor
    · intro h a ha
      exact of_decide_eq_true (h a ha)
    · intro h a ha
      exact decide_eq_true (h ha)
  constructor
  · intro hlt hsub
    have := heq.mpr hsub
    omega
  · intro hns
    rcases Nat.lt_or_ge (R.filter fun hit => decide (hit ∈ TH)).length R.length with h | h
    · exact h
    · exact absurd (heq.mp (le_antisymm hle h)) hns

/-- For two lists without repetitions, as many elements of the first are in the second as
elements of the second are in the first. -/
theorem length_filter_mem_comm (R TH : List TrackerHitPtr) (hR : R.Nodup) (hT : TH.Nodup) :
    (R.filter fun hit => decide (hit ∈ TH)).length =
      (TH.filter fun hit => decide (hit ∈ R)).length := by
  apply List.Perm.length_eq
  rw [List.perm_ext_iff_of_nodup (hR.filter _) (hT.filter _)]
  intro a
  simp only [List.mem_filter, decide_eq_true_eq]
  exact And.comm

/-- The state after `checkTheTrack` for a track that is assigned to the true track `T` with
`n` hits found. -/
theorem TrackingFeedbackProcessor.checkTheTrack_assigned (self : TrackingFeedbackProcessor)
    (track : Track) (T : TrueTrackPtr) (n : Nat) (hnn : T ≠ NULL)
    (hass : self.getAssignedTrueTrack (self.relatedTrueTracks track.trackerHits) 0 = (T, n)) :
    self.checkTheTrack track =
      (if n < (self.heap T).trueTrack.trackerHits.length then
        if n < track.trackerHits.length then
          { self with nIncompletePlus := self.nIncompletePlus + 1 }.store T
            { self.heap T with
              isLost := false
              map_track_type :=
                (self.heap T).map_track_type.insert track.ptr TrackType.INCOMPLETE_PLUS }
        else
          { self with nIncomplete := self.nIncomplete + 1 }.store T
            { self.heap T with
              isLost := false
              map_track_type :=
                (self.heap T).map_track_type.insert track.ptr TrackType.INCOMPLETE }
      else
        if n < track.trackerHits.length then
          { self with nCompletePlus := self.nCompletePlus + 1 }.store T
            { self.heap T with
              isLost := false
              isFoundCompletely := true
              map_track_type :=
                (self.heap T).map_track_type.insert track.ptr TrackType.COMPLETE_PLUS }
        else
          { self with nComplete := self.nComplete + 1 }.store T
            { self.heap T with
              isLost := false
              isFoundCompletely := true
              completeVersionExists := true
              map_track_type :=
                (self.heap T).map_track_type.insert track.ptr TrackType.COMPLETE }) := by
  unfold TrackingFeedbackProcessor.checkTheTrack
  simp only [hass, if_neg hnn]

/-- C20: for a reconstructed track with pairwise distinct hits that `checkTheTrack` assigns to
a true track `T` with pairwise distinct hits, `T` being listed once in `_trueTracks`, there is
one track type that is inserted into `map_track_type` of `T` and whose counter is incremented
(the other three counters keep their values), and it is `COMPLETE` exactly when the two tracks
have the same hits, `COMPLETE_PLUS` exactly when the hits of `T` are a proper subset of those
of the track, `INCOMPLETE` exactly when the hits of the track are a proper subset of those of
`T`, and `INCOMPLETE_PLUS` otherwise; `isFoundCompletely` is set exactly in the two complete
cases and `completeVersionExists` exactly in the case `COMPLETE`. -/
theorem checkTheTrack_classification (self : TrackingFeedbackProcessor) (track : Track)
    (T : TrueTrackPtr) (n : Nat)
    (hR : track.trackerHits.Nodup) (hT : (self.heap T).trueTrack.trackerHits.Nodup)
    (honce : self.trueTracks.count T = 1) (hnn : T ≠ NULL)
    (hass : self.getAssignedTrueTrack (self.relatedTrueTracks track.trackerHits) 0 = (T, n)) :
    ∃ trackType : TrackType,
      ((self.checkTheTrack track).heap T).map_track_type =
        (self.heap T).map_track_type.insert track.ptr trackType ∧
      (self.checkTheTrack track).nComplete =
        self.nComplete + (if trackType = TrackType.COMPLETE then 1 else 0) ∧
      (self.checkTheTrack track).nCompletePlus =
        self.nCompletePlus + (if trackType = TrackType.COMPLETE_PLUS then 1 else 0) ∧
      (self.checkTheTrack track).nIncomplete =
        self.nIncomplete + (if trackType = TrackType.INCOMPLETE then 1 else 0) ∧
      (self.checkTheTrack track).nIncompletePlus =
        self.nIncompletePlus + (if trackType = TrackType.INCOMPLETE_PLUS then 1 else 0) ∧
      (trackType = TrackType.COMPLETE ↔
        ∀ hit, hit ∈ track.trackerHits ↔ hit ∈ (self.heap T).trueTrack.trackerHits) ∧
      (trackType = TrackType.COMPLETE_PLUS ↔
        ((self.heap T).trueTrack.trackerHits ⊆ track.trackerHits ∧
          ¬ track.trackerHits ⊆ (self.heap T).trueTrack.trackerHits)) ∧
      (trackType = TrackType.INCOMPLETE ↔
        (track.trackerHits ⊆ (self.heap T).trueTrack.trackerHits ∧
          ¬ (self.heap T).trueTrack.trackerHits ⊆ track.trackerHits)) ∧
      (trackType = TrackType.INCOMPLETE_PLUS ↔
        (¬ (self.heap T).trueTrack.trackerHits ⊆ track.trackerHits ∧
          ¬ track.trackerHits ⊆ (self.heap T).trueTrack.trackerHits)) ∧
      ((self.checkTheTrack track).heap T).isFoundCompletely =
        ((self.heap T).isFoundCompletely ||
          decide (trackType = TrackType.COMPLETE ∨ trackType = TrackType.COMPLETE_PLUS)) ∧
      ((self.checkTheTrack track).heap T).completeVersionExists =
        ((self.heap T).completeVersionExists || decide (trackType = TrackType.COMPLETE)) := by
  -- the number of hits found is the number of hits of the track that are hits of `T`
  have hne : (self.getAssignedTrueTrack (self.relatedTrueTracks track.trackerHits) 0).1 ≠ NULL := by
    rw [hass]
    exact hnn
  have hloop := TrackingFeedbackProcessor.getAssignedTrueTrack_of_ne_NULL self _ 0 hne
  rw [hass] at hloop
  have hTeq : T = (TrackingFeedbackProcessor.countLoop
      (self.relatedTrueTracks track.trackerHits)).assignedTrueTrack := congrArg Prod.fst hloop
  have hneq : n = (TrackingFeedbackProcessor.countLoop
      (self.relatedTrueTracks track.trackerHits)).nMax := congrArg Prod.snd hloop
  have hn : n = (track.trackerHits.filter fun hit =>
      decide (hit ∈ (self.heap T).trueTrack.trackerHits)).length := by
    rw [← TrackingFeedbackProcessor.count_relatedTrueTracks self T honce, hneq]
    conv_lhs => rw [← (TrackingFeedbackProcessor.countLoop_count
      (self.relatedTrueTracks track.trackerHits)).1]
    rw [← hTeq]
  have hRlt : n < track.trackerHits.length ↔
      ¬ track.trackerHits ⊆ (self.heap T).trueTrack.trackerHits := by
    rw [hn]
    exact length_filter_mem_lt_iff _ _
  have hTlt : n < (self.heap T).trueTrack.trackerHits.length ↔
      ¬ (self.heap T).trueTrack.trackerHits ⊆ track.trackerHits := by
    rw [hn, length_filter_mem_comm _ _ hR hT]
    exact length_filter_mem_lt_iff _ _
  have hsame : (∀ hit, hit ∈ track.trackerHits ↔ hit ∈ (self.heap T).trueTrack.trackerHits) ↔
      (track.trackerHits ⊆ (self.heap T).trueTrack.trackerHits ∧
        (self.heap T).trueTrack.trackerHits ⊆ track.trackerHits) := by
    constructor
    · intro h
      exact ⟨fun a ha => (h a).mp ha, fun a ha => (h a).mpr ha⟩
    · intro h hit
      exact ⟨fun ha => h.1 ha, fun ha => h.2 ha⟩
  rw [TrackingFeedbackProcessor.checkTheTrack_assigned self track T n hnn hass, hsame]
  by_cases c1 : n < (self.heap T).trueTrack.trackerHits.length
  · have s1 := hTlt.mp c1
    rw [if_pos c1]
    by_cases c2 : n < track.trackerHits.length
    · have s2 := hRlt.mp c2
      rw [if_pos c2]
      refine ⟨TrackType.INCOMPLETE_PLUS, ?_, ?_, ?_, ?_, ?_, ?_, ?_, ?_, ?_, ?_, ?_⟩ <;>
        simp [TrackingFeedbackProcessor.store, s1, s2]
    · have s2 : track.trackerHits ⊆ (self.heap T).trueTrack.trackerHits := by
        by_contra hc
        exact c2 (hRlt.mpr hc)
      rw [if_neg c2]
      refine ⟨TrackType.INCOMPLETE, ?_, ?_, ?_, ?_, ?_, ?_, ?_, ?_, ?_, ?_, ?_⟩ <;>
        simp [TrackingFeedbackProcessor.store, s1, s2]
  · have s1 : (self.heap T).trueTrack.trackerHits ⊆ track.trackerHits := by
      by_contra hc
      exact c1 (hTlt.mpr hc)
    rw [if_neg c1]
    by_cases c2 : n < track.trackerHits.length
    · have s2 := hRlt.mp c2
      rw [if_pos c2]
      refine ⟨TrackType.COMPLETE_PLUS, ?_, ?_, ?_, ?_, ?_, ?_, ?_, ?_, ?_, ?_, ?_⟩ <;>
        simp [TrackingFeedbackProcessor.store, s1, s2]
    · have s2 : track.trackerHits ⊆ (self.heap T).trueTrack.trackerHits := by
        by_contra hc
        exact c2 (hRlt.mpr hc)
      rw [if_neg c2]
      refine ⟨TrackType.COMPLETE, ?_, ?_, ?_, ?_, ?_, ?_, ?_, ?_, ?_, ?_, ?_⟩ <;>
        simp [TrackingFeedbackProcessor.store, s1, s2]

/-- Witness of C20: a reconstructed track with exactly the four hits of the true track of the
example event is assigned to it, counted as complete, and marks it as found completely. -/
theorem checkTheTrack_classification_witness :
    oneTrueTrackEvent.getAssignedTrueTrack
        (oneTrueTrackEvent.relatedTrueTracks [10, 11, 12, 13]) 0 = (1, 4) ∧
    (oneTrueTrackEvent.checkTheTrack ⟨200, [10, 11, 12, 13]⟩).nComplete = 1 ∧
    ((oneTrueTrackEvent.checkTheTrack ⟨200, [10, 11, 12, 13]⟩).heap 1).isFoundCompletely =
      true ∧
    ((oneTrueTrackEvent.checkTheTrack ⟨200, [10, 11, 12, 13]⟩).heap 1).completeVersionExists =
      true := by
  have hrel : oneTrueTrackEvent.relatedTrueTracks [10, 11, 12, 13] = [1, 1, 1, 1] := by decide
  have hloop : TrackingFeedbackProcessor.countLoop [1, 1, 1, 1] =
      { previousTT := 1, n := 4, nMax := 4, assignedTrueTrack := 1 } := by decide
  have hass : oneTrueTrackEvent.getAssignedTrueTrack
      (oneTrueTrackEvent.relatedTrueTracks [10, 11, 12, 13]) 0 = (1, 4) := by
    rw [hrel]
    simp only [TrackingFeedbackProcessor.getAssignedTrueTrack, hloop]
    norm_num [oneTrueTrackEvent, NULL]
  obtain ⟨trackType, _, hcount, _, _, _, hcomplete, _, _, _, hfound, hversion⟩ :=
    checkTheTrack_classification oneTrueTrackEvent ⟨200, [10, 11, 12, 13]⟩ 1 4
      (by decide) (by decide) (by decide) (by decide) hass
  have htype : trackType = TrackType.COMPLETE := hcomplete.mpr (fun _ => Iff.rfl)
  subst htype
  refine ⟨hass, ?_, ?_, ?_⟩
  · rw [hcount]
    rfl
  · rw [hfound]
    rfl
  · rw [hversion]
    rfl

/-! ## Theorems: TrackingFeedbackProcessor, the counters of an event -/

/-- What a call of `checkTheTrack` does to the counters: one of the five counters of the
reconstructed tracks goes up by one, the other four and every other counter keep their values,
and `_trueTracks` is not changed. -/
theorem TrackingFeedbackProcessor.checkTheTrack_counters (self : TrackingFeedbackProcessor)
    (track : Track) :
    ((self.checkTheTrack track).nGhost = self.nGhost + 1 ∧
        (self.checkTheTrack track).nComplete = self.nComplete ∧
        (self.checkTheTrack track).nCompletePlus = self.nCompletePlus ∧
        (self.checkTheTrack track).nIncomplete = self.nIncomplete ∧
        (self.checkTheTrack track).nIncompletePlus = self.nIncompletePlus ∨
      (self.checkTheTrack track).nGhost = self.nGhost ∧
        (self.checkTheTrack track).nComplete = self.nComplete + 1 ∧
        (self.checkTheTrack track).nCompletePlus = self.nCompletePlus ∧
        (self.checkTheTrack track).nIncomplete = self.nIncomplete ∧
        (self.checkTheTrack track).nIncompletePlus = self.nIncompletePlus ∨
      (self.checkTheTrack track).nGhost = self.nGhost ∧
        (self.checkTheTrack track).nComplete = self.nComplete ∧
        (self.checkTheTrack track).nCompletePlus = self.nCompletePlus + 1 ∧
        (self.checkTheTrack track).nIncomplete = self.nIncomplete ∧
        (self.checkTheTrack track).nIncompletePlus = self.nIncompletePlus ∨
      (self.checkTheTrack track).nGhost = self.nGhost ∧
        (self.checkTheTrack track).nComplete = self.nComplete ∧
        (self.checkTheTrack track).nCompletePlus = self.nCompletePlus ∧
        (self.checkTheTrack track).nIncomplete = self.nIncomplete + 1 ∧
        (self.checkTheTrack track).nIncompletePlus = self.nIncompletePlus ∨
      (self.checkTheTrack track).nGhost = self.nGhost ∧
        (self.checkTheTrack track).nComplete = self.nComplete ∧
        (self.checkTheTrack track).nCompletePlus = self.nCompletePlus ∧
        (self.checkTheTrack track).nIncomplete = self.nIncomplete ∧
        (self.checkTheTrack track).nIncompletePlus = self.nIncompletePlus + 1) ∧
    (self.checkTheTrack track).trueTracks = self.trueTracks ∧
    (self.checkTheTrack track).nTrueTracks = self.nTrueTracks ∧
    (self.checkTheTrack track).nRecoTracks = self.nRecoTracks ∧
    (self.checkTheTrack track).nLost = self.nLost ∧
    (self.checkTheTrack track).nFoundCompletely = self.nFoundCompletely ∧
    (self.checkTheTrack track).nDismissedTrueTracks = self.nDismissedTrueTracks := by
  simp only [TrackingFeedbackProcessor.checkTheTrack]
  split_ifs <;> simp [TrackingFeedbackProcessor.store]

/-- The sum of the five counters of the reconstructed tracks. -/
theorem TrackingFeedbackProcessor.foldl_checkTheTrack_counters (col : List Track) :
    ∀ st : TrackingFeedbackProcessor,
      (col.foldl TrackingFeedbackProcessor.checkTheTrack st).nGhost +
          (col.foldl TrackingFeedbackProcessor.checkTheTrack st).nComplete +
          (col.foldl TrackingFeedbackProcessor.checkTheTrack st).nCompletePlus +
          (col.foldl TrackingFeedbackProcessor.checkTheTrack st).nIncomplete +
          (col.foldl TrackingFeedbackProcessor.checkTheTrack st).nIncompletePlus =
        st.nGhost + st.nComplete + st.nCompletePlus + st.nIncomplete + st.nIncompletePlus +
          col.length ∧
      (col.foldl TrackingFeedbackProcessor.checkTheTrack st).trueTracks = st.trueTracks ∧
      (col.foldl TrackingFeedbackProcessor.checkTheTrack st).nTrueTracks = st.nTrueTracks ∧
      (col.foldl TrackingFeedbackProcessor.checkTheTrack st).nRecoTracks = st.nRecoTracks ∧
      (col.foldl TrackingFeedbackProcessor.checkTheTrack st).nLost = st.nLost ∧
      (col.foldl TrackingFeedbackProcessor.checkTheTrack st).nFoundCompletely =
        st.nFoundCompletely := by
  induction col with
  | nil =>
    intro st
    simp only [List.foldl_nil, List.length_nil, Nat.add_zero, and_self]
  | cons track col ih =>
    intro st
    rw [List.foldl_cons]
    obtain ⟨h1, h2, h3, h4, h5, h6⟩ := ih (st.checkTheTrack track)
    obtain ⟨hc, g2, g3, g4, g5, g6, _⟩ :=
      TrackingFeedbackProcessor.checkTheTrack_counters st track
    refine ⟨?_, by rw [h2, g2], by rw [h3, g3], by rw [h4, g4], by rw [h5, g5], by rw [h6, g6]⟩
    rw [h1, List.length_cons]
    rcases hc with ⟨a, b, c, d, e⟩ | ⟨a, b, c, d, e⟩ | ⟨a, b, c, d, e⟩ | ⟨a, b, c, d, e⟩ |
      ⟨a, b, c, d, e⟩ <;>
    · rw [a, b, c, d, e]
      omega

/-- What a pass of the loop over the true tracks does: the two counters `_nLost` and
`_nFoundCompletely` go up according to the flags of the true track, nothing else changes. -/
theorem TrackingFeedbackProcessor.countLostAndFound_counters
    (self : TrackingFeedbackProcessor) (p : TrueTrackPtr) :
    (self.countLostAndFound p).nLost =
        self.nLost + (if (self.heap p).isLost = true then 1 else 0) ∧
    (self.countLostAndFound p).nFoundCompletely =
        self.nFoundCompletely + (if (self.heap p).isFoundCompletely = true then 1 else 0) ∧
    (self.countLostAndFound p).heap = self.heap ∧
    (self.countLostAndFound p).trueTracks = self.trueTracks ∧
    (self.countLostAndFound p).nTrueTracks = self.nTrueTracks ∧
    (self.countLostAndFound p).nRecoTracks = self.nRecoTracks ∧
    (self.countLostAndFound p).nGhost = self.nGhost ∧
    (self.countLostAndFound p).nComplete = self.nComplete ∧
    (self.countLostAndFound p).nCompletePlus = self.nCompletePlus ∧
    (self.countLostAndFound p).nIncomplete = self.nIncomplete ∧
    (self.countLostAndFound p).nIncompletePlus = self.nIncompletePlus := by
  simp only [TrackingFeedbackProcessor.countLostAndFound]
  split_ifs <;> simp

/-- The loop over the true tracks: `_nLost` goes up by the number of true tracks of the list
that are lost, `_nFoundCompletely` by the number of those that are found completely, and
nothing else changes. -/
theorem TrackingFeedbackProcessor.foldl_countLostAndFound (ps : List TrueTrackPtr) :
    ∀ st : TrackingFeedbackProcessor,
      (ps.foldl TrackingFeedbackProcessor.countLostAndFound st).nLost =
          st.nLost + ps.countP (fun p => (st.heap p).isLost) ∧
      (ps.foldl TrackingFeedbackProcessor.countLostAndFound st).nFoundCompletely =
          st.nFoundCompletely + ps.countP (fun p => (st.heap p).isFoundCompletely) ∧
      (ps.foldl TrackingFeedbackProcessor.countLostAndFound st).heap = st.heap ∧
      (ps.foldl TrackingFeedbackProcessor.countLostAndFound st).trueTracks = st.trueTracks ∧
      (ps.foldl TrackingFeedbackProcessor.countLostAndFound st).nTrueTracks = st.nTrueTracks ∧
      (ps.foldl TrackingFeedbackProcessor.countLostAndFound st).nRecoTracks = st.nRecoTracks ∧
      (ps.foldl TrackingFeedbackProcessor.countLostAndFound st).nGhost = st.nGhost ∧
      (ps.foldl TrackingFeedbackProcessor.countLostAndFound st).nComplete = st.nComplete ∧
      (ps.foldl TrackingFeedbackProcessor.countLostAndFound st).nCompletePlus =
        st.nCompletePlus ∧
      (ps.foldl TrackingFeedbackProcessor.countLostAndFound st).nIncomplete = st.nIncomplete ∧
      (ps.foldl TrackingFeedbackProcessor.countLostAndFound st).nIncompletePlus =
        st.nIncompletePlus := by
  induction ps with
  | nil =>
    intro st
    simp
  | cons p ps ih =>
    intro st
    rw [List.foldl_cons]
    obtain ⟨h1, h2, h3, h4, h5, h6, h7, h8, h9, h10, h11⟩ := ih (st.countLostAndFound p)
    obtain ⟨g1, g2, g3, g4, g5, g6, g7, g8, g9, g10, g11⟩ :=
      TrackingFeedbackProcessor.countLostAndFound_counters st p
    rw [g3] at h1 h2
    refine ⟨?_, ?_, by rw [h3, g3], by rw [h4, g4], by rw [h5, g5], by rw [h6, g6],
      by rw [h7, g7], by rw [h8, g8], by rw [h9, g9], by rw [h10, g10], by rw [h11, g11]⟩
    · rw [h1, g1, List.countP_cons]
      omega
    · rw [h2, g2, List.countP_cons]
      omega

/-- Storing the true tracks leaves the counters of the reconstructed tracks, `_nLost`,
`_nFoundCompletely`, `_nTrueTracks` and `_nRecoTracks` as they are. -/
theorem TrackingFeedbackProcessor.foldl_storeTrueTrack_counters (cuts : TrackingFeedbackCuts)
    (newTrueTrack : Track → TrueTrack) (mcTracks : List MCTrackRelation) :
    ∀ st : TrackingFeedbackProcessor,
      (mcTracks.foldl (TrackingFeedbackProcessor.storeTrueTrack cuts newTrueTrack) st).nGhost =
        st.nGhost ∧
      (mcTracks.foldl (TrackingFeedbackProcessor.storeTrueTrack cuts newTrueTrack) st).nComplete =
        st.nComplete ∧
      (mcTracks.foldl (TrackingFeedbackProcessor.storeTrueTrack cuts newTrueTrack)
        st).nCompletePlus = st.nCompletePlus ∧
      (mcTracks.foldl (TrackingFeedbackProcessor.storeTrueTrack cuts newTrueTrack)
        st).nIncomplete = st.nIncomplete ∧
      (mcTracks.foldl (TrackingFeedbackProcessor.storeTrueTrack cuts newTrueTrack)
        st).nIncompletePlus = st.nIncompletePlus ∧
      (mcTracks.foldl (TrackingFeedbackProcessor.storeTrueTrack cuts newTrueTrack) st).nLost =
        st.nLost ∧
      (mcTracks.foldl (TrackingFeedbackProcessor.storeTrueTrack cuts newTrueTrack)
        st).nFoundCompletely = st.nFoundCompletely ∧
      (mcTracks.foldl (TrackingFeedbackProcessor.storeTrueTrack cuts newTrueTrack)
        st).nRecoTracks = st.nRecoTracks := by
  induction mcTracks with
  | nil =>
    intro st
    simp
  | cons rel mcTracks ih =>
    intro st
    rw [List.foldl_cons]
    obtain ⟨h1, h2, h3, h4, h5, h6, h7, h8⟩ :=
      ih (TrackingFeedbackProcessor.storeTrueTrack cuts newTrueTrack st rel)
    rw [h1, h2, h3, h4, h5, h6, h7, h8]
    simp only [TrackingFeedbackProcessor.storeTrueTrack]
    split_ifs <;> simp [TrackingFeedbackProcessor.store]

/-- The counters after the first part of `processEvent`. -/
theorem TrackingFeedbackProcessor.storeTrueTracks_counters (self : TrackingFeedbackProcessor)
    (cuts : TrackingFeedbackCuts) (newTrueTrack : Track → TrueTrack)
    (mcTracks : List MCTrackRelation) :
    (self.storeTrueTracks cuts newTrueTrack mcTracks).nGhost = 0 ∧
    (self.storeTrueTracks cuts newTrueTrack mcTracks).nComplete = 0 ∧
    (self.storeTrueTracks cuts newTrueTrack mcTracks).nCompletePlus = 0 ∧
    (self.storeTrueTracks cuts newTrueTrack mcTracks).nIncomplete = 0 ∧
    (self.storeTrueTracks cuts newTrueTrack mcTracks).nIncompletePlus = 0 ∧
    (self.storeTrueTracks cuts newTrueTrack mcTracks).nLost = 0 ∧
    (self.storeTrueTracks cuts newTrueTrack mcTracks).nFoundCompletely = 0 ∧
    (self.storeTrueTracks cuts newTrueTrack mcTracks).nRecoTracks = 0 ∧
    (self.storeTrueTracks cuts newTrueTrack mcTracks).nTrueTracks =
      (self.storeTrueTracks cuts newTrueTrack mcTracks).trueTracks.length := by
  simp only [TrackingFeedbackProcessor.storeTrueTracks]
  generalize hst : ({ self with
      nComplete := 0
      nCompletePlus := 0
      nLost := 0
      nIncomplete := 0
      nIncompletePlus := 0
      nGhost := 0
      nFoundCompletely := 0
      nTrueTracks := 0
      nRecoTracks := 0
      nDismissedTrueTracks := 0
      trueTracks := [] } : TrackingFeedbackProcessor) = st0
  obtain ⟨h1, h2, h3, h4, h5, h6, h7, h8⟩ :=
    TrackingFeedbackProcessor.foldl_storeTrueTrack_counters cuts newTrueTrack mcTracks st0
  simp only [h1, h2, h3, h4, h5, h6, h7, h8]
  subst hst
  simp

/-- The counters after the part of `processEvent` that checks the reconstructed tracks. -/
theorem TrackingFeedbackProcessor.checkRecoTracks_counters (st : TrackingFeedbackProcessor)
    (col : List Track) :
    (st.checkRecoTracks col).nGhost + (st.checkRecoTracks col).nComplete +
        (st.checkRecoTracks col).nCompletePlus + (st.checkRecoTracks col).nIncomplete +
        (st.checkRecoTracks col).nIncompletePlus =
      st.nGhost + st.nComplete + st.nCompletePlus + st.nIncomplete + st.nIncompletePlus +
        col.length ∧
    (st.checkRecoTracks col).nRecoTracks = col.length ∧
    (st.checkRecoTracks col).nTrueTracks = st.nTrueTracks ∧
    (st.checkRecoTracks col).trueTracks = st.trueTracks := by
  simp only [TrackingFeedbackProcessor.checkRecoTracks]
  obtain ⟨h1, h2, h3, h4, _, _⟩ := TrackingFeedbackProcessor.foldl_checkTheTrack_counters col
    { st with nRecoTracks := col.length }
  obtain ⟨_, _, _, g4, g5, g6, g7, g8, g9, g10, g11⟩ :=
    TrackingFeedbackProcessor.foldl_countLostAndFound
      (col.foldl TrackingFeedbackProcessor.checkTheTrack
        { st with nRecoTracks := col.length }).trueTracks
      (col.foldl TrackingFeedbackProcessor.checkTheTrack { st with nRecoTracks := col.length })
  rw [g4, g5, g6, g7, g8, g9, g10, g11, h1, h2, h3, h4]
  exact ⟨rfl, rfl, rfl, rfl⟩

/-- C21: each call of `checkTheTrack` increments exactly one of the five counters `nGhost`,
`nComplete`, `nCompletePlus`, `nIncomplete`, `nIncompletePlus` by one and leaves the other four
unchanged; hence after `processEvent`
`nGhost + nComplete + nCompletePlus + nIncomplete + nIncompletePlus` equals `nRecoTracks`,
which is the number of the reconstructed tracks of the collection. -/
theorem checkTheTrack_increments_exactly_one_counter (self : TrackingFeedbackProcessor) :
    (∀ track : Track,
      (self.checkTheTrack track).nGhost = self.nGhost + 1 ∧
        (self.checkTheTrack track).nComplete = self.nComplete ∧
        (self.checkTheTrack track).nCompletePlus = self.nCompletePlus ∧
        (self.checkTheTrack track).nIncomplete = self.nIncomplete ∧
        (self.checkTheTrack track).nIncompletePlus = self.nIncompletePlus ∨
      (self.checkTheTrack track).nGhost = self.nGhost ∧
        (self.checkTheTrack track).nComplete = self.nComplete + 1 ∧
        (self.checkTheTrack track).nCompletePlus = self.nCompletePlus ∧
        (self.checkTheTrack track).nIncomplete = self.nIncomplete ∧
        (self.checkTheTrack track).nIncompletePlus = self.nIncompletePlus ∨
      (self.checkTheTrack track).nGhost = self.nGhost ∧
        (self.checkTheTrack track).nComplete = self.nComplete ∧
        (self.checkTheTrack track).nCompletePlus = self.nCompletePlus + 1 ∧
        (self.checkTheTrack track).nIncomplete = self.nIncomplete ∧
        (self.checkTheTrack track).nIncompletePlus = self.nIncompletePlus ∨
      (self.checkTheTrack track).nGhost = self.nGhost ∧
        (self.checkTheTrack track).nComplete = self.nComplete ∧
        (self.checkTheTrack track).nCompletePlus = self.nCompletePlus ∧
        (self.checkTheTrack track).nIncomplete = self.nIncomplete + 1 ∧
        (self.checkTheTrack track).nIncompletePlus = self.nIncompletePlus ∨
      (self.checkTheTrack track).nGhost = self.nGhost ∧
        (self.checkTheTrack track).nComplete = self.nComplete ∧
        (self.checkTheTrack track).nCompletePlus = self.nCompletePlus ∧
        (self.checkTheTrack track).nIncomplete = self.nIncomplete ∧
        (self.checkTheTrack track).nIncompletePlus = self.nIncompletePlus + 1) ∧
    (∀ (cuts : TrackingFeedbackCuts) (newTrueTrack : Track → TrueTrack)
      (mcTracks : List MCTrackRelation) (col : Option (List Track)),
      (self.processEvent cuts newTrueTrack mcTracks col).1.nGhost +
          (self.processEvent cuts newTrueTrack mcTracks col).1.nComplete +
          (self.processEvent cuts newTrueTrack mcTracks col).1.nCompletePlus +
          (self.processEvent cuts newTrueTrack mcTracks col).1.nIncomplete +
          (self.processEvent cuts newTrueTrack mcTracks col).1.nIncompletePlus =
        (self.processEvent cuts newTrueTrack mcTracks col).1.nRecoTracks ∧
      ∀ tracks, col = some tracks →
        (self.processEvent cuts newTrueTrack mcTracks col).1.nRecoTracks = tracks.length) := by
  refine ⟨fun track => (TrackingFeedbackProcessor.checkTheTrack_counters self track).1, ?_⟩
  intro cuts newTrueTrack mcTracks col
  obtain ⟨s1, s2, s3, s4, s5, _, _, s8, _⟩ :=
    TrackingFeedbackProcessor.storeTrueTracks_counters self cuts newTrueTrack mcTracks
  cases col with
  | none =>
    simp only [TrackingFeedbackProcessor.processEvent, s1, s2, s3, s4, s5, s8]
    exact ⟨trivial, fun tracks h => absurd h (by simp)⟩
  | some tracks =>
    obtain ⟨h1, h2, _, _⟩ := TrackingFeedbackProcessor.checkRecoTracks_counters
      (self.storeTrueTracks cuts newTrueTrack mcTracks) tracks
    simp only [TrackingFeedbackProcessor.processEvent, h1, h2, s1, s2, s3, s4, s5]
    refine ⟨by omega, fun tracks2 h => ?_⟩
    injection h with h
    rw [h]

/-- Witness of C21 on the example event: three reconstructed tracks are checked, and the five
counters add up to three. -/
theorem checkTheTrack_increments_exactly_one_counter_witness :
    (oneTrueTrackEvent.processEvent exampleCuts exampleNewTrueTrack exampleMCTracks
        (some exampleRecoTracks)).1.nGhost +
      (oneTrueTrackEvent.processEvent exampleCuts exampleNewTrueTrack exampleMCTracks
        (some exampleRecoTracks)).1.nComplete +
      (oneTrueTrackEvent.processEvent exampleCuts exampleNewTrueTrack exampleMCTracks
        (some exampleRecoTracks)).1.nCompletePlus +
      (oneTrueTrackEvent.processEvent exampleCuts exampleNewTrueTrack exampleMCTracks
        (some exampleRecoTracks)).1.nIncomplete +
      (oneTrueTrackEvent.processEvent exampleCuts exampleNewTrueTrack exampleMCTracks
        (some exampleRecoTracks)).1.nIncompletePlus = 3 := by
  obtain ⟨hsum, hlen⟩ := (checkTheTrack_increments_exactly_one_counter oneTrueTrackEvent).2
    exampleCuts exampleNewTrueTrack exampleMCTracks (some exampleRecoTracks)
  rw [hsum, hlen exampleRecoTracks rfl]
  rfl

/-! ## Theorems: TrackingFeedbackProcessor, the flags of the true tracks -/

/-- What a call of `checkTheTrack` does to the flags of a true track: `isFoundCompletely`
stays set, `isLost` stays cleared, and `isFoundCompletely` is set only together with `isLost`
cleared. -/
theorem TrackingFeedbackProcessor.checkTheTrack_flags (self : TrackingFeedbackProcessor)
    (track : Track) (p : TrueTrackPtr) :
    (((self.heap p).isFoundCompletely = true → (self.heap p).isLost = false) →
      (((self.checkTheTrack track).heap p).isFoundCompletely = true →
        ((self.checkTheTrack track).heap p).isLost = false)) ∧
    ((self.heap p).isFoundCompletely = true →
      ((self.checkTheTrack track).heap p).isFoundCompletely = true) ∧
    ((self.heap p).isLost = false → ((self.checkTheTrack track).heap p).isLost = false) := by
  simp only [TrackingFeedbackProcessor.checkTheTrack]
  split_ifs with h1 h2 h3 h4
  · exact ⟨fun h => h, fun h => h, fun h => h⟩
  all_goals
    simp only [TrackingFeedbackProcessor.store]
    by_cases hp : p = (self.getAssignedTrueTrack (self.relatedTrueTracks track.trackerHits) 0).1
    · simp only [if_pos hp]
      subst hp
      simp
    · simp only [if_neg hp]
      exact ⟨fun h => h, fun h => h, fun h => h⟩

/-- The loop over the reconstructed tracks keeps, for a true track, that `isFoundCompletely`
implies not `isLost`. -/
theorem TrackingFeedbackProcessor.foldl_checkTheTrack_flags (col : List Track)
    (p : TrueTrackPtr) :
    ∀ st : TrackingFeedbackProcessor,
      ((st.heap p).isFoundCompletely = true → (st.heap p).isLost = false) →
      (((col.foldl TrackingFeedbackProcessor.checkTheTrack st).heap p).isFoundCompletely = true →
        ((col.foldl TrackingFeedbackProcessor.checkTheTrack st).heap p).isLost = false) := by
  induction col with
  | nil =>
    intro st h
    exact h
  | cons track col ih =>
    intro st h
    rw [List.foldl_cons]
    exact ih (st.checkTheTrack track)
      ((TrackingFeedbackProcessor.checkTheTrack_flags st track p).1 h)

/-- The true tracks that `processEvent` stores are not found completely, when the constructor
of `TrueTrack` makes them so. -/
theorem TrackingFeedbackProcessor.foldl_storeTrueTrack_flags (cuts : TrackingFeedbackCuts)
    (newTrueTrack : Track → TrueTrack)
    (hnew : ∀ track, (newTrueTrack track).isFoundCompletely = false)
    (mcTracks : List MCTrackRelation) :
    ∀ st : TrackingFeedbackProcessor,
      (∀ p, p ∈ st.trueTracks → (st.heap p).isFoundCompletely = false) →
      ∀ p, p ∈ (mcTracks.foldl (TrackingFeedbackProcessor.storeTrueTrack cuts newTrueTrack)
          st).trueTracks →
        ((mcTracks.foldl (TrackingFeedbackProcessor.storeTrueTrack cuts newTrueTrack)
          st).heap p).isFoundCompletely = false := by
  induction mcTracks with
  | nil =>
    intro st h p hp
    exact h p hp
  | cons rel mcTracks ih =>
    intro st h
    rw [List.foldl_cons]
    apply ih
    intro p hp
    simp only [TrackingFeedbackProcessor.storeTrueTrack] at hp ⊢
    split_ifs at hp ⊢ with hc
    · simp only [TrackingFeedbackProcessor.store] at hp ⊢
      by_cases hpa : p = rel.address
      · rw [if_pos hpa]
        exact hnew rel.track
      · rw [if_neg hpa]
        rcases List.mem_append.mp hp with h1 | h1
        · exact h p h1
        · exact absurd (List.mem_singleton.mp h1) hpa
    · exact h p hp

/-- In a list of true tracks none of which is both lost and found completely, the lost ones and
the completely found ones are together at most as many as the list is long. -/
theorem countP_lost_add_countP_found_le (heap : TrueTrackPtr → TrueTrack)
    (ps : List TrueTrackPtr)
    (h : ∀ p, p ∈ ps → (heap p).isFoundCompletely = true → (heap p).isLost = false) :
    ps.countP (fun p => (heap p).isFoundCompletely) + ps.countP (fun p => (heap p).isLost) ≤
      ps.length := by
  induction ps with
  | nil => simp
  | cons p ps ih =>
    have ih2 := ih (fun q hq => h q (List.mem_cons_of_mem p hq))
    have hp := h p (List.mem_cons_self p ps)
    rw [List.countP_cons, List.countP_cons, List.length_cons]
    cases hf : (heap p).isFoundCompletely with
    | false =>
      simp only [Bool.false_eq_true, if_false, Nat.add_zero]
      split_ifs <;> omega
    | true =>
      rw [hp hf]
      simp only [if_true, Bool.false_eq_true, if_false, Nat.add_zero]
      omega

/-- After the part of `processEvent` that checks the reconstructed tracks, started with
`_nLost = 0`: the lost true tracks are at most as many as the true tracks. -/
theorem TrackingFeedbackProcessor.checkRecoTracks_nLost_le (st : TrackingFeedbackProcessor)
    (col : List Track) (hlost : st.nLost = 0) :
    (st.checkRecoTracks col).nLost ≤ st.trueTracks.length := by
  simp only [TrackingFeedbackProcessor.checkRecoTracks]
  generalize hst1 : ({ st with nRecoTracks := col.length } : TrackingFeedbackProcessor) = st1
  have e1 : st1.nLost = 0 := by
    rw [← hst1]
    exact hlost
  have e2 : st1.trueTracks = st.trueTracks := by
    rw [← hst1]
  obtain ⟨_, h2, _, _, h5, _⟩ :=
    TrackingFeedbackProcessor.foldl_checkTheTrack_counters col st1
  obtain ⟨g1, _⟩ :=
    TrackingFeedbackProcessor.foldl_countLostAndFound
      (col.foldl TrackingFeedbackProcessor.checkTheTrack st1).trueTracks
      (col.foldl TrackingFeedbackProcessor.checkTheTrack st1)
  rw [g1, h5, h2, e1, e2]
  have hle := List.countP_le_length
    (fun p => ((col.foldl TrackingFeedbackProcessor.checkTheTrack st1).heap p).isLost)
    (l := st.trueTracks)
  omega

/-- After the part of `processEvent` that checks the reconstructed tracks, started with
`_nLost = 0`, `_nFoundCompletely = 0` and true tracks that are not found completely: the lost
and the completely found true tracks are together at most as many as the true tracks. -/
theorem TrackingFeedbackProcessor.checkRecoTracks_found_add_lost_le
    (st : TrackingFeedbackProcessor) (col : List Track)
    (hlost : st.nLost = 0) (hfound : st.nFoundCompletely = 0)
    (hflags : ∀ p, p ∈ st.trueTracks → (st.heap p).isFoundCompletely = false) :
    (st.checkRecoTracks col).nFoundCompletely + (st.checkRecoTracks col).nLost ≤
      st.trueTracks.length := by
  simp only [TrackingFeedbackProcessor.checkRecoTracks]
  generalize hst1 : ({ st with nRecoTracks := col.length } : TrackingFeedbackProcessor) = st1
  have e0 : st1.nFoundCompletely = 0 := by
    rw [← hst1]
    exact hfound
  have e1 : st1.nLost = 0 := by
    rw [← hst1]
    exact hlost
  have e2 : st1.trueTracks = st.trueTracks := by
    rw [← hst1]
  have e3 : st1.heap = st.heap := by
    rw [← hst1]
  obtain ⟨_, h2, _, _, h5, h6⟩ :=
    TrackingFeedbackProcessor.foldl_checkTheTrack_counters col st1
  obtain ⟨g1, g2, _⟩ :=
    TrackingFeedbackProcessor.foldl_countLostAndFound
      (col.foldl TrackingFeedbackProcessor.checkTheTrack st1).trueTracks
      (col.foldl TrackingFeedbackProcessor.checkTheTrack st1)
  rw [g1, g2, h5, h6, h2, e0, e1, e2]
  have hinv : ∀ p, p ∈ st.trueTracks →
      ((col.foldl TrackingFeedbackProcessor.checkTheTrack st1).heap p).isFoundCompletely =
        true →
      ((col.foldl TrackingFeedbackProcessor.checkTheTrack st1).heap p).isLost = false := by
    intro p hp
    apply TrackingFeedbackProcessor.foldl_checkTheTrack_flags col p
    intro hf
    have hfalse : (st.heap p).isFoundCompletely = false := hflags p hp
    rw [e3, hfalse] at hf
    exact absurd hf (by decide)
  have := countP_lost_add_countP_found_le
    (col.foldl TrackingFeedbackProcessor.checkTheTrack st1).heap st.trueTracks hinv
  omega

/-- The true tracks after the first part of `processEvent` are not found completely, when the
constructor of `TrueTrack` makes them so. -/
theorem TrackingFeedbackProcessor.storeTrueTracks_flags (self : TrackingFeedbackProcessor)
    (cuts : TrackingFeedbackCuts) (newTrueTrack : Track → TrueTrack)
    (hnew : ∀ track, (newTrueTrack track).isFoundCompletely = false)
    (mcTracks : List MCTrackRelation) (p : TrueTrackPtr)
    (hp : p ∈ (self.storeTrueTracks cuts newTrueTrack mcTracks).trueTracks) :
    ((self.storeTrueTracks cuts newTrueTrack mcTracks).heap p).isFoundCompletely = false := by
  simp only [TrackingFeedbackProcessor.storeTrueTracks] at hp ⊢
  exact TrackingFeedbackProcessor.foldl_storeTrueTrack_flags cuts newTrueTrack hnew mcTracks _
    (fun q hq => absurd hq (List.not_mem_nil q)) p hp

/-- C22: `checkTheTrack` preserves, for every true track, that `isFoundCompletely` implies not
`isLost`, and it resets neither flag (`isFoundCompletely` stays set, `isLost` stays cleared);
so, for a constructor of `TrueTrack` that starts the true tracks with
`isFoundCompletely = false`, `processEvent` ends with
`nFoundCompletely + nLost <= nTrueTracks`. -/
theorem checkTheTrack_keeps_found_implies_not_lost (self : TrackingFeedbackProcessor) :
    (∀ (track : Track) (p : TrueTrackPtr),
      (((self.heap p).isFoundCompletely = true → (self.heap p).isLost = false) →
        (((self.checkTheTrack track).heap p).isFoundCompletely = true →
          ((self.checkTheTrack track).heap p).isLost = false)) ∧
      ((self.heap p).isFoundCompletely = true →
        ((self.checkTheTrack track).heap p).isFoundCompletely = true) ∧
      ((self.heap p).isLost = false → ((self.checkTheTrack track).heap p).isLost = false)) ∧
    (∀ (cuts : TrackingFeedbackCuts) (newTrueTrack : Track → TrueTrack),
      (∀ track, (newTrueTrack track).isFoundCompletely = false) →
      ∀ (mcTracks : List MCTrackRelation) (col : Option (List Track)),
        (self.processEvent cuts newTrueTrack mcTracks col).1.nFoundCompletely +
            (self.processEvent cuts newTrueTrack mcTracks col).1.nLost ≤
          (self.processEvent cuts newTrueTrack mcTracks col).1.nTrueTracks) := by
  refine ⟨fun track p => TrackingFeedbackProcessor.checkTheTrack_flags self track p, ?_⟩
  intro cuts newTrueTrack hnew mcTracks col
  obtain ⟨_, _, _, _, _, s6, s7, _, s9⟩ :=
    TrackingFeedbackProcessor.storeTrueTracks_counters self cuts newTrueTrack mcTracks
  cases col with
  | none =>
    simp only [TrackingFeedbackProcessor.processEvent, s6, s7]
    omega
  | some tracks =>
    have hle := TrackingFeedbackProcessor.checkRecoTracks_found_add_lost_le
      (self.storeTrueTracks cuts newTrueTrack mcTracks) tracks s6 s7
      (fun p hp => TrackingFeedbackProcessor.storeTrueTracks_flags self cuts newTrueTrack hnew
        mcTracks p hp)
    obtain ⟨_, _, h3, _⟩ := TrackingFeedbackProcessor.checkRecoTracks_counters
      (self.storeTrueTracks cuts newTrueTrack mcTracks) tracks
    simp only [TrackingFeedbackProcessor.processEvent, h3, s9]
    exact hle

/-- Witness of C22 on the example event, whose true tracks start as not found completely. -/
theorem checkTheTrack_keeps_found_implies_not_lost_witness :
    (∀ track, (exampleNewTrueTrack track).isFoundCompletely = false) ∧
    (oneTrueTrackEvent.processEvent exampleCuts exampleNewTrueTrack exampleMCTracks
        (some exampleRecoTracks)).1.nFoundCompletely +
      (oneTrueTrackEvent.processEvent exampleCuts exampleNewTrueTrack exampleMCTracks
        (some exampleRecoTracks)).1.nLost ≤
    (oneTrueTrackEvent.processEvent exampleCuts exampleNewTrueTrack exampleMCTracks
        (some exampleRecoTracks)).1.nTrueTracks :=
  ⟨fun _ => rfl,
    (checkTheTrack_keeps_found_implies_not_lost oneTrueTrackEvent).2 exampleCuts
      exampleNewTrueTrack (fun _ => rfl) exampleMCTracks (some exampleRecoTracks)⟩

/-! ## Theorems: TrackingFeedbackProcessor, the statistics of an event -/

/-- The five rates in a state in which the lost true tracks are at most as many as the true
tracks. -/
theorem TrackingFeedbackProcessor.statistics_rates (st : TrackingFeedbackProcessor)
    (hlost : st.nLost ≤ st.nTrueTracks) :
    (0 < st.nTrueTracks →
      st.statistics.pLost = (st.nLost : ℚ) / (st.nTrueTracks : ℚ) ∧
      st.statistics.efficiency = 1 - st.statistics.pLost ∧
      st.statistics.pComplete = (st.nComplete : ℚ) / (st.nTrueTracks : ℚ) ∧
      st.statistics.pFoundCompletely = (st.nFoundCompletely : ℚ) / (st.nTrueTracks : ℚ)) ∧
    (0 < st.nRecoTracks →
      st.statistics.ghostrate = (st.nGhost : ℚ) / (st.nRecoTracks : ℚ)) ∧
    (st.statistics.pLost = -1 ↔ st.nTrueTracks = 0) ∧
    (st.statistics.efficiency = -1 ↔ st.nTrueTracks = 0) ∧
    (st.statistics.pComplete = -1 ↔ st.nTrueTracks = 0) ∧
    (st.statistics.pFoundCompletely = -1 ↔ st.nTrueTracks = 0) ∧
    (st.statistics.ghostrate = -1 ↔ st.nRecoTracks = 0) := by
  have hquot : ∀ a b : Nat, (a : ℚ) / (b : ℚ) ≠ -1 := by
    intro a b h
    have h0 : (0 : ℚ) ≤ (a : ℚ) / (b : ℚ) := div_nonneg (Nat.cast_nonneg a) (Nat.cast_nonneg b)
    rw [h] at h0
    norm_num at h0
  by_cases hT : 0 < st.nTrueTracks
  · have hT0 : st.nTrueTracks ≠ 0 := Nat.pos_iff_ne_zero.mp hT
    have hTq : (0 : ℚ) < (st.nTrueTracks : ℚ) := by exact_mod_cast hT
    have hle1 : (st.nLost : ℚ) / (st.nTrueTracks : ℚ) ≤ 1 := by
      rw [div_le_one hTq]
      exact_mod_cast hlost
    have heff : (1 : ℚ) - (st.nLost : ℚ) / (st.nTrueTracks : ℚ) ≠ -1 := by
      intro h
      linarith
    by_cases hR : 0 < st.nRecoTracks
    · have hR0 : st.nRecoTracks ≠ 0 := Nat.pos_iff_ne_zero.mp hR
      simp only [TrackingFeedbackProcessor.statistics, gt_iff_lt, hT, hR, if_true, hT0, hR0,
        iff_false, true_implies]
      exact ⟨⟨trivial, trivial, trivial, trivial⟩, trivial, hquot _ _, heff, hquot _ _,
        hquot _ _, hquot _ _⟩
    · have hR0 : st.nRecoTracks = 0 := by omega
      simp only [TrackingFeedbackProcessor.statistics, gt_iff_lt, hT, hR, if_true, if_false,
        hT0, hR0, iff_false, iff_true, true_implies, false_implies, lt_self_iff_false]
      exact ⟨⟨trivial, trivial, trivial, trivial⟩, trivial, hquot _ _, heff, hquot _ _,
        hquot _ _, trivial⟩
  · have hT0 : st.nTrueTracks = 0 := by omega
    by_cases hR : 0 < st.nRecoTracks
    · have hR0 : st.nRecoTracks ≠ 0 := Nat.pos_iff_ne_zero.mp hR
      simp only [TrackingFeedbackProcessor.statistics, gt_iff_lt, hT, hR, if_true, if_false,
        hT0, hR0, iff_false, iff_true, true_implies, false_implies, lt_self_iff_false]
      exact ⟨trivial, trivial, trivial, trivial, trivial, trivial, hquot _ _⟩
    · have hR0 : st.nRecoTracks = 0 := by omega
      simp only [TrackingFeedbackProcessor.statistics, gt_iff_lt, hT, hR, if_true, if_false,
        hT0, hR0, iff_false, iff_true, true_implies, false_implies, lt_self_iff_false]
      exact ⟨trivial, trivial, trivial, trivial, trivial, trivial, trivial⟩

/-- C23: the per-event feedback statistics of `processEvent`, for an event with a collection of
reconstructed tracks. The vector `data` holds the five rates of the counters with which
`processEvent` ends; when `nTrueTracks > 0`, `pLost = nLost/nTrueTracks`,
`efficiency = 1 - pLost`, `pComplete = nComplete/nTrueTracks` and
`pFoundCompletely = nFoundCompletely/nTrueTracks`; when `nRecoTracks > 0`,
`ghostrate = nGhost/nRecoTracks`; and each of the five rates is the sentinel `-1` exactly when
its denominator is 0, every division being guarded by the test of its denominator. -/
theorem processEvent_statistics (self : TrackingFeedbackProcessor)
    (cuts : TrackingFeedbackCuts) (newTrueTrack : Track → TrueTrack)
    (mcTracks : List MCTrackRelation) (tracks : List Track) :
    (self.processEvent cuts newTrueTrack mcTracks (some tracks)).2 =
      some (self.processEvent cuts newTrueTrack mcTracks (some tracks)).1.data ∧
    (self.processEvent cuts newTrueTrack mcTracks (some tracks)).1.data.take 5 =
      [("efficiency",
          (self.processEvent cuts newTrueTrack mcTracks (some tracks)).1.statistics.efficiency),
        ("ghostrate",
          (self.processEvent cuts newTrueTrack mcTracks (some tracks)).1.statistics.ghostrate),
        ("pLost",
          (self.processEvent cuts newTrueTrack mcTracks (some tracks)).1.statistics.pLost),
        ("pComplete",
          (self.processEvent cuts newTrueTrack mcTracks (some tracks)).1.statistics.pComplete),
        ("pFoundCompletely",
          (self.processEvent cuts newTrueTrack mcTracks
            (some tracks)).1.statistics.pFoundCompletely)] ∧
    (0 < (self.processEvent cuts newTrueTrack mcTracks (some tracks)).1.nTrueTracks →
      (self.processEvent cuts newTrueTrack mcTracks (some tracks)).1.statistics.pLost =
        ((self.processEvent cuts newTrueTrack mcTracks (some tracks)).1.nLost : ℚ) /
          ((self.processEvent cuts newTrueTrack mcTracks (some tracks)).1.nTrueTracks : ℚ) ∧
      (self.processEvent cuts newTrueTrack mcTracks (some tracks)).1.statistics.efficiency =
        1 - (self.processEvent cuts newTrueTrack mcTracks (some tracks)).1.statistics.pLost ∧
      (self.processEvent cuts newTrueTrack mcTracks (some tracks)).1.statistics.pComplete =
        ((self.processEvent cuts newTrueTrack mcTracks (some tracks)).1.nComplete : ℚ) /
          ((self.processEvent cuts newTrueTrack mcTracks (some tracks)).1.nTrueTracks : ℚ) ∧
      (self.processEvent cuts newTrueTrack mcTracks
          (some tracks)).1.statistics.pFoundCompletely =
        ((self.processEvent cuts newTrueTrack mcTracks
            (some tracks)).1.nFoundCompletely : ℚ) /
          ((self.processEvent cuts newTrueTrack mcTracks (some tracks)).1.nTrueTracks : ℚ)) ∧
    (0 < (self.processEvent cuts newTrueTrack mcTracks (some tracks)).1.nRecoTracks →
      (self.processEvent cuts newTrueTrack mcTracks (some tracks)).1.statistics.ghostrate =
        ((self.processEvent cuts newTrueTrack mcTracks (some tracks)).1.nGhost : ℚ) /
          ((self.processEvent cuts newTrueTrack mcTracks (some tracks)).1.nRecoTracks : ℚ)) ∧
    ((self.processEvent cuts newTrueTrack mcTracks (some tracks)).1.statistics.pLost = -1 ↔
      (self.processEvent cuts newTrueTrack mcTracks (some tracks)).1.nTrueTracks = 0) ∧
    ((self.processEvent cuts newTrueTrack mcTracks (some tracks)).1.statistics.efficiency =
        -1 ↔
      (self.processEvent cuts newTrueTrack mcTracks (some tracks)).1.nTrueTracks = 0) ∧
    ((self.processEvent cuts newTrueTrack mcTracks (some tracks)).1.statistics.pComplete =
        -1 ↔
      (self.processEvent cuts newTrueTrack mcTracks (some tracks)).1.nTrueTracks = 0) ∧
    ((self.processEvent cuts newTrueTrack mcTracks
          (some tracks)).1.statistics.pFoundCompletely = -1 ↔
      (self.processEvent cuts newTrueTrack mcTracks (some tracks)).1.nTrueTracks = 0) ∧
    ((self.processEvent cuts newTrueTrack mcTracks (some tracks)).1.statistics.ghostrate =
        -1 ↔
      (self.processEvent cuts newTrueTrack mcTracks (some tracks)).1.nRecoTracks = 0) := by
  have hlost : (self.processEvent cuts newTrueTrack mcTracks (some tracks)).1.nLost ≤
      (self.processEvent cuts newTrueTrack mcTracks (some tracks)).1.nTrueTracks := by
    obtain ⟨_, _, _, _, _, s6, _, _, s9⟩ :=
      TrackingFeedbackProcessor.storeTrueTracks_counters self cuts newTrueTrack mcTracks
    have hle := TrackingFeedbackProcessor.checkRecoTracks_nLost_le
      (self.storeTrueTracks cuts newTrueTrack mcTracks) tracks s6
    obtain ⟨_, _, h3, _⟩ := TrackingFeedbackProcessor.checkRecoTracks_counters
      (self.storeTrueTracks cuts newTrueTrack mcTracks) tracks
    simp only [TrackingFeedbackProcessor.processEvent, h3, s9]
    exact hle
  exact ⟨rfl, rfl,
    TrackingFeedbackProcessor.statistics_rates
      (self.processEvent cuts newTrueTrack mcTracks (some tracks)).1 hlost⟩

/-- Witness of C23 on the example event: two true tracks are stored and three reconstructed
tracks are checked, so the rates are quotients by 2 and by 3 and not the sentinel. -/
theorem processEvent_statistics_witness :
    (oneTrueTrackEvent.processEvent exampleCuts exampleNewTrueTrack exampleMCTracks
        (some exampleRecoTracks)).1.nTrueTracks = 2 ∧
    (oneTrueTrackEvent.processEvent exampleCuts exampleNewTrueTrack exampleMCTracks
        (some exampleRecoTracks)).1.nRecoTracks = 3 ∧
    (oneTrueTrackEvent.processEvent exampleCuts exampleNewTrueTrack exampleMCTracks
        (some exampleRecoTracks)).1.statistics.pLost =
      ((oneTrueTrackEvent.processEvent exampleCuts exampleNewTrueTrack exampleMCTracks
        (some exampleRecoTracks)).1.nLost : ℚ) / 2 ∧
    (oneTrueTrackEvent.processEvent exampleCuts exampleNewTrueTrack exampleMCTracks
        (some exampleRecoTracks)).1.statistics.ghostrate =
      ((oneTrueTrackEvent.processEvent exampleCuts exampleNewTrueTrack exampleMCTracks
        (some exampleRecoTracks)).1.nGhost : ℚ) / 3 ∧
    (oneTrueTrackEvent.processEvent exampleCuts exampleNewTrueTrack exampleMCTracks
        (some exampleRecoTracks)).1.statistics.efficiency ≠ -1 := by
  have hstored : (oneTrueTrackEvent.storeTrueTracks exampleCuts exampleNewTrueTrack
      exampleMCTracks).nTrueTracks = 2 := by
    norm_num [TrackingFeedbackProcessor.storeTrueTracks,
      TrackingFeedbackProcessor.storeTrueTrack, TrackingFeedbackProcessor.store,
      exampleMCTracks, exampleCuts]
  obtain ⟨_, hreco, htrue, _⟩ := TrackingFeedbackProcessor.checkRecoTracks_counters
    (oneTrueTrackEvent.storeTrueTracks exampleCuts exampleNewTrueTrack exampleMCTracks)
    exampleRecoTracks
  have hT : (oneTrueTrackEvent.processEvent exampleCuts exampleNewTrueTrack exampleMCTracks
      (some exampleRecoTracks)).1.nTrueTracks = 2 := by
    simp only [TrackingFeedbackProcessor.processEvent, htrue, hstored]
  have hR : (oneTrueTrackEvent.processEvent exampleCuts exampleNewTrueTrack exampleMCTracks
      (some exampleRecoTracks)).1.nRecoTracks = 3 := by
    simp only [TrackingFeedbackProcessor.processEvent, hreco]
    rfl
  obtain ⟨_, _, h1, h2, _, h4, _, _, _⟩ := processEvent_statistics oneTrueTrackEvent
    exampleCuts exampleNewTrueTrack exampleMCTracks exampleRecoTracks
  refine ⟨hT, hR, ?_, ?_, ?_⟩
  · rw [(h1 (by rw [hT]; decide)).1, hT]
    norm_num
  · rw [h2 (by rw [hR]; decide), hR]
    norm_num
  · intro heff
    have := h4.mp heff
    rw [hT] at this
    exact absurd this (by decide)

/-! ## Theorems: IFTDHit, the fields after a setter -/

/-- The location fields after `calculateSector()` are the ones before. -/
theorem IFTDHit.calculateSector_fields (hit : IFTDHit) :
    (hit.calculateSector).1.side = hit.side ∧ (hit.calculateSector).1.layer = hit.layer ∧
    (hit.calculateSector).1.module = hit.module ∧
    (hit.calculateSector).1.sensor = hit.sensor := by
  unfold IFTDHit.calculateSector
  cases hit.sectorSystemFTD.getSector hit.side hit.layer hit.module hit.sensor with
  | error e => exact ⟨rfl, rfl, rfl, rfl⟩
  | ok s => exact ⟨rfl, rfl, rfl, rfl⟩

/-- The location fields after each setter: `setSide`, `setLayer` and `setModule` write their
own field and leave the other three as they are; `setSensor` writes the layer and leaves the
sensor, the side and the module as they are. -/
theorem IFTDHit.setters_fields (hit : IFTDHit) :
    (∀ side : Int, (hit.setSide side).1.getSide = side ∧
      (hit.setSide side).1.layer = hit.layer ∧ (hit.setSide side).1.getModule = hit.module ∧
      (hit.setSide side).1.getSensor = hit.sensor) ∧
    (∀ layer : Nat, (hit.setLayer layer).1.layer = layer ∧
      (hit.setLayer layer).1.getSide = hit.side ∧
      (hit.setLayer layer).1.getModule = hit.module ∧
      (hit.setLayer layer).1.getSensor = hit.sensor) ∧
    (∀ module : Nat, (hit.setModule module).1.getModule = module ∧
      (hit.setModule module).1.getSide = hit.side ∧
      (hit.setModule module).1.layer = hit.layer ∧
      (hit.setModule module).1.getSensor = hit.sensor) ∧
    (∀ sensor : Nat, (hit.setSensor sensor).1.layer = sensor ∧
      (hit.setSensor sensor).1.getSensor = hit.sensor ∧
      (hit.setSensor sensor).1.getSide = hit.side ∧
      (hit.setSensor sensor).1.getModule = hit.module) := by
  refine ⟨fun side => ?_, fun layer => ?_, fun module => ?_, fun sensor => ?_⟩
  · obtain ⟨h1, h2, h3, h4⟩ := IFTDHit.calculateSector_fields { hit with side := side }
    exact ⟨h1, h2, h3, h4⟩
  · obtain ⟨h1, h2, h3, h4⟩ := IFTDHit.calculateSector_fields { hit with layer := layer }
    exact ⟨h2, h1, h3, h4⟩
  · obtain ⟨h1, h2, h3, h4⟩ := IFTDHit.calculateSector_fields { hit with module := module }
    exact ⟨h3, h1, h2, h4⟩
  · obtain ⟨h1, h2, h3, h4⟩ := IFTDHit.calculateSector_fields { hit with layer := sensor }
    exact ⟨h2, h4, h1, h3⟩

/-- The run of `setSensor` on which C24 fails: on a hit on side `+1`, layer 2, module 0 and
sensor 0 of the example sector system (sector 18), `setSensor( 1 )` returns without exception,
and afterwards `getSensor()` still returns 0, the layer is 1 instead of 2, and the sector is
17, the sector of layer 1 and sensor 0. -/
theorem IFTDHit_setSensor_writes_the_layer :
    ((⟨1, 2, 0, 0, radixSectorSystemFTD 4 2 2, 18⟩ : IFTDHit).setSensor 1).2 = none ∧
    ((⟨1, 2, 0, 0, radixSectorSystemFTD 4 2 2, 18⟩ : IFTDHit).setSensor 1).1.getSensor = 0 ∧
    ((⟨1, 2, 0, 0, radixSectorSystemFTD 4 2 2, 18⟩ : IFTDHit).setSensor 1).1.layer = 1 ∧
    ((⟨1, 2, 0, 0, radixSectorSystemFTD 4 2 2, 18⟩ : IFTDHit).setSensor 1).1.sector = 17 ∧
    (radixSectorSystemFTD 4 2 2).getSector 1 2 0 0 = Except.ok 18 ∧
    (radixSectorSystemFTD 4 2 2).getSector 1 2 0 1 = Except.ok 26 :=
  ⟨rfl, rfl, rfl, rfl, rfl, rfl⟩

end ForwardTracking
